import Mathlib

/-!
# Derecho group membership: view changes in `ViewManager`

A shallow embedding of the view-change core of `src/derecho/view_manager.cpp`
(`make_next_view`, `new_suspicion`, `receive_join`, `leader_start_join`,
`min_acked`, `leader_commit_change`, the ragged-edge cleanup,
`truncate_persistent_logs`, the persistence barrier of `terminate_epoch`, the
quorum test and the heartbeat loop of `await_rejoining_nodes`, the heartbeat
loop of `await_first_view`, `update_curr_and_next_restart_view`,
`report_failure`, `acknowledge_proposed_change`, `make_subgroup_maps`,
`compute_num_received_size`) and of the delta buffer of
`src/include/derecho/cascade/detail/cascade_impl.hpp`, together with theorems
about them.

Conventions of the embedding:

* `std::vector` values are lists; an index outside a vector or outside an SST
  row has no defined behaviour in C++ and is reported as `Fault.out_of_range`.
* a thrown `derecho_exception` is reported as `Fault.thrown`.
* `int` counters are integers; the 32-bit view id is checked for signed
  overflow where it is incremented.
* `std::set<int>` is a strictly ascending list, `std::map` a list of
  (key, value) pairs in ascending key order.
* `size_t` and `uint32_t` arithmetic is taken modulo `2^64` and `2^32`.
* calls into collaborators (persistence, multicast group) are recorded as a
  list of `Effect`s.
-/

namespace Derecho

/-! ## Data model -/

abbrev node_id_t := Nat

abbrev ip_addr := String

/-- The `derecho_exception`s thrown by the embedded functions, one constructor
per `throw` site. -/
inductive derecho_exception where
  /-- Message "Majority of a Derecho group simultaneously failed ... shutting down". -/
  | majority_failed
  /-- Message "Potential partitioning event: this node is no longer in the majority and must
  shut down!". -/
  | potential_partition
  /-- Message "Ran out of room in the pending changes list". -/
  | changes_full
  /-- Message "Too many changes to allow a Join right now". -/
  | too_many_changes
  /-- Message "Recovery leader wasn't in the next view it computed?!?!". -/
  | recovery_leader_excluded
  /-- Message "Some other node reported that I failed.  Node N terminating", `N` the local id. -/
  | reported_failed (myID : node_id_t)
  /-- Message "Failed to allocate delta buffer." of the cascade store. -/
  | delta_allocation_failed
deriving DecidableEq, Repr

/-- The two exceptions with which `new_suspicion` reports a partition. -/
def derecho_exception.is_partition_error : derecho_exception → Bool
  | .majority_failed => true
  | .potential_partition => true
  | _ => false

/-- Ways in which an embedded function does not return normally. -/
inductive Fault where
  /-- A `derecho_exception` propagates out of the function. -/
  | thrown (e : derecho_exception)
  /-- A vector or an SST row is indexed outside its bounds. -/
  | out_of_range
  /-- Signed 32-bit arithmetic overflows. -/
  | signed_overflow
  /-- An `assert` does not hold. -/
  | assertion_failed
  /-- The bound that the embedding puts on the iterations of a `while` loop is
  reached: the loop of the source has not left by its test. -/
  | out_of_fuel
deriving DecidableEq, Repr

/-- Fields of an SST row that are named in `put` calls. -/
inductive SSTField where
  | suspected | wedged | changes | joiner_ips | num_changes | num_committed
  | num_acked | num_installed | num_received | global_min | global_min_ready
deriving DecidableEq, Repr

/-- Length argument of `put`: either a number of entries of one field
(`sizeof(field[0][i]) * count`) or the distance between the bases of two
fields (`upto.get_base() - field.get_base()`). -/
inductive PutSize where
  | entries (count : Nat)
  | up_to (upto : SSTField)
deriving DecidableEq, Repr

/-- One `gmsSST.put(offset, size)` call: the range starts at column `column`
of `field`. -/
structure SSTPut where
  field : SSTField
  column : Nat
  size : PutSize
deriving DecidableEq, Repr

/-- The shared state table, one list entry per row (member rank) for every
field. `changes_size` and `joiner_ips_size` are `changes.size()` and
`joiner_ips.size()`, the fixed capacity of the two vectors of every row; the
class that fixes them is declared outside `src/`, so they are parameters of
the table. `frozen` lists the rows passed to `freeze` and `puts` the calls of
`put`, in order. -/
structure DerechoSST where
  local_index : Nat
  suspected : List (List Bool)
  wedged : List Bool
  changes_size : Nat
  changes : List (List node_id_t)
  joiner_ips_size : Nat
  joiner_ips : List (List Nat)
  num_changes : List Int
  num_committed : List Int
  num_acked : List Int
  num_installed : List Int
  num_received : List (List Int)
  global_min : List (List Int)
  global_min_ready : List (List Bool)
  delivered_num : List (List Int)
  persisted_num : List (List Int)
  vid : List Int
  frozen : List Nat
  puts : List SSTPut
deriving DecidableEq, Repr

abbrev subgroup_id_t := Nat

/-- The delivery mode of a shard. -/
inductive Mode where
  | ORDERED | UNORDERED
deriving DecidableEq, Repr

/-- The sub-view of one shard: its members, which of them send, its mode, the
rank of the local node in the shard (−1 when it is not a member) and the
changes against the previous view. -/
structure SubView where
  mode : Mode
  members : List node_id_t
  is_sender : List Bool
  my_rank : Int
  joined : List node_id_t
  departed : List node_id_t
deriving DecidableEq, Repr

/-- The membership view. `gmsSST` and `multicast_group` are held by the
`ViewManager` state below. `num_members` and `my_rank` are naturals: a negative
rank indexes outside every vector. `my_subgroups` is a `std::map` from
subgroup id to shard number, kept as a list of pairs in ascending key order;
`subgroup_ids_by_type` is a `std::map` from subgroup type (a `std::type_index`,
here a number) to the ids of the subgroups of that type. -/
structure View where
  vid : Int
  members : List node_id_t
  member_ips : List ip_addr
  failed : List Bool
  num_failed : Int
  joined : List node_id_t
  departed : List node_id_t
  num_members : Nat
  my_rank : Nat
  next_unassigned_rank : Int
  i_know_i_am_leader : Bool
  is_adequately_provisioned : Bool := true
  subgroup_shard_views : List (List SubView) := []
  my_subgroups : List (subgroup_id_t × Nat) := []
  subgroup_ids_by_type : List (Nat × List subgroup_id_t) := []
deriving DecidableEq, Repr

/-! ## Vector access -/

/-- Read `v[i]`. -/
def vec_get {α : Type} (v : List α) (i : Nat) : Except Fault α :=
  match v[i]? with
  | some a => .ok a
  | none => .error .out_of_range

/-- Write `v[i] = a`. -/
def vec_set {α : Type} (v : List α) (i : Nat) (a : α) : Except Fault (List α) :=
  if i < v.length then .ok (v.set i a) else .error .out_of_range

/-- Conversion of an `int` to an index; a negative value is outside every vector. -/
def to_index (i : Int) : Except Fault Nat :=
  if 0 ≤ i then .ok i.toNat else .error .out_of_range

/-- Read `field[row][i]` of a vector field of the SST. -/
def sst_get {α : Type} (field : List (List α)) (row i : Nat) : Except Fault α := do
  let r ← vec_get field row
  vec_get r i

/-- Write `field[row][i] = a`. -/
def sst_set {α : Type} (field : List (List α)) (row i : Nat) (a : α) :
    Except Fault (List (List α)) := do
  let r ← vec_get field row
  let r2 ← vec_set r i a
  vec_set field row r2

/-- Insert into a `std::set<int>`, kept strictly ascending. -/
def set_emplace : List Nat → Nat → List Nat
  | [], x => [x]
  | y :: ys, x =>
    if x < y then x :: y :: ys
    else if x = y then y :: ys
    else y :: set_emplace ys x

/-! ## Members of `View` that are declared outside `src/` -/

/-- Modelled from the spec: `View::rank_of` is declared in the view class, which
is not part of the sources at hand. "Rank: position of a node in the current
View's member vector; −1 sentinel when absent." -/
def View.rank_of (v : View) (who : node_id_t) : Int :=
  if who ∈ v.members then (v.members.indexOf who : Int) else -1

/-- Modelled from the spec: `View::rank_of_leader` is declared in the view
class. The leader is the lowest-ranked member that is not failed (the spec
says so for shard leaders); −1 when every member is failed. -/
def View.rank_of_leader (v : View) : Int :=
  match v.failed.indexOf? false with
  | some r => (r : Int)
  | none => -1

/-- Modelled from the spec: `View::i_am_leader` is declared in the view class;
the local node is the leader when the leader's rank is its own. -/
def View.i_am_leader (v : View) : Bool :=
  decide (v.rank_of_leader = (v.my_rank : Int))

/-- Modelled from the spec: the `View` constructor is declared in the view
class. It stores its arguments, sets `num_members` to the number of members
and `num_failed` to the number of set entries of `failed`
("`num_failed = popcount(failed)`"). -/
def View.make (vid : Int) (members : List node_id_t) (member_ips : List ip_addr)
    (failed : List Bool) (joined departed : List node_id_t) (my_rank : Nat)
    (next_unassigned_rank : Int) : View :=
  { vid := vid, members := members, member_ips := member_ips, failed := failed,
    num_failed := (failed.count true : Int), joined := joined, departed := departed,
    num_members := members.length, my_rank := my_rank,
    next_unassigned_rank := next_unassigned_rank, i_know_i_am_leader := false }

/-- The value of `curr_view->vid + 1` in 32-bit signed arithmetic. -/
def next_vid (vid : Int) : Except Fault Int :=
  if vid + 1 < 2147483648 then .ok (vid + 1) else .error .signed_overflow

/-! ## `ViewManager::make_next_view(curr_view, gmsSST, logger)` -/

/-- The loop over `change_index < committed_count`: a committed change whose
id has a rank in the current view is a leave, any other one is a join. The
accumulator is `(leave_ranks, join_indexes)`. -/
def filter_changes (curr_view : View) (gmsSST : DerechoSST) :
    (change_index remaining : Nat) → List Nat × List Nat →
      Except Fault (List Nat × List Nat)
  | _, 0, acc => .ok acc
  | change_index, remaining + 1, (leave_ranks, join_indexes) => do
    let change_id ← sst_get gmsSST.changes curr_view.my_rank change_index
    let change_rank := curr_view.rank_of change_id
    if change_rank ≠ -1 then
      filter_changes curr_view gmsSST (change_index + 1) remaining
        (set_emplace leave_ranks change_rank.toNat, join_indexes)
    else
      filter_changes curr_view gmsSST (change_index + 1) remaining
        (leave_ranks, join_indexes ++ [change_index])

/-- The loop over `i < join_indexes.size()`: joiner `i` is appended to `joined`
and written at rank `num_members - leave_ranks.size() + i`. The accumulator is
`(joined, members, member_ips)`. -/
def add_joiners (inet_ntoa : Nat → ip_addr) (curr_view : View) (gmsSST : DerechoSST)
    (leave_count : Nat) :
    (i : Nat) → (rest : List Nat) → List node_id_t × List node_id_t × List ip_addr →
      Except Fault (List node_id_t × List node_id_t × List ip_addr)
  | _, [], acc => .ok acc
  | i, join_index :: rest, (joined, members, member_ips) => do
    let joiner_id ← sst_get gmsSST.changes curr_view.my_rank join_index
    let joiner_ip_packed ← sst_get gmsSST.joiner_ips curr_view.my_rank join_index
    let joiner_ip := inet_ntoa joiner_ip_packed
    let new_member_rank ← to_index ((curr_view.num_members : Int) - leave_count + i)
    let members2 ← vec_set members new_member_rank joiner_id
    let member_ips2 ← vec_set member_ips new_member_rank joiner_ip
    add_joiners inet_ntoa curr_view gmsSST leave_count (i + 1) rest
      (joined ++ [joiner_id], members2, member_ips2)

/-- The loop over `leave_ranks` in ascending order: the leaver is appended to
`departed`, and `next_unassigned_rank` is decremented when the leaver's rank is
not above the current view's `next_unassigned_rank`. -/
def add_departed (curr_view : View) :
    (rest : List Nat) → List node_id_t × Int → Except Fault (List node_id_t × Int)
  | [], acc => .ok acc
  | leaver_rank :: rest, (departed, next_unassigned_rank) => do
    let leaver ← vec_get curr_view.members leaver_rank
    add_departed curr_view rest
      (departed ++ [leaver],
       if (leaver_rank : Int) ≤ curr_view.next_unassigned_rank
       then next_unassigned_rank - 1 else next_unassigned_rank)

/-- The loop over `old_rank < num_members`: a member whose rank is not in
`leave_ranks` is copied to the next free rank. The accumulator is
`(new_rank, members, member_ips, failed)`. -/
def copy_members (curr_view : View) (leave_ranks : List Nat) :
    (old_rank remaining : Nat) → Nat × List node_id_t × List ip_addr × List Bool →
      Except Fault (Nat × List node_id_t × List ip_addr × List Bool)
  | _, 0, acc => .ok acc
  | old_rank, remaining + 1, (new_rank, members, member_ips, failed) =>
    if old_rank ∉ leave_ranks then do
      let m ← vec_get curr_view.members old_rank
      let members2 ← vec_set members new_rank m
      let ip ← vec_get curr_view.member_ips old_rank
      let member_ips2 ← vec_set member_ips new_rank ip
      let f ← vec_get curr_view.failed old_rank
      let failed2 ← vec_set failed new_rank f
      copy_members curr_view leave_ranks (old_rank + 1) remaining
        (new_rank + 1, members2, member_ips2, failed2)
    else
      copy_members curr_view leave_ranks (old_rank + 1) remaining
        (new_rank, members, member_ips, failed)

/-- The loop over `i < next_num_members` that looks for `myID`; the result is
`my_new_rank`, −1 when the id is not found. -/
def find_my_new_rank (members : List node_id_t) (myID : node_id_t) :
    (i remaining : Nat) → Except Fault Int
  | _, 0 => .ok (-1)
  | i, remaining + 1 => do
    let m ← vec_get members i
    if m = myID then .ok (i : Int) else find_my_new_rank members myID (i + 1) remaining

/-- The next view computed from the committed changes of the SST. `inet_ntoa`
is the C library conversion of a packed address to a string. -/
def make_next_view (inet_ntoa : Nat → ip_addr) (curr_view : View) (gmsSST : DerechoSST) :
    Except Fault View := do
  let myRank := curr_view.my_rank
  let leader ← to_index curr_view.rank_of_leader
  let committed ← vec_get gmsSST.num_committed leader
  let installed ← vec_get gmsSST.num_installed leader
  let committed_count : Int := committed - installed
  let (leave_ranks, join_indexes) ←
    filter_changes curr_view gmsSST 0 committed_count.toNat ([], [])
  let next_num_members ←
    to_index ((curr_view.num_members : Int) - leave_ranks.length + join_indexes.length)
  let (joined, members1, member_ips1) ←
    add_joiners inet_ntoa curr_view gmsSST leave_ranks.length 0 join_indexes
      ([], List.replicate next_num_members 0, List.replicate next_num_members "")
  let (departed, next_unassigned_rank) ←
    add_departed curr_view leave_ranks ([], curr_view.next_unassigned_rank)
  let (_, members, member_ips, failed) ←
    copy_members curr_view leave_ranks 0 curr_view.num_members
      (0, members1, member_ips1, List.replicate next_num_members false)
  let myID ← vec_get curr_view.members myRank
  let my_new_rank ← find_my_new_rank members myID 0 next_num_members
  if my_new_rank = -1 then
    .error (.thrown (.reported_failed myID))
  else do
    let vid ← next_vid curr_view.vid
    .ok { View.make vid members member_ips failed joined departed my_new_rank.toNat
            next_unassigned_rank with
          i_know_i_am_leader := curr_view.i_know_i_am_leader }

/-! ## `ViewManager::make_next_view(curr_view, joiner_ids, joiner_ips, logger)` -/

/-- The loop over `rank < curr_view->failed.size()` that collects the ranks of
the failed members. -/
def failed_ranks (failed : List Bool) : (rank remaining : Nat) → List Nat → Except Fault (List Nat)
  | _, 0, leave_ranks => .ok leave_ranks
  | rank, remaining + 1, leave_ranks => do
    let f ← vec_get failed rank
    failed_ranks failed (rank + 1) remaining
      (if f then set_emplace leave_ranks rank else leave_ranks)

/-- The loop over `i < joiner_ids.size()` of the restart variant. The
accumulator is `(members, member_ips)`. -/
def add_restart_joiners (curr_view : View) (joiner_ids : List node_id_t)
    (joiner_ips : List ip_addr) (leave_count : Nat) :
    (i remaining : Nat) → List node_id_t × List ip_addr →
      Except Fault (List node_id_t × List ip_addr)
  | _, 0, acc => .ok acc
  | i, remaining + 1, (members, member_ips) => do
    let new_member_rank ← to_index ((curr_view.num_members : Int) - leave_count + i)
    let joiner_id ← vec_get joiner_ids i
    let members2 ← vec_set members new_member_rank joiner_id
    let joiner_ip ← vec_get joiner_ips i
    let member_ips2 ← vec_set member_ips new_member_rank joiner_ip
    add_restart_joiners curr_view joiner_ids joiner_ips leave_count (i + 1) remaining
      (members2, member_ips2)

/-- The next view computed after a total restart: the failed members leave and
the given joiners are added. -/
def make_next_view_restart (curr_view : View) (joiner_ids : List node_id_t)
    (joiner_ips : List ip_addr) : Except Fault View := do
  let next_num_members ←
    to_index ((curr_view.num_members : Int) - curr_view.num_failed + joiner_ids.length)
  let leave_ranks ← failed_ranks curr_view.failed 0 curr_view.failed.length []
  let (members1, member_ips1) ←
    add_restart_joiners curr_view joiner_ids joiner_ips leave_ranks.length 0 joiner_ids.length
      (List.replicate next_num_members 0, List.replicate next_num_members "")
  let (departed, next_unassigned_rank) ←
    add_departed curr_view leave_ranks ([], curr_view.next_unassigned_rank)
  let (_, members, member_ips, failed) ←
    copy_members curr_view leave_ranks 0 curr_view.num_members
      (0, members1, member_ips1, List.replicate next_num_members false)
  let myID ← vec_get curr_view.members curr_view.my_rank
  let my_new_rank ← find_my_new_rank members myID 0 next_num_members
  if my_new_rank = -1 then
    .error (.thrown .recovery_leader_excluded)
  else do
    let vid ← next_vid curr_view.vid
    .ok { View.make vid members member_ips failed joiner_ids departed my_new_rank.toNat
            next_unassigned_rank with
          i_know_i_am_leader := curr_view.i_know_i_am_leader }

/-! ## Specification-side helpers -/

/-- The list `l` with the block `xs` written over positions `start ..`. -/
def write_at {α : Type} (l : List α) (start : Nat) (xs : List α) : List α :=
  l.take start ++ xs ++ l.drop (start + xs.length)

/-- The local row of `changes`, which `make_next_view` reads. -/
def changes_row (v : View) (sst : DerechoSST) : List node_id_t :=
  sst.changes.getD v.my_rank []

/-- The local row of `joiner_ips`. -/
def joiner_ips_row (v : View) (sst : DerechoSST) : List Nat :=
  sst.joiner_ips.getD v.my_rank []

/-- The number of committed and not yet installed changes, read from the
leader's row: `num_committed[leader] - num_installed[leader]`. -/
def committed_count (v : View) (sst : DerechoSST) : Nat :=
  (sst.num_committed.getD v.rank_of_leader.toNat 0
    - sst.num_installed.getD v.rank_of_leader.toNat 0).toNat

/-- The committed leading part of the local `changes` row. -/
def committed_changes (v : View) (sst : DerechoSST) : List node_id_t :=
  (changes_row v sst).take (committed_count v sst)

/-- The ranks of the current view that a list of change ids names, ascending. -/
def leave_ranks_of (v : View) (cs : List node_id_t) : List Nat :=
  (List.range v.members.length).filter (fun r => cs.any (fun c => decide (v.rank_of c = (r : Int))))

/-- The ranks of the current view that a list of change ids does not name, ascending. -/
def stay_ranks_of (v : View) (cs : List node_id_t) : List Nat :=
  (List.range v.members.length).filter (fun r => !cs.any (fun c => decide (v.rank_of c = (r : Int))))

/-- The positions of a list of change ids that hold ids without a rank in the
current view, ascending. -/
def join_indexes_of (v : View) (cs : List node_id_t) : List Nat :=
  (List.range cs.length).filter (fun i => decide (v.rank_of (cs.getD i 0) = -1))

/-- The current view and the SST fit together: the vectors of the view have
one entry per member, the local rank is a rank of the view, the view id can be
incremented, the leader's counters and the local rows exist, and the committed
changes lie inside the `changes` and `joiner_ips` rows. -/
abbrev next_view_inputs_ok (v : View) (sst : DerechoSST) : Prop :=
  v.num_members = v.members.length ∧ v.member_ips.length = v.members.length ∧
  v.failed.length = v.members.length ∧ v.my_rank < v.members.length ∧
  v.vid + 1 < 2147483648 ∧
  0 ≤ v.rank_of_leader ∧ v.rank_of_leader.toNat < sst.num_committed.length ∧
  v.rank_of_leader.toNat < sst.num_installed.length ∧
  v.my_rank < sst.changes.length ∧ v.my_rank < sst.joiner_ips.length ∧
  committed_count v sst ≤ (changes_row v sst).length ∧
  committed_count v sst ≤ (joiner_ips_row v sst).length

/-! ## The view manager and its sockets -/

/-- The codes of a `JoinResponse`. -/
inductive JoinResponseCode where
  | OK | ID_IN_USE | LEADER_REDIRECT | TOTAL_RESTART
deriving DecidableEq, Repr

structure JoinResponse where
  code : JoinResponseCode
  leader_id : node_id_t
deriving DecidableEq, Repr

/-- A TCP connection to a joining client: the address of the peer, the node ids
the peer has sent and that are still to be read, and the responses written so
far. -/
structure Socket where
  remote_ip : ip_addr
  incoming : List node_id_t
  written : List JoinResponse
deriving DecidableEq, Repr

/-- `client_socket.read(id)` with `id` initialised to `fallback`: the next id
the peer sent, or the untouched `fallback` when the read fails. -/
def Socket.read (s : Socket) (fallback : node_id_t) : node_id_t × Socket :=
  match s.incoming with
  | [] => (fallback, s)
  | x :: rest => (x, { s with incoming := rest })

/-- `client_socket.write(response)`. -/
def Socket.write (s : Socket) (r : JoinResponse) : Socket :=
  { s with written := s.written ++ [r] }

/-- The part of the `ViewManager` that the view-change triggers use. `gmsSST` is
`curr_view->gmsSST`; `multicast_wedged` records that `multicast_group->wedge()`
has been called. -/
structure ViewManager where
  curr_view : View
  gmsSST : DerechoSST
  multicast_wedged : Bool
  last_suspected : List Bool
  pending_join_sockets : List Socket
  proposed_join_sockets : List Socket
deriving DecidableEq, Repr

/-- `gmsSST.put(offset, size)`. -/
def DerechoSST.put (sst : DerechoSST) (field : SSTField) (column : Nat) (size : PutSize) :
    DerechoSST :=
  { sst with puts := sst.puts ++ [{ field := field, column := column, size := size }] }

/-- Modelled from the spec: `View::wedge` is declared in the view class. To
"wedge the current view" the multicast group is wedged, the local `wedged`
flag of the SST is set and the flag is published. -/
def ViewManager.wedge (vm : ViewManager) : Except Fault ViewManager := do
  let wedged ← vec_set vm.gmsSST.wedged vm.curr_view.my_rank true
  .ok { vm with
        multicast_wedged := true,
        gmsSST := ({ vm.gmsSST with wedged := wedged }).put .wedged 0 (.entries 1) }

/-! ## `ViewManager::receive_join` and `ViewManager::leader_start_join` -/

/-- The leader handles the join request on `client_socket`. The result is the
returned flag, the new state and the socket after the exchange. `inet_aton` is
the C library conversion of an address string to its packed form. -/
def receive_join (inet_aton : ip_addr → Nat) (vm : ViewManager) (client_socket : Socket) :
    Except Fault (Bool × ViewManager × Socket) := do
  let curr_view := vm.curr_view
  let gmsSST := vm.gmsSST
  let num_changes ← vec_get gmsSST.num_changes curr_view.my_rank
  let num_committed ← vec_get gmsSST.num_committed curr_view.my_rank
  if num_changes - num_committed = (gmsSST.changes_size : Int) then
    .error (.thrown .too_many_changes)
  else do
    let joiner_ip_packed := inet_aton client_socket.remote_ip
    let (joining_client_id, socket1) := client_socket.read 0
    if curr_view.rank_of joining_client_id ≠ -1 then do
      let my_id ← vec_get curr_view.members curr_view.my_rank
      .ok (false, vm, socket1.write { code := .ID_IN_USE, leader_id := my_id })
    else do
      let my_id ← vec_get curr_view.members curr_view.my_rank
      let socket2 := socket1.write { code := .OK, leader_id := my_id }
      let num_installed ← vec_get gmsSST.num_installed curr_view.my_rank
      let next_change ← to_index (num_changes - num_installed)
      let changes ← sst_set gmsSST.changes curr_view.my_rank next_change joining_client_id
      let joiner_ips ← sst_set gmsSST.joiner_ips curr_view.my_rank next_change joiner_ip_packed
      let num_changes_col ← vec_set gmsSST.num_changes curr_view.my_rank (num_changes + 1)
      let vm1 ← ({ vm with gmsSST := { gmsSST with changes := changes, joiner_ips := joiner_ips,
                                                    num_changes := num_changes_col } }).wedge
      .ok (true, { vm1 with gmsSST := vm1.gmsSST.put .changes 0 (.up_to .num_committed) },
           socket2)

/-- The leader moves the first pending socket to the end of
`proposed_join_sockets` and handles its join request; the socket is removed
again when the join is refused. -/
def leader_start_join (inet_aton : ip_addr → Nat) (vm : ViewManager) :
    Except Fault ViewManager :=
  match vm.pending_join_sockets with
  | [] => .error .out_of_range
  | client_socket :: pending => do
    let vm1 := { vm with pending_join_sockets := pending,
                         proposed_join_sockets := vm.proposed_join_sockets ++ [client_socket] }
    let (success, vm2, socket) ← receive_join inet_aton vm1 client_socket
    -- the socket that `receive_join` used is the last proposed one
    let proposed := vm2.proposed_join_sockets.dropLast ++ [socket]
    if !success then .ok { vm2 with proposed_join_sockets := proposed.dropLast }
    else .ok { vm2 with proposed_join_sockets := proposed }

/-! ## `ViewManager::min_acked`, commit and acknowledgement -/

/-- The loop over `n < failed.size()` of `min_acked`. -/
def min_acked_loop (gmsSST : DerechoSST) (failed : List Bool) :
    (n remaining : Nat) → Int → Except Fault Int
  | _, 0, min => .ok min
  | n, remaining + 1, min => do
    let f ← vec_get failed n
    if !f then do
      let acked ← vec_get gmsSST.num_acked n
      if acked < min then min_acked_loop gmsSST failed (n + 1) remaining acked
      else min_acked_loop gmsSST failed (n + 1) remaining min
    else min_acked_loop gmsSST failed (n + 1) remaining min

def min_acked (gmsSST : DerechoSST) (failed : List Bool) : Except Fault Int := do
  let myRank := gmsSST.local_index
  let min ← vec_get gmsSST.num_acked myRank
  min_acked_loop gmsSST failed 0 failed.length min

/-- The predicate `change_commit_ready` of `register_predicates`. -/
def change_commit_ready (vm : ViewManager) : Except Fault Bool :=
  if vm.curr_view.i_am_leader then do
    let acked ← min_acked vm.gmsSST vm.curr_view.failed
    let committed ← vec_get vm.gmsSST.num_committed vm.gmsSST.local_index
    .ok (decide (acked > committed))
  else .ok false

def leader_commit_change (vm : ViewManager) : Except Fault ViewManager := do
  let acked ← min_acked vm.gmsSST vm.curr_view.failed
  let num_committed ← vec_set vm.gmsSST.num_committed vm.gmsSST.local_index acked
  .ok { vm with gmsSST :=
          ({ vm.gmsSST with num_committed := num_committed }).put .num_committed 0 (.entries 1) }

/-- The predicate `leader_proposed_change` of `register_predicates`. -/
def leader_proposed_change (vm : ViewManager) : Except Fault Bool := do
  let leader ← to_index vm.curr_view.rank_of_leader
  let num_changes ← vec_get vm.gmsSST.num_changes leader
  let num_acked ← vec_get vm.gmsSST.num_acked vm.gmsSST.local_index
  .ok (decide (num_changes > num_acked))

/-- The three-argument `gmssst::set(dst, src, size)`: the first `size` entries of
`src` are copied over those of `dst`. -/
def copy_entries {α : Type} (dst src : List α) (size : Nat) : Except Fault (List α) :=
  if size ≤ src.length ∧ size ≤ dst.length then .ok (src.take size ++ dst.drop size)
  else .error .out_of_range

def acknowledge_proposed_change (vm : ViewManager) : Except Fault ViewManager := do
  let myRank := vm.gmsSST.local_index
  let leader ← to_index vm.curr_view.rank_of_leader
  let sst1 ←
    if myRank ≠ leader then do
      let leader_changes ← vec_get vm.gmsSST.num_changes leader
      let num_changes ← vec_set vm.gmsSST.num_changes myRank leader_changes
      let leader_row ← vec_get vm.gmsSST.changes leader
      let my_row ← vec_get vm.gmsSST.changes myRank
      let new_row ← copy_entries my_row leader_row vm.gmsSST.changes_size
      let changes ← vec_set vm.gmsSST.changes myRank new_row
      let leader_ips ← vec_get vm.gmsSST.joiner_ips leader
      let my_ips ← vec_get vm.gmsSST.joiner_ips myRank
      let new_ips ← copy_entries my_ips leader_ips vm.gmsSST.joiner_ips_size
      let joiner_ips ← vec_set vm.gmsSST.joiner_ips myRank new_ips
      let leader_committed ← vec_get vm.gmsSST.num_committed leader
      let num_committed ← vec_set vm.gmsSST.num_committed myRank leader_committed
      .ok { vm.gmsSST with num_changes := num_changes, changes := changes,
                           joiner_ips := joiner_ips, num_committed := num_committed }
    else .ok vm.gmsSST
  let my_changes ← vec_get sst1.num_changes myRank
  let num_acked ← vec_set sst1.num_acked myRank my_changes
  let sst2 := ({ sst1 with num_acked := num_acked }).put .changes 0 (.up_to .num_received)
  ({ vm with gmsSST := sst2 }).wedge

/-! ## `ViewManager::new_suspicion` -/

/-- The inner loop over `who < num_members`: the suspicions of row `r` are
or-ed into the local row. -/
def aggregate_row (myRank r : Nat) :
    (who remaining : Nat) → List (List Bool) → Except Fault (List (List Bool))
  | _, 0, suspected => .ok suspected
  | who, remaining + 1, suspected => do
    let mine ← sst_get suspected myRank who
    let value ← if mine then .ok true else sst_get suspected r who
    let suspected2 ← sst_set suspected myRank who value
    aggregate_row myRank r (who + 1) remaining suspected2

/-- The outer loop over `r < num_members`. -/
def aggregate_suspicions (myRank num_members : Nat) :
    (r remaining : Nat) → List (List Bool) → Except Fault (List (List Bool))
  | _, 0, suspected => .ok suspected
  | r, remaining + 1, suspected => do
    let suspected2 ← aggregate_row myRank r 0 num_members suspected
    aggregate_suspicions myRank num_members (r + 1) remaining suspected2

/-- The loop over `p_index` of `changes_contains`. -/
def changes_contains_loop (gmsSST : DerechoSST) (q : node_id_t) (myRow : Nat) :
    (p_index remaining : Nat) → Except Fault Bool
  | _, 0 => .ok false
  | p_index, remaining + 1 => do
    let p ← sst_get gmsSST.changes myRow p_index
    if p = q then .ok true else changes_contains_loop gmsSST q myRow (p_index + 1) remaining

def changes_contains (gmsSST : DerechoSST) (q : node_id_t) : Except Fault Bool := do
  let myRow := gmsSST.local_index
  let num_changes ← vec_get gmsSST.num_changes myRow
  let num_installed ← vec_get gmsSST.num_installed myRow
  changes_contains_loop gmsSST q myRow 0 (num_changes - num_installed).toNat

/-- The last part of the body of the loop of `new_suspicion`, "Leader
initiated": the leader appends the failed member `q` to `changes` unless the
pending changes already contain it. -/
def propose_failed_member (vm : ViewManager) (q : Nat) : Except Fault ViewManager := do
  let Vc := vm.curr_view
  let myRank := Vc.my_rank
  let gmsSST := vm.gmsSST
  if Vc.i_am_leader then do
    let member_q ← vec_get Vc.members q
    let known ← changes_contains gmsSST member_q
    if !known then do
      let num_changes ← vec_get gmsSST.num_changes myRank
      let num_installed ← vec_get gmsSST.num_installed myRank
      let next_change_index : Int := num_changes - num_installed
      if next_change_index = (gmsSST.changes_size : Int) then
        .error (.thrown .changes_full)
      else do
        let index ← to_index next_change_index
        let changes ← sst_set gmsSST.changes myRank index member_q
        let num_changes_col ← vec_set gmsSST.num_changes myRank (num_changes + 1)
        let sst3 := (({ gmsSST with changes := changes, num_changes := num_changes_col }).put
          .changes index (.entries 1)).put .num_changes 0 (.entries 1)
        .ok { vm with gmsSST := sst3 }
    else .ok vm
  else .ok vm

/-- The body of the loop over `q < num_members` of `new_suspicion`. -/
def new_suspicion_member (vm : ViewManager) (q : Nat) : Except Fault ViewManager := do
  let Vc := vm.curr_view
  let myRank := Vc.my_rank
  let suspected_q ← sst_get vm.gmsSST.suspected myRank q
  if !suspected_q then .ok vm
  else do
    let failed_q ← vec_get Vc.failed q
    if failed_q then .ok vm
    else do
      let last_suspected ← vec_set vm.last_suspected q suspected_q
      if Vc.num_failed ≥ (((Vc.num_members + 1) / 2 : Nat) : Int) then
        .error (.thrown .majority_failed)
      else do
        let sst1 := { vm.gmsSST with frozen := vm.gmsSST.frozen ++ [q] }
        let wedged ← vec_set sst1.wedged myRank true
        let failed ← vec_set Vc.failed q true
        let Vc1 := { Vc with failed := failed, num_failed := Vc.num_failed + 1 }
        if Vc1.num_failed ≥ (((Vc1.num_members + 1) / 2 : Nat) : Int) then
          .error (.thrown .potential_partition)
        else
          let sst2 := (({ sst1 with wedged := wedged }).put .suspected 0 (.up_to .changes)).put
            .wedged 0 (.entries 1)
          propose_failed_member
            { vm with curr_view := Vc1, gmsSST := sst2, multicast_wedged := true,
                      last_suspected := last_suspected } q

/-- The loop over `q < num_members` of `new_suspicion`. -/
def new_suspicion_loop : (q remaining : Nat) → ViewManager → Except Fault ViewManager
  | _, 0, vm => .ok vm
  | q, remaining + 1, vm => do
    let vm1 ← new_suspicion_member vm q
    new_suspicion_loop (q + 1) remaining vm1

def new_suspicion (vm : ViewManager) : Except Fault ViewManager := do
  let suspected ← aggregate_suspicions vm.curr_view.my_rank vm.curr_view.num_members
    0 vm.curr_view.num_members vm.gmsSST.suspected
  new_suspicion_loop 0 vm.curr_view.num_members
    { vm with gmsSST := { vm.gmsSST with suspected := suspected } }

/-! ## Scenarios -/

/-- A conversion of packed addresses for the scenarios: `10.0.0.2` is known. -/
def scenario_ntoa (packed : Nat) : ip_addr :=
  if packed = 33554442 then "10.0.0.2" else "0.0.0.0"

/-- An SST for a view of `n` members and rows of 5 changes, in which every row
holds the same change counters, `changes` and `joiner_ips`. -/
def scenario_sst (n : Nat) (local_index : Nat) (changes : List node_id_t) (joiner_ips : List Nat)
    (num_changes num_committed num_acked num_installed : Int) : DerechoSST :=
  { local_index := local_index,
    suspected := List.replicate n (List.replicate n false),
    wedged := List.replicate n false,
    changes_size := 5,
    changes := List.replicate n changes,
    joiner_ips_size := 5,
    joiner_ips := List.replicate n joiner_ips,
    num_changes := List.replicate n num_changes,
    num_committed := List.replicate n num_committed,
    num_acked := List.replicate n num_acked,
    num_installed := List.replicate n num_installed,
    num_received := List.replicate n [],
    global_min := List.replicate n [],
    global_min_ready := List.replicate n [],
    delivered_num := List.replicate n [],
    persisted_num := List.replicate n [],
    vid := List.replicate n 0,
    frozen := [],
    puts := [] }

/-- Scenario E1: node 1 is alone in view 0. -/
def E1_view : View := View.make 0 [1] ["10.0.0.1"] [false] [] [] 0 0

/-- Scenario E1: the join of node 2 is committed. -/
def E1_sst : DerechoSST := scenario_sst 1 0 [2, 0, 0, 0, 0] [33554442, 0, 0, 0, 0] 1 1 1 0

/-- Scenario E3: view 1 of nodes 1, 2, 3 at node 1, node 3 marked failed. -/
def E3_view : View :=
  View.make 1 [1, 2, 3] ["10.0.0.1", "10.0.0.2", "10.0.0.3"] [false, false, true] [] [] 0 0

/-- Scenario E3: the removal of node 3 is committed. -/
def E3_sst : DerechoSST := scenario_sst 3 0 [3, 0, 0, 0, 0] [0, 0, 0, 0, 0] 1 1 1 0

/-- View 2 of the nodes 1, 2, 2 at the second member: the id 2 occurs twice, as
in the view that two committed joins with one id produce. -/
def duplicate_member_view : View :=
  View.make 2 [1, 2, 2] ["10.0.0.1", "10.0.0.2", "10.0.0.2"] [false, false, false] [] [] 1 0

/-- The removal of node 2 is committed in the view `duplicate_member_view`. -/
def duplicate_member_sst : DerechoSST := scenario_sst 3 1 [2, 0, 0, 0, 0] [0, 0, 0, 0, 0] 1 1 1 0

/-- The member ids of the view that `make_next_view` builds: the members at the
ranks that no change names, then the change ids that are not members. -/
def next_members_of (v : View) (cs : List node_id_t) : List node_id_t :=
  (stay_ranks_of v cs).map (fun r => v.members.getD r 0)
    ++ cs.filter (fun c => decide (c ∉ v.members))

/-- Scenario E6: view 4 of nodes 1 to 5 at node 1 after a total restart in
which nodes 4 and 5 did not return. -/
def E6_view : View :=
  View.make 4 [1, 2, 3, 4, 5] ["10.0.0.1", "10.0.0.2", "10.0.0.3", "10.0.0.4", "10.0.0.5"]
    [false, false, false, true, true] [] [] 0 0

/-- A conversion of address strings for the scenarios, the inverse of
`scenario_ntoa` on `10.0.0.2`. -/
def scenario_aton (ip : ip_addr) : Nat :=
  if ip = "10.0.0.2" then 33554442 else 0

/-- A view manager in which nothing is wedged, suspected or proposed. -/
def scenario_vm (v : View) (sst : DerechoSST) (pending : List Socket) : ViewManager :=
  { curr_view := v, gmsSST := sst, multicast_wedged := false,
    last_suspected := List.replicate v.members.length false,
    pending_join_sockets := pending, proposed_join_sockets := [] }

/-- A client at `ip` that has connected and announced `id`. -/
def scenario_client (ip : ip_addr) (id : node_id_t) : Socket :=
  { remote_ip := ip, incoming := [id], written := [] }

/-- Two clients announce the same new id 2 to the leader of the one-member view
of scenario E1, in which no change is pending. -/
def duplicate_join_vm : ViewManager :=
  scenario_vm E1_view (scenario_sst 1 0 [0, 0, 0, 0, 0] [0, 0, 0, 0, 0] 0 0 0 0)
    [scenario_client "10.0.0.2" 2, scenario_client "10.0.0.3" 2]

/-- The run in which the leader admits both pending clients, acknowledges and
commits the two changes and computes the next view. -/
def duplicate_join_run : Except Fault View := do
  let vm1 ← leader_start_join scenario_aton duplicate_join_vm
  let vm2 ← leader_start_join scenario_aton vm1
  let vm3 ← acknowledge_proposed_change vm2
  let vm4 ← leader_commit_change vm3
  make_next_view scenario_ntoa vm4.curr_view vm4.gmsSST

/-- Scenario E2: view 3 of nodes 1, 2, 3 at its leader, node 1. -/
def E2_view : View :=
  View.make 3 [1, 2, 3] ["10.0.0.1", "10.0.0.2", "10.0.0.3"] [false, false, false] [] [] 0 0

/-- Scenario E2: no change is pending and a client announces the id 2. -/
def E2_vm : ViewManager :=
  scenario_vm E2_view (scenario_sst 3 0 [0, 0, 0, 0, 0] [0, 0, 0, 0, 0] 0 0 0 0)
    [scenario_client "10.0.0.9" 2]

/-- The leader of scenario E2 with five proposed joins (of nodes 4 to 8), none
of them committed: the `changes` row of size 5 is full. -/
def full_ring_vm : ViewManager :=
  scenario_vm E2_view (scenario_sst 3 0 [4, 5, 6, 7, 8] [0, 0, 0, 0, 0] 5 0 0 0)
    [scenario_client "10.0.0.9" 2]

/-- The leader of scenario E2 with five proposed joins (of nodes 4 to 8), the
first of them committed and none installed: `num_installed = 0`,
`num_committed = 1`, `num_changes = 5 = changes.size()`. -/
def committed_ring_vm : ViewManager :=
  scenario_vm E2_view (scenario_sst 3 0 [4, 5, 6, 7, 8] [0, 0, 0, 0, 0] 5 1 5 0)
    [scenario_client "10.0.0.9" 9]

/-- The leader of scenario E2 (node 1) has proposed one change, and the rows
have acknowledged 1, 1 and 0 changes; node 3, which has not acknowledged, is
marked failed. Nothing is committed yet. -/
def commit_ready_vm : ViewManager :=
  scenario_vm { E2_view with failed := [false, false, true], num_failed := 1 }
    { scenario_sst 3 0 [3, 0, 0, 0, 0] [0, 0, 0, 0, 0] 1 0 0 0 with num_acked := [1, 1, 0] } []

/-- The number of failed members at which `new_suspicion` aborts:
`(Vc.num_members + 1) / 2` in integer arithmetic. -/
def partition_threshold (v : View) : Nat := (v.num_members + 1) / 2

/-- The threshold as the specification writes it: `⌈(n+1)/2⌉`. -/
def spec_partition_threshold (n : Nat) : Nat := (n + 1 + 1) / 2

/-- The state in which `new_suspicion` enters "Leader initiated" for member `q`:
the row of `q` is frozen, the multicast and the local `wedged` flag are set,
`q` is marked failed and counted, and the suspicions and the flag are
published. -/
def mark_failed (vm : ViewManager) (q : Nat) : ViewManager :=
  { vm with
    curr_view := { vm.curr_view with failed := vm.curr_view.failed.set q true,
                                     num_failed := vm.curr_view.num_failed + 1 },
    gmsSST := (({ vm.gmsSST with frozen := vm.gmsSST.frozen ++ [q],
                                 wedged := vm.gmsSST.wedged.set vm.curr_view.my_rank true }).put
      .suspected 0 (.up_to .changes)).put .wedged 0 (.entries 1),
    multicast_wedged := true,
    last_suspected := vm.last_suspected.set q true }

/-- The accesses of "Leader initiated" for member `q` are in range: `q` is a
rank of the view, the local row is the row of the local rank and has its
change counters and its `changes` vector of `changes.size()` entries, and the
number of pending changes lies between 0 and that size. -/
abbrev proposal_inputs_ok (vm : ViewManager) (q : Nat) : Prop :=
  q < vm.curr_view.members.length ∧
  vm.gmsSST.local_index = vm.curr_view.my_rank ∧
  vm.curr_view.my_rank < vm.gmsSST.num_changes.length ∧
  vm.curr_view.my_rank < vm.gmsSST.num_installed.length ∧
  vm.curr_view.my_rank < vm.gmsSST.changes.length ∧
  (vm.gmsSST.changes.getD vm.curr_view.my_rank []).length = vm.gmsSST.changes_size ∧
  0 ≤ vm.gmsSST.num_changes.getD vm.curr_view.my_rank 0
        - vm.gmsSST.num_installed.getD vm.curr_view.my_rank 0 ∧
  vm.gmsSST.num_changes.getD vm.curr_view.my_rank 0
        - vm.gmsSST.num_installed.getD vm.curr_view.my_rank 0 ≤ (vm.gmsSST.changes_size : Int)

/-- View 1 of nodes 1 to 4 at node 1: node 4 is failed, and node 1 has just
come to suspect node 3. -/
def even_group_vm : ViewManager :=
  { scenario_vm
      { View.make 1 [1, 2, 3, 4] ["10.0.0.1", "10.0.0.2", "10.0.0.3", "10.0.0.4"]
          [false, false, false, true] [] [] 0 0 with num_failed := 1 }
      { scenario_sst 4 0 [4, 0, 0, 0, 0] [0, 0, 0, 0, 0] 1 0 0 0 with
        suspected := [[false, false, true, true], [false, false, false, true],
                      [false, false, false, true], [false, false, false, false]] }
      [] with
    last_suspected := [false, false, false, true] }

/-- Scenario E3 before the failure is processed: view 1 of nodes 1, 2, 3 at
node 1, which has just come to suspect node 3. -/
def E3_suspicion_vm : ViewManager :=
  scenario_vm
    (View.make 1 [1, 2, 3] ["10.0.0.1", "10.0.0.2", "10.0.0.3"] [false, false, false] [] [] 0 0)
    { scenario_sst 3 0 [0, 0, 0, 0, 0] [0, 0, 0, 0, 0] 0 0 0 0 with
      suspected := [[false, false, true], [false, false, false], [false, false, false]] }
    []

/-- Every fault with which `r` can end satisfies `P`. -/
def faults_in {α : Type} (P : Fault → Prop) (r : Except Fault α) : Prop :=
  ∀ e, r = .error e → P e

/-- The fault is not a thrown exception other than `changes_full`. -/
def no_partition_fault (e : Fault) : Prop :=
  ∀ x, e = .thrown x → x = .changes_full

/-! ## Ragged-edge cleanup: `deliver_in_order`, `leader_ragged_edge_cleanup`,
`follower_ragged_edge_cleanup` -/

/-- The record that `deliver_in_order` saves before it requests delivery. -/
structure RaggedTrim where
  subgroup_id : subgroup_id_t
  vid : Int
  leader_id : node_id_t
  max_received_by_sender : List Int
deriving DecidableEq, Repr

/-- Calls into the collaborators of the view manager, in the order in which
they are made: `persistent::saveObject(trim, name)`,
`multicast_group->deliver_messages_upto(max_received_indices, subgroup_num,
num_shard_senders)` and `subgroup_objects.at(subgroup_id).get().truncate(version)`. -/
inductive Effect where
  | save_object (trim : RaggedTrim) (name : String)
  | deliver_messages_upto (max_received_indices : List Int) (subgroup_num : subgroup_id_t)
      (num_shard_senders : Nat)
  | truncate (subgroup_id : subgroup_id_t) (version : Int)
deriving DecidableEq, Repr

/-- The pointer form `gmssst::set(dst + offset, src + offset, count)`: the
entries `offset .. offset + count` of `src` are copied over those of `dst`. -/
def copy_slice {α : Type} (dst src : List α) (offset count : Nat) : Except Fault (List α) :=
  if offset + count ≤ src.length ∧ offset + count ≤ dst.length then
    .ok (write_at dst offset ((src.drop offset).take count))
  else .error .out_of_range

/-- The loop over `n < num_shard_senders` of `deliver_in_order`:
`max_received_indices[n] = global_min[shard_leader_rank][num_received_offset + n]`. -/
def read_max_received (gmsSST : DerechoSST) (shard_leader_rank num_received_offset : Nat) :
    (n remaining : Nat) → List Int → Except Fault (List Int)
  | _, 0, max_received_indices => .ok max_received_indices
  | n, remaining + 1, max_received_indices => do
    let value ← sst_get gmsSST.global_min shard_leader_rank (num_received_offset + n)
    let updated ← vec_set max_received_indices n value
    read_max_received gmsSST shard_leader_rank num_received_offset (n + 1) remaining updated

/-- The ragged trim is saved under `RaggedTrim_<subgroup_num>` and then the
multicast group is asked to deliver up to the same indices. -/
def deliver_in_order (Vc : View) (gmsSST : DerechoSST) (shard_leader_rank : Nat)
    (subgroup_num : subgroup_id_t) (num_received_offset : Nat)
    (num_shard_senders : Nat) : Except Fault (List Effect) := do
  let max_received_indices ← read_max_received gmsSST shard_leader_rank num_received_offset
    0 num_shard_senders (List.replicate num_shard_senders 0)
  let log_file_name := "RaggedTrim_" ++ toString subgroup_num
  let leader ← to_index Vc.rank_of_leader
  let leader_id ← vec_get Vc.members leader
  let trim_log : RaggedTrim :=
    { subgroup_id := subgroup_num, vid := Vc.vid, leader_id := leader_id,
      max_received_by_sender := max_received_indices }
  .ok [.save_object trim_log log_file_name,
       .deliver_messages_upto max_received_indices subgroup_num num_shard_senders]

/-- The first loop of `leader_ragged_edge_cleanup`, over the shard members until
one is found whose `global_min_ready` is set: its `global_min` slice is copied
into the local row. The result is `found` and the table. -/
def copy_ready_global_min (Vc : View) (subgroup_num : subgroup_id_t)
    (num_received_offset num_shard_senders : Nat) :
    (rest : List node_id_t) → DerechoSST → Except Fault (Bool × DerechoSST)
  | [], gmsSST => .ok (false, gmsSST)
  | node_id :: rest, gmsSST => do
    let node_rank ← to_index (Vc.rank_of node_id)
    let ready ← sst_get gmsSST.global_min_ready node_rank subgroup_num
    if ready then do
      let src ← vec_get gmsSST.global_min node_rank
      let dst ← vec_get gmsSST.global_min Vc.my_rank
      let row ← copy_slice dst src num_received_offset num_shard_senders
      let global_min ← vec_set gmsSST.global_min Vc.my_rank row
      .ok (true, { gmsSST with global_min := global_min })
    else copy_ready_global_min Vc subgroup_num num_received_offset num_shard_senders rest gmsSST

/-- The inner loop over the shard members `r` of the computed branch: the
running minimum of `num_received[..][column]` over the members that are not
failed. -/
def min_received (Vc : View) (gmsSST : DerechoSST) (column : Nat) :
    (rest : List node_id_t) → Int → Except Fault Int
  | [], min => .ok min
  | node_id :: rest, min => do
    let node_rank ← to_index (Vc.rank_of node_id)
    let failed ← vec_get Vc.failed node_rank
    if !failed then do
      let received ← sst_get gmsSST.num_received node_rank column
      if min > received then min_received Vc gmsSST column rest received
      else min_received Vc gmsSST column rest min
    else min_received Vc gmsSST column rest min

/-- The outer loop over the senders `n < num_shard_senders` of the computed
branch: `global_min[myRank][num_received_offset + n]` is set to the minimum. -/
def compute_global_min (Vc : View) (num_received_offset : Nat) (shard_members : List node_id_t) :
    (n remaining : Nat) → DerechoSST → Except Fault DerechoSST
  | _, 0, gmsSST => .ok gmsSST
  | n, remaining + 1, gmsSST => do
    let start ← sst_get gmsSST.num_received Vc.my_rank (num_received_offset + n)
    let min ← min_received Vc gmsSST (num_received_offset + n) shard_members start
    let global_min ← sst_set gmsSST.global_min Vc.my_rank (num_received_offset + n) min
    compute_global_min Vc num_received_offset shard_members (n + 1) remaining
      { gmsSST with global_min := global_min }

/-- The shard leader decides the ragged edge, publishes it and delivers. The
result is the table and the calls made by `deliver_in_order`. -/
def leader_ragged_edge_cleanup (Vc : View) (gmsSST : DerechoSST) (subgroup_num : subgroup_id_t)
    (num_received_offset : Nat) (shard_members : List node_id_t) (num_shard_senders : Nat) :
    Except Fault (DerechoSST × List Effect) := do
  let myRank := Vc.my_rank
  let (found, sst1) ←
    copy_ready_global_min Vc subgroup_num num_received_offset num_shard_senders shard_members
      gmsSST
  let sst2 ←
    if !found then
      compute_global_min Vc num_received_offset shard_members 0 num_shard_senders sst1
    else .ok sst1
  let ready ← sst_set sst2.global_min_ready myRank subgroup_num true
  let sst3 := (({ sst2 with global_min_ready := ready }).put .global_min num_received_offset
    (.entries num_shard_senders)).put .global_min_ready subgroup_num (.entries 1)
  let effects ← deliver_in_order Vc sst3 myRank subgroup_num num_received_offset
    num_shard_senders
  .ok (sst3, effects)

/-- A shard member that is not the shard leader copies the leader's decision
into its own row, publishes it and delivers. -/
def follower_ragged_edge_cleanup (Vc : View) (gmsSST : DerechoSST) (subgroup_num : subgroup_id_t)
    (shard_leader_rank : Nat) (num_received_offset : Nat) (num_shard_senders : Nat) :
    Except Fault (DerechoSST × List Effect) := do
  let myRank := Vc.my_rank
  let src ← vec_get gmsSST.global_min shard_leader_rank
  let dst ← vec_get gmsSST.global_min myRank
  let row ← copy_slice dst src num_received_offset num_shard_senders
  let global_min ← vec_set gmsSST.global_min myRank row
  let sst1 := { gmsSST with global_min := global_min }
  let ready ← sst_set sst1.global_min_ready myRank subgroup_num true
  let sst2 := (({ sst1 with global_min_ready := ready }).put .global_min num_received_offset
    (.entries num_shard_senders)).put .global_min_ready subgroup_num (.entries 1)
  let effects ← deliver_in_order Vc sst2 shard_leader_rank subgroup_num num_received_offset
    num_shard_senders
  .ok (sst2, effects)

/-- Scenario E5: view 5 of the nodes 1, 2, 3 (A, B, C), which form the single
shard of subgroup 0 and all send. -/
def E5_view (my_rank : Nat) : View :=
  View.make 5 [1, 2, 3] ["10.0.0.1", "10.0.0.2", "10.0.0.3"] [false, false, false] [] [] my_rank 0

/-- Scenario E5: the rows have received `[7,5,6]` (the leader), `[6,5,6]` and
`[7,4,6]`; no decision has been taken yet. -/
def E5_sst (local_index : Nat) : DerechoSST :=
  { scenario_sst 3 local_index [0, 0, 0, 0, 0] [0, 0, 0, 0, 0] 0 0 0 0 with
    num_received := [[7, 5, 6], [6, 5, 6], [7, 4, 6]],
    global_min := [[0, 0, 0], [0, 0, 0], [0, 0, 0]],
    global_min_ready := [[false], [false], [false]] }

/-- The value `v` is the minimum that the computed branch of
`leader_ragged_edge_cleanup` takes for `column`: it starts from the local
row's `num_received` entry and runs over the entries of the shard members that
are not failed. -/
def is_leader_min (Vc : View) (num_received : List (List Int)) (shard_members : List node_id_t)
    (column : Nat) (v : Int) : Prop :=
  ∃ start, sst_get num_received Vc.my_rank column = .ok start ∧ v ≤ start ∧
    (∀ m ∈ shard_members, ∀ r : Nat, Vc.rank_of m = (r : Int) → Vc.failed[r]? = some false →
      ∃ x, sst_get num_received r column = .ok x ∧ v ≤ x) ∧
    (v = start ∨ ∃ m ∈ shard_members, ∃ r : Nat, Vc.rank_of m = (r : Int) ∧
      Vc.failed[r]? = some false ∧ sst_get num_received r column = .ok v)

/-- The slice `row[offset .. offset + count)` of a row of the table. -/
def slice {α : Type} (field : List (List α)) (row offset count : Nat) : List α :=
  ((field.getD row []).drop offset).take count

/-- The accesses of the computed branch of `leader_ragged_edge_cleanup` are in
range: every shard member is a member of the view with a `failed` flag and a
row of `num_received` and `global_min_ready`, the local row has the
`global_min` and `global_min_ready` entries that are written, and the view has
a leader. -/
abbrev ragged_inputs_ok (Vc : View) (sst : DerechoSST) (subgroup_num : subgroup_id_t)
    (offset : Nat) (members : List node_id_t) (count : Nat) : Prop :=
  (∀ m ∈ members, m ∈ Vc.members ∧ Vc.members.indexOf m < Vc.failed.length ∧
    Vc.members.indexOf m < sst.num_received.length ∧
    offset + count ≤ (sst.num_received.getD (Vc.members.indexOf m) []).length ∧
    Vc.members.indexOf m < sst.global_min_ready.length ∧
    subgroup_num < (sst.global_min_ready.getD (Vc.members.indexOf m) []).length) ∧
  Vc.my_rank < sst.num_received.length ∧
  offset + count ≤ (sst.num_received.getD Vc.my_rank []).length ∧
  Vc.my_rank < sst.global_min.length ∧
  offset + count ≤ (sst.global_min.getD Vc.my_rank []).length ∧
  Vc.my_rank < sst.global_min_ready.length ∧
  subgroup_num < (sst.global_min_ready.getD Vc.my_rank []).length ∧
  0 ≤ Vc.rank_of_leader ∧ Vc.rank_of_leader.toNat < Vc.members.length

/-- The value `v` is the minimum of `num_received[r][column]` over the ranks `r`
of the shard members that are not failed: it is below each of these entries and
it is one of them. -/
def is_shard_min (Vc : View) (num_received : List (List Int)) (shard_members : List node_id_t)
    (column : Nat) (v : Int) : Prop :=
  (∀ m ∈ shard_members, ∀ r : Nat, Vc.rank_of m = (r : Int) → Vc.failed[r]? = some false →
    ∃ x, sst_get num_received r column = .ok x ∧ v ≤ x) ∧
  ∃ m ∈ shard_members, ∃ r : Nat, Vc.rank_of m = (r : Int) ∧
    Vc.failed[r]? = some false ∧ sst_get num_received r column = .ok v

/-- The vectors handed to `deliver_messages_upto`, in the order of the calls. -/
def max_received_indices_of : List Effect → List (List Int)
  | [] => []
  | .deliver_messages_upto max_received_indices _ _ :: rest =>
    max_received_indices :: max_received_indices_of rest
  | _ :: rest => max_received_indices_of rest

/-- The accesses of `follower_ragged_edge_cleanup` are in range. -/
abbrev follower_inputs_ok (Vc : View) (sst : DerechoSST) (subgroup_num : subgroup_id_t)
    (shard_leader_rank offset count : Nat) : Prop :=
  shard_leader_rank < sst.global_min.length ∧
  offset + count ≤ (sst.global_min.getD shard_leader_rank []).length ∧
  Vc.my_rank < sst.global_min.length ∧
  offset + count ≤ (sst.global_min.getD Vc.my_rank []).length ∧
  Vc.my_rank < sst.global_min_ready.length ∧
  subgroup_num < (sst.global_min_ready.getD Vc.my_rank []).length ∧
  0 ≤ Vc.rank_of_leader ∧ Vc.rank_of_leader.toNat < Vc.members.length

/-! ## Persistent logs -/

/-- The value of `static_cast<int32_t>(x)`: the low 32 bits of `x`, read as a
signed number. -/
def to_int32 (x : Int) : Int :=
  let low := x % 4294967296
  if low < 2147483648 then low else low - 4294967296

/-- Modelled from the spec: `persistent::combine_int32s` is declared in the
persistence library. The version `combine(vid, seq)` holds `vid` in the high 32
bits and `seq` in the low 32 bits. -/
def combine_int32s (high_bits low_bits : Int) : Int :=
  high_bits * 4294967296 + low_bits % 4294967296

/-- Modelled from the spec: `persistent::unpack_version<int32_t>` is declared in
the persistence library. It is the inverse of `combine_int32s`: the view id and
the sequence part of a version. -/
def unpack_version (packed : Int) : Int × Int :=
  (to_int32 (packed / 4294967296), to_int32 packed)

/-- The loop over the senders of `truncate_persistent_logs`. The product and the
sum are taken in `uint32_t` and cast to `int32_t`. -/
def max_seq_num_loop (max_received_by_sender : List Int) (num_shard_senders : Nat) :
    (sender remaining : Nat) → Int → Except Fault Int
  | _, 0, max_seq_num => .ok max_seq_num
  | sender, remaining + 1, max_seq_num => do
    let received ← vec_get max_received_by_sender sender
    max_seq_num_loop max_received_by_sender num_shard_senders (sender + 1) remaining
      (max max_seq_num (to_int32 ((received * num_shard_senders + sender) % 4294967296)))

/-- For every logged ragged trim the log of the subgroup's object is truncated
at the version of the last deliverable message. `subgroup_objects` holds the
keys of the map of that name; `at` on a missing key raises. The result lists
the calls of `truncate` that were made. -/
def truncate_persistent_logs (subgroup_objects : List subgroup_id_t) :
    List (subgroup_id_t × RaggedTrim) → Except Fault (List Effect)
  | [] => .ok []
  | (subgroup_id, ragged_trim) :: rest => do
    let num_shard_senders := ragged_trim.max_received_by_sender.length % 4294967296
    let max_seq_num ← max_seq_num_loop ragged_trim.max_received_by_sender num_shard_senders
      0 num_shard_senders 0
    let max_delivered_version := combine_int32s ragged_trim.vid max_seq_num
    if subgroup_id ∈ subgroup_objects then do
      let later ← truncate_persistent_logs subgroup_objects rest
      .ok (.truncate subgroup_id max_delivered_version :: later)
    else .error .out_of_range

/-- The sequence number `max over senders s of max_received_by_sender[s] * N + s`
with `N` the number of senders; there is none when there is no sender. -/
def spec_max_seq_num (ragged_trim : RaggedTrim) : Option Int :=
  let N := ragged_trim.max_received_by_sender.length
  match (List.range N).map
      (fun s : Nat => ragged_trim.max_received_by_sender.getD s 0 * (N : Int) + (s : Int)) with
  | [] => none
  | first :: others => some (others.foldl max first)

/-- The inner loop of `persistence_finished_pred` over the members of one
shard: `false` as soon as a member that is not failed has persisted less than
`last_delivered_seq_num`. -/
def shard_persisted (Vc : View) (gmsSST : DerechoSST) (subgroup_id : subgroup_id_t)
    (last_delivered_seq_num : Int) : List node_id_t → Except Fault Bool
  | [] => .ok true
  | shard_member :: rest => do
    let member_row ← to_index (Vc.rank_of shard_member)
    let failed ← vec_get Vc.failed member_row
    if !failed then do
      let persisted ← sst_get gmsSST.persisted_num member_row subgroup_id
      if (unpack_version persisted).2 < last_delivered_seq_num then .ok false
      else shard_persisted Vc gmsSST subgroup_id last_delivered_seq_num rest
    else shard_persisted Vc gmsSST subgroup_id last_delivered_seq_num rest

/-- The outer loop of `persistence_finished_pred` over `my_subgroups`. -/
def persistence_finished_loop (Vc : View) (gmsSST : DerechoSST) :
    List (subgroup_id_t × Nat) → Except Fault Bool
  | [] => .ok true
  | (subgroup_id, shard_num) :: rest => do
    let shards ← vec_get Vc.subgroup_shard_views subgroup_id
    let shard_view ← vec_get shards shard_num
    if shard_view.mode = Mode.UNORDERED then persistence_finished_loop Vc gmsSST rest
    else do
      let last_delivered_seq_num ← sst_get gmsSST.delivered_num Vc.my_rank subgroup_id
      let persisted ← shard_persisted Vc gmsSST subgroup_id last_delivered_seq_num
        shard_view.members
      if persisted then persistence_finished_loop Vc gmsSST rest else .ok false

/-- The predicate `persistence_finished_pred` of `terminate_epoch`, evaluated on
the current view and a snapshot of the table. -/
def persistence_finished_pred (Vc : View) (gmsSST : DerechoSST) : Except Fault Bool :=
  persistence_finished_loop Vc gmsSST Vc.my_subgroups

/-- The sub-view of shard `shard_num` of subgroup `subgroup_id`, when there is
one. -/
def shard_view_of (Vc : View) (subgroup_id : subgroup_id_t) (shard_num : Nat) : Option SubView :=
  (Vc.subgroup_shard_views.getD subgroup_id [])[shard_num]?

/-- The persistence barrier in the words of the specification: for every
(subgroup, shard) of `my_subgroups` whose mode is Ordered and every member of
the shard that is not failed, the sequence part of the member's `persisted_num`
entry is at least the local `delivered_num` entry. -/
abbrev persistence_barrier (Vc : View) (sst : DerechoSST) : Prop :=
  ∀ p ∈ Vc.my_subgroups, ∀ sv ∈ shard_view_of Vc p.1 p.2, sv.mode = Mode.ORDERED →
    ∀ m ∈ sv.members, Vc.failed.getD (Vc.members.indexOf m) true = false →
      (sst.delivered_num.getD Vc.my_rank []).getD p.1 0
        ≤ (unpack_version ((sst.persisted_num.getD (Vc.members.indexOf m) []).getD p.1 0)).2

/-- The accesses of `persistence_finished_pred` are in range: every entry of
`my_subgroups` names a shard, and for the Ordered ones the shard members are
members of the view and have their rows and columns in the table. -/
abbrev persistence_inputs_ok (Vc : View) (sst : DerechoSST) : Prop :=
  ∀ p ∈ Vc.my_subgroups, (shard_view_of Vc p.1 p.2).isSome ∧
    ∀ sv ∈ shard_view_of Vc p.1 p.2, sv.mode = Mode.ORDERED →
      Vc.my_rank < sst.delivered_num.length ∧
      p.1 < (sst.delivered_num.getD Vc.my_rank []).length ∧
      ∀ m ∈ sv.members, m ∈ Vc.members ∧ Vc.members.indexOf m < Vc.failed.length ∧
        Vc.members.indexOf m < sst.persisted_num.length ∧
        p.1 < (sst.persisted_num.getD (Vc.members.indexOf m) []).length

/-- A view of the nodes 1, 2, 3 with node 3 failed. The local node (rank 0) is
in shard 0 of the Ordered subgroup 0, with members 1, 2, 3, and in shard 0 of
the Unordered subgroup 1, with members 1, 2. -/
def persistence_view : View :=
  { E5_view 0 with
    failed := [false, false, true],
    num_failed := 1,
    subgroup_shard_views :=
      [[{ mode := .ORDERED, members := [1, 2, 3], is_sender := [true, true, true], my_rank := 0,
          joined := [], departed := [] }],
       [{ mode := .UNORDERED, members := [1, 2], is_sender := [true, true], my_rank := 0,
          joined := [], departed := [] }]],
    my_subgroups := [(0, 0), (1, 0)] }

/-- The local node has delivered up to sequence number 4 in subgroup 0 and 9 in
subgroup 1. In subgroup 0 node 1 has persisted up to 4, node 2 up to
`persisted_by_2` and the failed node 3 up to 1; nothing is persisted in
subgroup 1. -/
def persistence_sst (persisted_by_2 : Int) : DerechoSST :=
  { E5_sst 0 with
    delivered_num := [[4, 9], [4, 9], [1, 0]],
    persisted_num := [[combine_int32s 5 4, -1], [combine_int32s 5 persisted_by_2, -1],
      [combine_int32s 5 1, -1]] }

/-! ## Total restart -/

/-- The ranks of the members that are marked failed, ascending. -/
def restart_leave_ranks (v : View) : List Nat :=
  (List.range v.failed.length).filter (fun r => v.failed.getD r false)

/-- The ranks of the members that are not marked failed, ascending. -/
def restart_stay_ranks (v : View) : List Nat :=
  (List.range v.members.length).filter (fun r => !v.failed.getD r false)

/-- The view and the joiners handed to the restart variant of `make_next_view`
fit together: the vectors of the view have one entry per member, `num_failed`
is the number of set entries of `failed`, the local rank is a rank of the view
and is not marked failed, every joiner id comes with an address, and the view
id can be incremented. -/
abbrev restart_inputs_ok (v : View) (joiner_ids : List node_id_t) (joiner_ips : List ip_addr) :
    Prop :=
  v.num_members = v.members.length ∧ v.member_ips.length = v.members.length ∧
  v.failed.length = v.members.length ∧ v.num_failed = (v.failed.count true : Int) ∧
  v.my_rank < v.members.length ∧ v.failed.getD v.my_rank true = false ∧
  joiner_ids.length ≤ joiner_ips.length ∧ v.vid + 1 < 2147483648

/-- The first loop of `update_curr_and_next_restart_view`, over
`waiting_join_sockets` (a `std::map`, in ascending order of the ids): a
rejoined id without a rank in the current view is collected with its address
for the next view, and a member that is marked failed is un-failed. The result
is the current view and the two collected vectors. -/
def unfail_rejoined :
    List (node_id_t × Socket) → View → List node_id_t → List ip_addr →
      Except Fault (View × List node_id_t × List ip_addr)
  | [], curr_view, nodes_to_add, ips_to_add => .ok (curr_view, nodes_to_add, ips_to_add)
  | (joiner_id, socket) :: rest, curr_view, nodes_to_add, ips_to_add =>
    let joiner_rank := curr_view.rank_of joiner_id
    if joiner_rank = -1 then
      unfail_rejoined rest curr_view (nodes_to_add ++ [joiner_id])
        (ips_to_add ++ [socket.remote_ip])
    else do
      let rank ← to_index joiner_rank
      let failed ← vec_get curr_view.failed rank
      if failed = true then do
        let failed2 ← vec_set curr_view.failed rank false
        unfail_rejoined rest
          { curr_view with failed := failed2, num_failed := curr_view.num_failed - 1 }
          nodes_to_add ips_to_add
      else unfail_rejoined rest curr_view nodes_to_add ips_to_add

/-- The second loop of `update_curr_and_next_restart_view`, over
`rank < members.size()`: a member that has not rejoined and is not yet marked
failed is marked failed. -/
def mark_not_rejoined (rejoined_node_ids : List node_id_t) :
    (rank remaining : Nat) → View → Except Fault View
  | _, 0, curr_view => .ok curr_view
  | rank, remaining + 1, curr_view => do
    let member ← vec_get curr_view.members rank
    if member ∉ rejoined_node_ids then do
      let failed ← vec_get curr_view.failed rank
      if !failed then do
        let failed2 ← vec_set curr_view.failed rank true
        mark_not_rejoined rejoined_node_ids (rank + 1) remaining
          { curr_view with failed := failed2, num_failed := curr_view.num_failed + 1 }
      else mark_not_rejoined rejoined_node_ids (rank + 1) remaining curr_view
    else mark_not_rejoined rejoined_node_ids (rank + 1) remaining curr_view

/-- The two loops of `update_curr_and_next_restart_view`, which update the
current view in place. The result is the current view and the joiners for the
next view. -/
def update_curr_view (curr_view : View) (waiting_join_sockets : List (node_id_t × Socket))
    (rejoined_node_ids : List node_id_t) :
    Except Fault (View × List node_id_t × List ip_addr) := do
  let (view1, nodes_to_add_in_next_view, ips_to_add_in_next_view) ←
    unfail_rejoined waiting_join_sockets curr_view [] []
  let view2 ← mark_not_rejoined rejoined_node_ids 0 view1.members.length view1
  .ok (view2, nodes_to_add_in_next_view, ips_to_add_in_next_view)

/-- The current view is updated in place and the next view is computed from it.
The result is the pair of the updated current view and the next view. -/
def update_curr_and_next_restart_view (curr_view : View)
    (waiting_join_sockets : List (node_id_t × Socket)) (rejoined_node_ids : List node_id_t) :
    Except Fault (View × View) := do
  let (view2, nodes_to_add_in_next_view, ips_to_add_in_next_view) ←
    update_curr_view curr_view waiting_join_sockets rejoined_node_ids
  let next_view ← make_next_view_restart view2 nodes_to_add_in_next_view ips_to_add_in_next_view
  .ok (view2, next_view)

/-- The variables of `await_rejoining_nodes` that the quorum test reads and
writes. -/
structure RestartLeader where
  curr_view : View
  restart_view : Option View
  num_received_size : Nat
  ready_to_restart : Bool
deriving DecidableEq, Repr

/-- A socket of a node that has rejoined from `ip`. -/
def rejoined_socket (ip : ip_addr) : Socket :=
  { remote_ip := ip, incoming := [], written := [] }

/-- The restart leader, node 1, holds view 4 of the nodes 1 to 5 as its last
known view; nothing is marked failed and no restart view has been computed. -/
def restart_leader_state : RestartLeader :=
  { curr_view := View.make 4 [1, 2, 3, 4, 5]
      ["10.0.0.1", "10.0.0.2", "10.0.0.3", "10.0.0.4", "10.0.0.5"]
      [false, false, false, false, false] [] [] 0 0,
    restart_view := none, num_received_size := 0, ready_to_restart := false }

/-- The last known view of the restart leader, node 1, in which the leader
itself is marked failed: view 4 of the nodes 1 to 4. -/
def failed_leader_view : View :=
  View.make 4 [1, 2, 3, 4] ["10.0.0.1", "10.0.0.2", "10.0.0.3", "10.0.0.4"]
    [true, false, false, false] [] [] 0 0

/-- The invariant `num_failed = popcount(failed)` of a view. -/
abbrev failed_count_ok (v : View) : Prop :=
  v.num_failed = (v.failed.count true : Int)

/-! ## `ViewManager::report_failure` -/

/-- The loop `for(r = 0; r < suspected.size(); r++)` of `report_failure`, which
counts the set entries of the local row. The result is the final value of `r`
and the count. -/
def count_suspected (gmsSST : DerechoSST) (my_rank : Nat) :
    (r remaining : Nat) → Int → Except Fault (Nat × Int)
  | r, 0, cnt => .ok (r, cnt)
  | r, remaining + 1, cnt => do
    let suspected ← sst_get gmsSST.suspected my_rank r
    count_suspected gmsSST my_rank (r + 1) remaining (if suspected then cnt + 1 else cnt)

/-- The failure of `who` is recorded in the local row of `suspected` and
published, unless the local node then suspects half of the members or more.
`suspected.size()` is the length of the rows of `suspected`, read off the local
row. The variable `r` holds the rank of `who` at first and is then reused as
the counter of the loop; the `put` is made with its last value. -/
def report_failure (vm : ViewManager) (who : node_id_t) : Except Fault ViewManager := do
  let curr_view := vm.curr_view
  let r ← to_index (curr_view.rank_of who)
  let suspected ← sst_set vm.gmsSST.suspected curr_view.my_rank r true
  let gmsSST := { vm.gmsSST with suspected := suspected }
  let suspected_size := (gmsSST.suspected.getD curr_view.my_rank []).length
  let (r, cnt) ← count_suspected gmsSST curr_view.my_rank 0 suspected_size 0
  if cnt ≥ (((curr_view.num_members + 1) / 2 : Nat) : Int) then
    .error (.thrown .potential_partition)
  else
    .ok { vm with gmsSST := gmsSST.put .suspected r (.entries 1) }

/-- View 0 of the nodes 1 and 2 at node 1, nobody suspected. -/
def two_node_vm : ViewManager :=
  scenario_vm (View.make 0 [1, 2] ["10.0.0.1", "10.0.0.2"] [false, false] [] [] 0 0)
    (scenario_sst 2 0 [0, 0, 0, 0, 0] [0, 0, 0, 0, 0] 0 0 0 0) []

/-- View 4 of the nodes 1 to 5 at node 1, nobody suspected. -/
def five_node_vm : ViewManager :=
  scenario_vm restart_leader_state.curr_view
    (scenario_sst 5 0 [0, 0, 0, 0, 0] [0, 0, 0, 0, 0] 0 0 0 0) []

/-! ## The delta buffer of the cascade store -/

/-- The structure `DeltaCascadeStoreCore::_Delta`: the address of the buffer
(`none` is the null pointer), its capacity and the length of its contents. -/
structure _Delta where
  buffer : Option Nat
  capacity : Nat
  len : Nat
deriving DecidableEq, Repr

/-- The loop `while(right_shift_bits < width)` of `calibrate`, with a bound on
the number of iterations: `none` when the bound is reached. `new_cap` is a
`size_t`, which the or and the right shift keep below `2^64`;
`right_shift_bits` is an `int` that never exceeds `width`. -/
def calibrate_loop (width : Nat) : (fuel : Nat) → (right_shift_bits new_cap : Nat) → Option Nat
  | 0, _, _ => none
  | fuel + 1, right_shift_bits, new_cap =>
    if right_shift_bits < width then
      calibrate_loop width fuel (right_shift_bits <<< 1)
        (new_cap ||| (new_cap >>> right_shift_bits))
    else some new_cap

/-- The buffer is made large enough for `dlen` bytes of data behind the 4 bytes
of the operation id. `realloc` is the C library function: given the old address
and a size it returns the new address, or `none` when it fails. The sums are
taken in `size_t`, modulo `2^64`. -/
def _Delta.calibrate (realloc : Option Nat → Nat → Option Nat) (delta : _Delta) (dlen : Nat) :
    Except Fault _Delta :=
  let new_cap := (dlen + 4) % 18446744073709551616
  if delta.capacity ≥ new_cap then .ok delta
  else
    let width := 64
    match calibrate_loop width 64 1 ((new_cap + 18446744073709551615) % 18446744073709551616) with
    | none => .error .out_of_fuel
    | some smeared =>
      let new_cap := (smeared + 1) % 18446744073709551616
      match realloc delta.buffer new_cap with
      | none => .error (.thrown .delta_allocation_failed)
      | some buffer => .ok { delta with buffer := some buffer, capacity := new_cap }

/-- The length of the contents is set to `dlen` data bytes and the 4 bytes of
the operation id, which must fit into the buffer. -/
def _Delta.set_data_len (delta : _Delta) (dlen : Nat) : Except Fault _Delta :=
  if delta.capacity ≥ (dlen + 4) % 18446744073709551616 then
    .ok { delta with len := (dlen + 4) % 18446744073709551616 }
  else .error .assertion_failed

/-- A `realloc` for the scenarios that always succeeds, at address 4096. -/
def scenario_realloc (_buffer : Option Nat) (_size : Nat) : Option Nat := some 4096

/-! ## Aggregation of suspicions and the pending changes -/

/-- The entry `suspected[r][w]` of a table of suspicions, `false` outside the
table. -/
def suspected_bit (suspected : List (List Bool)) (r w : Nat) : Bool :=
  (suspected.getD r []).getD w false

/-- The table of suspicions fits the view: the local rank is a rank of the
view, and the table has a row of at least `num_members` entries for every
rank. -/
abbrev suspicion_table_ok (my_rank num_members : Nat) (suspected : List (List Bool)) : Prop :=
  my_rank < num_members ∧ num_members ≤ suspected.length ∧
  ∀ r, r < num_members → num_members ≤ (suspected.getD r []).length

/-- The accesses of `acknowledge_proposed_change` are in range: the view has a
leader, the leader's rank and the local index are rows of the change counters,
of `changes` and of `joiner_ips`, these rows have the full size of the two
vectors, and the local rank has a `wedged` flag. -/
abbrev ack_inputs_ok (vm : ViewManager) : Prop :=
  0 ≤ vm.curr_view.rank_of_leader ∧
  vm.curr_view.rank_of_leader.toNat < vm.gmsSST.num_changes.length ∧
  vm.curr_view.rank_of_leader.toNat < vm.gmsSST.num_committed.length ∧
  vm.curr_view.rank_of_leader.toNat < vm.gmsSST.changes.length ∧
  vm.curr_view.rank_of_leader.toNat < vm.gmsSST.joiner_ips.length ∧
  vm.gmsSST.local_index < vm.gmsSST.num_changes.length ∧
  vm.gmsSST.local_index < vm.gmsSST.num_committed.length ∧
  vm.gmsSST.local_index < vm.gmsSST.num_acked.length ∧
  vm.gmsSST.local_index < vm.gmsSST.changes.length ∧
  vm.gmsSST.local_index < vm.gmsSST.joiner_ips.length ∧
  (vm.gmsSST.changes.getD vm.curr_view.rank_of_leader.toNat []).length
    = vm.gmsSST.changes_size ∧
  (vm.gmsSST.changes.getD vm.gmsSST.local_index []).length = vm.gmsSST.changes_size ∧
  (vm.gmsSST.joiner_ips.getD vm.curr_view.rank_of_leader.toNat []).length
    = vm.gmsSST.joiner_ips_size ∧
  (vm.gmsSST.joiner_ips.getD vm.gmsSST.local_index []).length = vm.gmsSST.joiner_ips_size ∧
  vm.curr_view.my_rank < vm.gmsSST.wedged.length

/-- The view of scenario E1 after the join of node 2 was proposed, at the
follower of rank `local_index` in a view of the nodes 1, 2, 3: the leader's row
holds one proposed change that the other rows have not seen. -/
def proposed_change_vm (local_index : Nat) : ViewManager :=
  scenario_vm
    (View.make 1 [1, 2, 3] ["10.0.0.1", "10.0.0.2", "10.0.0.3"] [false, false, false] [] []
      local_index 0)
    { scenario_sst 3 local_index [0, 0, 0, 0, 0] [0, 0, 0, 0, 0] 0 0 0 0 with
      changes := [[4, 0, 0, 0, 0], [0, 0, 0, 0, 0], [0, 0, 0, 0, 0]],
      joiner_ips := [[33554442, 0, 0, 0, 0], [0, 0, 0, 0, 0], [0, 0, 0, 0, 0]],
      num_changes := [1, 0, 0] }
    []

/-- The count `changes_installed` that `transition_multicast_group` hands to
`init_local_row_from_previous`: `next_view->joined.size() +
next_view->departed.size()`. -/
def changes_installed (next_view : View) : Int :=
  (next_view.joined.length : Int) + (next_view.departed.length : Int)

/-! ## Heartbeats with the waiting joiners -/

/-- The variables of `await_rejoining_nodes` that the heartbeat loop reads and
writes. `waiting_join_sockets` is a `std::map` and `rejoined_node_ids` a
`std::set`, both kept in ascending order of the ids. -/
structure RejoinState where
  waiting_join_sockets : List (node_id_t × Socket)
  rejoined_node_ids : List node_id_t
  ready_to_restart : Bool
  last_checked_joiner : node_id_t
deriving DecidableEq, Repr

/-- The loop of `await_rejoining_nodes` that re-exchanges ids with the waiting
joiners. `checked` is the part of the map before the iterator, the head of the
second list is the entry under the iterator. `exchange` is
`tcp::socket::exchange(my_id, joiner_id)`: it yields the success flag and the
value of `joiner_id` afterwards. After `erase` the iterator is at the next
entry, whose key is then erased from `rejoined_node_ids`; at the end of the map
that dereference has no defined behaviour. -/
def recheck_joiners (exchange : Socket → node_id_t → Bool × node_id_t) (my_id : node_id_t) :
    (checked rest : List (node_id_t × Socket)) → List node_id_t → node_id_t →
      Except Fault RejoinState
  | checked, [], rejoined_node_ids, last_checked_joiner =>
    .ok { waiting_join_sockets := checked, rejoined_node_ids := rejoined_node_ids,
          ready_to_restart := true, last_checked_joiner := last_checked_joiner }
  | checked, (id, socket) :: rest, rejoined_node_ids, last_checked_joiner =>
    let (write_success, _) := exchange socket my_id
    if !write_success then
      match rest with
      | [] => .error .out_of_range
      | (next_id, _) :: _ =>
        .ok { waiting_join_sockets := checked ++ rest,
              rejoined_node_ids := rejoined_node_ids.erase next_id,
              ready_to_restart := false, last_checked_joiner := last_checked_joiner }
    else recheck_joiners exchange my_id (checked ++ [(id, socket)]) rest rejoined_node_ids id

/-- The block `if(ready_to_restart) { ... }` of `await_rejoining_nodes`: the
loop starts at the entry of `last_checked_joiner`, which is the first entry of
the map while no joiner has been checked. -/
def heartbeat_rejoined (exchange : Socket → node_id_t → Bool × node_id_t) (my_id : node_id_t)
    (state : RejoinState) : Except Fault RejoinState :=
  if state.ready_to_restart then do
    let last_checked_joiner ←
      if state.last_checked_joiner = 0 then
        match state.waiting_join_sockets with
        | [] => .error .out_of_range
        | (first_id, _) :: _ => .ok first_id
      else .ok state.last_checked_joiner
    recheck_joiners exchange my_id
      (state.waiting_join_sockets.takeWhile (fun entry => decide (entry.1 ≠ last_checked_joiner)))
      (state.waiting_join_sockets.dropWhile (fun entry => decide (entry.1 ≠ last_checked_joiner)))
      state.rejoined_node_ids last_checked_joiner
  else .ok state

/-- The algorithm `std::remove_copy(src.begin(), src.end(), dst.begin(), value)`
into a vector `dst` that was allocated beforehand: the entries of `src` other
than `value` are written over the first entries of `dst`; writing past the end
of `dst` has no defined behaviour. -/
def remove_copy {α : Type} [DecidableEq α] (src dst : List α) (value : α) :
    Except Fault (List α) :=
  let kept := src.filter (fun x => decide (x ≠ value))
  if kept.length ≤ dst.length then .ok (kept ++ dst.drop kept.length)
  else .error .out_of_range

/-- A vector of `size - 1` value-initialised entries as in
`std::vector<T> filtered(v.size() - 1)`; for `size = 0` the requested size is
`2^64 - 1` and the allocation fails. -/
def vector_one_shorter {α : Type} (size : Nat) (value : α) : Except Fault (List α) :=
  if size = 0 then .error .out_of_range else .ok (List.replicate (size - 1) value)

/-- The branch `if(!write_success)` of the heartbeat loop of `await_first_view`
after the socket has been erased: the candidate view is rebuilt without the
joiner, with view id 0, and the subgroup layout is tried again.
`make_subgroup_maps` is called without a previous view. -/
def rebuild_first_view (make_subgroup_maps : Option View → View → Except Fault (View × Nat))
    (curr_view : View) (joiner_id : node_id_t) (joiner_ip : ip_addr) :
    Except Fault (View × Nat) := do
  let members_buffer ← vector_one_shorter curr_view.members.length (0 : node_id_t)
  let ips_buffer ← vector_one_shorter curr_view.member_ips.length ("" : ip_addr)
  let joiners_buffer ← vector_one_shorter curr_view.joined.length (0 : node_id_t)
  let filtered_members ← remove_copy curr_view.members members_buffer joiner_id
  let filtered_ips ← remove_copy curr_view.member_ips ips_buffer joiner_ip
  let filtered_joiners ← remove_copy curr_view.joined joiners_buffer joiner_id
  let failed_size ← to_index ((curr_view.num_members : Int) - 1)
  make_subgroup_maps none
    (View.make 0 filtered_members filtered_ips (List.replicate failed_size false)
      filtered_joiners [] 0 0)

/-- The variables of `await_first_view` that its heartbeat loop writes. -/
structure FirstViewState where
  curr_view : View
  waiting_join_sockets : List Socket
  num_received_size : Nat
  joiner_failed : Bool
deriving DecidableEq, Repr

/-- The heartbeat loop of `await_first_view` over the sockets from the iterator
on (`rest`); `checked` are the sockets before it. -/
def check_first_joiners (exchange : Socket → node_id_t → Bool × node_id_t)
    (make_subgroup_maps : Option View → View → Except Fault (View × Nat)) (my_id : node_id_t) :
    (checked rest : List Socket) → View → Nat → Except Fault FirstViewState
  | checked, [], curr_view, num_received_size =>
    .ok { curr_view := curr_view, waiting_join_sockets := checked,
          num_received_size := num_received_size, joiner_failed := false }
  | checked, socket :: rest, curr_view, num_received_size =>
    let joiner_ip := socket.remote_ip
    let (write_success, joiner_id) := exchange socket my_id
    if !write_success then do
      let (view, size) ← rebuild_first_view make_subgroup_maps curr_view joiner_id joiner_ip
      .ok { curr_view := view, waiting_join_sockets := checked ++ rest,
            num_received_size := size, joiner_failed := true }
    else
      check_first_joiners exchange make_subgroup_maps my_id (checked ++ [socket]) rest curr_view
        num_received_size

/-- An exchange for the scenarios: the peer answers with the id it has sent
last; the exchange with a node in `dead` fails after that id has arrived. -/
def scenario_exchange (dead : List node_id_t) (socket : Socket) (_my_id : node_id_t) :
    Bool × node_id_t :=
  (decide ((socket.read 0).1 ∉ dead), (socket.read 0).1)

/-- An exchange for the scenarios with peers that are all gone: it fails and
`joiner_id` keeps its initial value 0. -/
def silent_exchange (_socket : Socket) (_my_id : node_id_t) : Bool × node_id_t :=
  (false, 0)

/-- A layout function for the scenarios, called without a previous view, that
accepts every view and needs no `num_received` column. -/
def first_view_subgroup_maps (_prev_view : Option View) (curr_view : View) :
    Except Fault (View × Nat) :=
  .ok (curr_view, 0)

/-- The candidate first view of the leader 1 after the nodes 2 and 3 have
connected from the addresses `ip2` and `ip3`. -/
def candidate_view (ip2 ip3 : ip_addr) : View :=
  View.make 0 [1, 2, 3] ["10.0.0.1", ip2, ip3] [false, false, false] [2, 3] [] 0 0

/-! ## The subgroup layout: `compute_num_received_size` and `make_subgroup_maps` -/

/-- A subgroup type, a `std::type_index` in the source. -/
abbrev subgroup_type_id := Nat

/-- The settings of one subgroup that `make_subgroup_maps` saves for the
multicast group, in the order of the initialiser list: shard number, rank in
the shard, members, senders, rank among the senders, offset into
`num_received`, mode. -/
structure SubgroupSettings where
  shard_num : Nat
  shard_rank : Nat
  members : List node_id_t
  senders : List Bool
  sender_rank : Int
  num_received_offset : Nat
  mode : Mode
deriving DecidableEq, Repr

/-- Modelled from the spec: `SubView::num_senders` is declared in the view
class; "each `SubView` records its members, is_sender bitmap": the number of
set entries of `is_sender`. -/
def SubView.num_senders (shard_view : SubView) : Nat :=
  shard_view.is_sender.count true

/-- Modelled from the spec: `SubView::rank_of` is declared in the view class;
the position of a node in the members of the shard, −1 when absent. -/
def SubView.rank_of (shard_view : SubView) (who : node_id_t) : Int :=
  if who ∈ shard_view.members then (shard_view.members.indexOf who : Int) else -1

/-- Modelled from the spec: `SubView::sender_rank_of` is declared in the view
class; the position of a shard rank among the senders of the shard, −1 when
the rank does not send. -/
def SubView.sender_rank_of (shard_view : SubView) (rank : Nat) : Int :=
  if shard_view.is_sender.getD rank false then
    (((shard_view.is_sender.take rank).count true : Nat) : Int)
  else -1

/-- A subgroup membership function: given the view and `next_unassigned_rank`
(passed by reference) it returns the shard views of the subgroups of one type
and the new `next_unassigned_rank`, or `none` when it throws
`subgroup_provisioning_exception`. -/
abbrev shard_view_generator_t := View → Int → Option (List (List SubView) × Int)

/-- The member `subgroup_info` of the view manager. -/
structure SubgroupInfo where
  membership_function_order : List subgroup_type_id
  subgroup_membership_functions : List (subgroup_type_id × shard_view_generator_t)

/-- Assignment `m[key] = value` to a `std::map`, kept in ascending key order. -/
def map_assign {β : Type} : List (Nat × β) → Nat → β → List (Nat × β)
  | [], key, value => [(key, value)]
  | (k, v) :: rest, key, value =>
    if key < k then (key, value) :: (k, v) :: rest
    else if key = k then (k, value) :: rest
    else (k, v) :: map_assign rest key value

/-- The access `m.at(key)` to a `std::map`, which raises on a missing key. -/
def map_at {β : Type} (m : List (Nat × β)) (key : Nat) : Except Fault β :=
  match m.lookup key with
  | some value => .ok value
  | none => .error .out_of_range

/-- The constructor `std::set<node_id_t>(v.begin(), v.end())`. -/
def set_of_vector (v : List node_id_t) : List node_id_t :=
  v.foldl set_emplace []

/-- The result of `std::set_difference` on two `std::set`s: the ids of the
first that are not in the second, ascending. -/
def set_difference (first second : List node_id_t) : List node_id_t :=
  first.filter (fun id => decide (id ∉ second))

/-- The update of `max_shard_senders` for one shard, which both
`compute_num_received_size` and `make_subgroup_maps` make:
`if(num_shard_senders > max_shard_senders) max_shard_senders = shard_size;`
with `shard_size` narrowed to `uint32_t`. -/
def update_max_shard_senders (max_shard_senders : Nat) (shard_view : SubView) : Nat :=
  if shard_view.num_senders > max_shard_senders then shard_view.members.length % 4294967296
  else max_shard_senders

/-- The size of `num_received`: the sum over the subgroups of the value of
`max_shard_senders` after the loop over the shards, in `uint32_t`. -/
def compute_num_received_size (view : View) : Nat :=
  view.subgroup_shard_views.foldl
    (fun num_received_size shards =>
      (num_received_size + shards.foldl update_max_shard_senders 0) % 4294967296) 0

/-- The variables of the loop over the shards of one subgroup. -/
structure ShardLoop where
  shards : List SubView
  max_shard_senders : Nat
  my_subgroups : List (subgroup_id_t × Nat)
  subgroup_settings : List (subgroup_id_t × SubgroupSettings)
deriving DecidableEq, Repr

/-- The `if(prev_view)` block in the shard loop of `make_subgroup_maps`: with a previous
view, the shard's `joined` and `departed` lists receive the set differences between its members
and the members of the same shard in the previous view (found through
`prev_view->subgroup_ids_by_type.at(subgroup_type)[subgroup_index]`); without one the shard is
left as it is. -/
def init_joined_departed (prev_view : Option View) (subgroup_type : subgroup_type_id)
    (subgroup_index shard_num : Nat) (shard1 : SubView) : Except Fault SubView :=
  match prev_view with
  | none => .ok shard1
  | some prev => do
    let ids ← map_at prev.subgroup_ids_by_type subgroup_type
    let prev_subgroup_id ← vec_get ids subgroup_index
    let prev_shards ← vec_get prev.subgroup_shard_views prev_subgroup_id
    let prev_shard_view ← vec_get prev_shards shard_num
    let prev_members := set_of_vector prev_shard_view.members
    let curr_members := set_of_vector shard1.members
    .ok { shard1 with
          joined := shard1.joined ++ set_difference curr_members prev_members,
          departed := shard1.departed ++ set_difference prev_members curr_members }

/-- The loop over `shard_num < num_shards` of `make_subgroup_maps` for the
subgroup `curr_subgroup_num`, the subgroup number `subgroup_index` of its type.
`rest` are the shard views from `shard_num` on; the processed ones are
collected in the accumulator. -/
def layout_shards (prev_view : Option View) (curr_view : View) (subgroup_type : subgroup_type_id)
    (subgroup_index : Nat) (curr_subgroup_num : subgroup_id_t) (num_received_offset : Nat) :
    (shard_num : Nat) → (rest : List SubView) → ShardLoop → Except Fault ShardLoop
  | _, [], acc => .ok acc
  | shard_num, shard_view :: rest, acc => do
    let max_shard_senders := update_max_shard_senders acc.max_shard_senders shard_view
    let my_id ← vec_get curr_view.members curr_view.my_rank
    let my_rank := shard_view.rank_of my_id
    let shard1 := { shard_view with my_rank := my_rank }
    let my_subgroups :=
      if my_rank ≠ -1 then map_assign acc.my_subgroups curr_subgroup_num shard_num
      else acc.my_subgroups
    let subgroup_settings :=
      if my_rank ≠ -1 then
        map_assign acc.subgroup_settings curr_subgroup_num
          { shard_num := shard_num, shard_rank := my_rank.toNat, members := shard1.members,
            senders := shard1.is_sender, sender_rank := shard1.sender_rank_of my_rank.toNat,
            num_received_offset := num_received_offset, mode := shard1.mode }
      else acc.subgroup_settings
    let shard2 ← init_joined_departed prev_view subgroup_type subgroup_index shard_num shard1
    layout_shards prev_view curr_view subgroup_type subgroup_index curr_subgroup_num
      num_received_offset (shard_num + 1) rest
      { shards := acc.shards ++ [shard2], max_shard_senders := max_shard_senders,
        my_subgroups := my_subgroups, subgroup_settings := subgroup_settings }

/-- The variables of `make_subgroup_maps`. -/
structure LayoutState where
  curr_view : View
  subgroup_settings : List (subgroup_id_t × SubgroupSettings)
  num_received_offset : Nat
deriving DecidableEq, Repr

/-- The loop over `subgroup_index < num_subgroups` of `make_subgroup_maps` for
one subgroup type. `rest` are the shard layouts from `subgroup_index` on. -/
def layout_subgroups (prev_view : Option View) (subgroup_type : subgroup_type_id) :
    (subgroup_index : Nat) → (rest : List (List SubView)) → LayoutState →
      Except Fault LayoutState
  | _, [], state => .ok state
  | subgroup_index, shards :: rest, state => do
    let curr_subgroup_num := state.curr_view.subgroup_shard_views.length
    let ids ← map_at state.curr_view.subgroup_ids_by_type subgroup_type
    let ids2 ← vec_set ids subgroup_index curr_subgroup_num
    let view1 := { state.curr_view with
      subgroup_ids_by_type :=
        (map_assign state.curr_view.subgroup_ids_by_type subgroup_type ids2) }
    let done ← layout_shards prev_view view1 subgroup_type subgroup_index curr_subgroup_num
      state.num_received_offset 0 shards
      { shards := [], max_shard_senders := 0, my_subgroups := view1.my_subgroups,
        subgroup_settings := state.subgroup_settings }
    layout_subgroups prev_view subgroup_type (subgroup_index + 1) rest
      { curr_view := { view1 with
          my_subgroups := done.my_subgroups,
          subgroup_shard_views := (view1.subgroup_shard_views ++ [done.shards]) },
        subgroup_settings := done.subgroup_settings,
        num_received_offset :=
          (state.num_received_offset + done.max_shard_senders) % 4294967296 }

/-- The loop over `membership_function_order` of `make_subgroup_maps`. When a
membership function throws, the view is marked inadequate, everything done so
far is rolled back and 0 is returned. The result is the view, the settings and
the returned size. -/
def layout_types (subgroup_info : SubgroupInfo) (prev_view : Option View)
    (initial_next_unassigned_rank : Int) :
    (order : List subgroup_type_id) → LayoutState →
      Except Fault (View × List (subgroup_id_t × SubgroupSettings) × Nat)
  | [], state => .ok (state.curr_view, state.subgroup_settings, state.num_received_offset)
  | subgroup_type :: rest, state => do
    let membership_function ← map_at subgroup_info.subgroup_membership_functions subgroup_type
    match membership_function state.curr_view state.curr_view.next_unassigned_rank with
    | none =>
      .ok ({ state.curr_view with
              is_adequately_provisioned := false,
              next_unassigned_rank := initial_next_unassigned_rank,
              subgroup_shard_views := [],
              subgroup_ids_by_type := [] }, [], 0)
    | some (subgroup_shard_views, next_unassigned_rank) => do
      let view1 := { state.curr_view with
        next_unassigned_rank := next_unassigned_rank,
        subgroup_ids_by_type :=
          (map_assign state.curr_view.subgroup_ids_by_type subgroup_type
            (List.replicate subgroup_shard_views.length 0)) }
      let state2 ← layout_subgroups prev_view subgroup_type 0 subgroup_shard_views
        { state with curr_view := view1 }
      layout_types subgroup_info prev_view initial_next_unassigned_rank rest state2

/-- The subgroup layout of `curr_view` is computed with the membership
functions, against the previous view when there is one. The result is the
view with its layout, the settings of the local node's subgroups and the size
of `num_received`. -/
def make_subgroup_maps (subgroup_info : SubgroupInfo) (prev_view : Option View)
    (curr_view : View) (subgroup_settings : List (subgroup_id_t × SubgroupSettings)) :
    Except Fault (View × List (subgroup_id_t × SubgroupSettings) × Nat) :=
  layout_types subgroup_info prev_view curr_view.next_unassigned_rank
    subgroup_info.membership_function_order
    { curr_view := { curr_view with subgroup_shard_views := [], subgroup_ids_by_type := [] },
      subgroup_settings := subgroup_settings, num_received_offset := 0 }

/-- The value of `max_shard_senders` after the loop over the shards of one
subgroup: the width of the subgroup in `num_received`. -/
def subgroup_width (shards : List SubView) : Nat :=
  shards.foldl update_max_shard_senders 0

/-- The value of `num_received_offset` when the subgroup `subgroup_id` of a
layout is reached. -/
def offset_of (layout : List (List SubView)) (subgroup_id : Nat) : Nat :=
  (layout.take subgroup_id).foldl
    (fun num_received_offset shards =>
      (num_received_offset + subgroup_width shards) % 4294967296) 0

/-- Every shard of the layout has no more senders than members, fewer than
`2^32` members, and the widths of the subgroups add up to less than `2^32`. -/
abbrev layout_sizes_ok (layout : List (List SubView)) : Prop :=
  (∀ shards ∈ layout, ∀ shard ∈ shards,
    shard.num_senders ≤ shard.members.length ∧ shard.members.length < 4294967296) ∧
  (layout.map subgroup_width).sum < 4294967296

/-- A shard view for the scenarios. -/
def scenario_shard (members : List node_id_t) (is_sender : List Bool) : SubView :=
  { mode := .ORDERED, members := members, is_sender := is_sender, my_rank := -1,
    joined := [], departed := [] }

/-- Two subgroup types for the scenarios. Type 0 has one subgroup with the
shards `{1,2}` (both send) and `{3,4,5}` (3 and 4 send); type 1 has one
subgroup with the single shard `{1,3,5}` (only 1 sends). A view with fewer than
five members is not provisioned. -/
def scenario_subgroup_info : SubgroupInfo :=
  { membership_function_order := [0, 1],
    subgroup_membership_functions :=
      [(0, fun view next_unassigned_rank =>
          if view.members.length < 5 then none
          else some ([[scenario_shard [1, 2] [true, true],
                       scenario_shard [3, 4, 5] [true, true, false]]], next_unassigned_rank)),
       (1, fun view next_unassigned_rank =>
          if view.members.length < 5 then none
          else some ([[scenario_shard [1, 3, 5] [true, false, false]]],
                     next_unassigned_rank))] }

/-- One entry of `subgroup_settings` names a shard of the list `shards`: the shard at position
`shard_num` exists and the entry carries its member list and its sender flags. -/
abbrev shard_entry_ok (shards : List SubView) (s : SubgroupSettings) : Prop :=
  (shards[s.shard_num]?).map (fun shard => (shard.is_sender, shard.members))
    = some (s.senders, s.members)

/-- One entry `(subgroup id, settings)` of `subgroup_settings` agrees with the layout
`subgroup_shard_views`: the subgroup exists, the entry's offset is the start of that
subgroup's range of `num_received` columns, and the entry names one of its shards. -/
abbrev settings_entry_ok (layout : List (List SubView))
    (p : subgroup_id_t × SubgroupSettings) : Prop :=
  p.1 < layout.length ∧ p.2.num_received_offset = offset_of layout p.1 ∧
  shard_entry_ok (layout.getD p.1 []) p.2

/-- The relation between the variables of `make_subgroup_maps` that its loops keep: the running
`num_received_offset` is the end of the last subgroup's range, and every entry of
`subgroup_settings` either was there at entry (`good`) or agrees with the layout built so far. -/
abbrev layout_state_ok (good : subgroup_id_t × SubgroupSettings → Prop)
    (layout : List (List SubView)) (subgroup_settings : List (subgroup_id_t × SubgroupSettings))
    (num_received_offset : Nat) : Prop :=
  num_received_offset = offset_of layout layout.length ∧
  ∀ p ∈ subgroup_settings, good p ∨ settings_entry_ok layout p

/-- The ranges of `num_received` columns of a layout are laid out one after the other: each
subgroup's range starts where the previous one ends and is as wide as `subgroup_width`, every
shard's senders fit in the width of its subgroup, and for two subgroups the columns
`[offset, offset + num_senders)` of a shard of the first end before those of a shard of the
second start, all below `compute_num_received_size`. -/
abbrev ranges_laid_out (view : View) : Prop :=
  (∀ g, g < view.subgroup_shard_views.length →
    offset_of view.subgroup_shard_views (g + 1)
      = offset_of view.subgroup_shard_views g
        + subgroup_width (view.subgroup_shard_views.getD g [])) ∧
  (∀ shards ∈ view.subgroup_shard_views, ∀ shard ∈ shards,
    shard.num_senders ≤ subgroup_width shards) ∧
  (∀ (g1 g2 : Nat) (shard1 shard2 : SubView), g1 < g2 → g2 < view.subgroup_shard_views.length →
    shard1 ∈ view.subgroup_shard_views.getD g1 [] →
    shard2 ∈ view.subgroup_shard_views.getD g2 [] →
    offset_of view.subgroup_shard_views g1 + shard1.num_senders
        ≤ offset_of view.subgroup_shard_views g2 ∧
    offset_of view.subgroup_shard_views g2 + shard2.num_senders
        ≤ compute_num_received_size view)

/-! ## Basic facts about the access functions -/

theorem bind_eq_ok {ε α β : Type} (x : Except ε α) (f : α → Except ε β) (b : β) :
    (x >>= f) = .ok b ↔ ∃ a, x = .ok a ∧ f a = .ok b := by
  cases x <;> simp [bind, Except.bind]

theorem vec_get_eq_ok {α : Type} (v : List α) (i : Nat) (a : α) :
    vec_get v i = .ok a ↔ v[i]? = some a := by
  unfold vec_get
  cases h : v[i]? <;> simp

theorem vec_get_of_lt {α : Type} (v : List α) (i : Nat) (d : α) (h : i < v.length) :
    vec_get v i = .ok (v.getD i d) := by
  rw [vec_get_eq_ok]
  simp [List.getD, List.getElem?_eq_getElem h]

theorem vec_get_ok_lt {α : Type} {v : List α} {i : Nat} {a : α}
    (h : vec_get v i = .ok a) : i < v.length := by
  rw [vec_get_eq_ok] at h
  exact (List.getElem?_eq_some.mp h).1

theorem vec_get_ok_getD {α : Type} {v : List α} {i : Nat} {a : α} (d : α)
    (h : vec_get v i = .ok a) : a = v.getD i d := by
  rw [vec_get_eq_ok] at h
  simp [List.getD, h]

theorem vec_set_eq_ok {α : Type} (v : List α) (i : Nat) (a : α) (w : List α) :
    vec_set v i a = .ok w ↔ i < v.length ∧ w = v.set i a := by
  unfold vec_set
  split <;> simp_all [eq_comm]

theorem to_index_eq_ok (i : Int) (n : Nat) : to_index i = .ok n ↔ i = (n : Int) := by
  unfold to_index
  split
  · simp only [Except.ok.injEq]
    omega
  · simp only [reduceCtorEq, false_iff]
    omega

theorem sst_get_eq_ok {α : Type} (field : List (List α)) (row i : Nat) (a : α) :
    sst_get field row i = .ok a ↔ ∃ r, field[row]? = some r ∧ r[i]? = some a := by
  unfold sst_get
  simp [bind_eq_ok, vec_get_eq_ok]

/-! ## Facts about `set_emplace` and block writes -/

theorem mem_set_emplace (s : List Nat) (x a : Nat) :
    a ∈ set_emplace s x ↔ a = x ∨ a ∈ s := by
  induction s with
  | nil => simp [set_emplace]
  | cons y ys ih =>
    unfold set_emplace
    split
    · simp
    · split
      · subst_vars
        simp
      · simp only [List.mem_cons, ih]
        tauto

theorem sorted_set_emplace (s : List Nat) (x : Nat) (h : s.Sorted (· < ·)) :
    (set_emplace s x).Sorted (· < ·) := by
  induction s with
  | nil => simp [set_emplace]
  | cons y ys ih =>
    have hy := List.sorted_cons.mp h
    unfold set_emplace
    split
    · refine List.sorted_cons.mpr ⟨?_, h⟩
      intro b hb
      rcases List.mem_cons.mp hb with rfl | hb
      · assumption
      · have := hy.1 b hb
        omega
    · split
      · exact h
      · refine List.sorted_cons.mpr ⟨?_, ih hy.2⟩
        intro b hb
        rcases (mem_set_emplace ys x b).mp hb with rfl | hb
        · omega
        · exact hy.1 b hb

theorem write_at_nil {α : Type} (l : List α) (start : Nat) : write_at l start [] = l := by
  simp [write_at]

theorem set_eq_write_at {α : Type} (l : List α) (s : Nat) (x : α) (h : s < l.length) :
    l.set s x = write_at l s [x] := by
  induction l generalizing s with
  | nil => simp at h
  | cons y ys ih =>
    cases s with
    | zero => simp [write_at]
    | succ k =>
      have hk : k < ys.length := by simpa using h
      have := ih k hk
      simp only [write_at, List.length_singleton, List.set_cons_succ, List.take_succ_cons,
        List.cons_append, List.drop_succ_cons, List.cons.injEq, true_and] at this ⊢
      simpa [Nat.add_right_comm] using this

theorem write_at_write_at {α : Type} (l : List α) (s : Nat) (xs ys : List α)
    (h : s + xs.length ≤ l.length) :
    write_at (write_at l s xs) (s + xs.length) ys = write_at l s (xs ++ ys) := by
  have hs : s ≤ l.length := by omega
  have h1 : (List.take s l ++ xs).length = s + xs.length := by
    simp [List.length_take, Nat.min_eq_left hs]
  unfold write_at
  rw [List.take_append_eq_append_take, List.drop_append_eq_append_drop]
  simp only [h1, Nat.sub_self, List.take_zero, List.append_nil, Nat.le_refl, List.take_of_length_le,
    Nat.le_add_right, List.drop_of_length_le, List.nil_append, List.length_append, List.drop_drop,
    List.append_assoc, Nat.add_sub_cancel_left]
  simp [Nat.add_comm, Nat.add_left_comm, Nat.add_assoc, List.drop_drop]

theorem length_write_at {α : Type} (l : List α) (s : Nat) (xs : List α)
    (h : s + xs.length ≤ l.length) : (write_at l s xs).length = l.length := by
  unfold write_at
  simp only [List.length_append, List.length_take, List.length_drop]
  omega

theorem write_at_replicate {α : Type} (a : α) (n : Nat) (xs : List α) :
    write_at (List.replicate (n + xs.length) a) n xs = List.replicate n a ++ xs := by
  simp [write_at, List.take_replicate]

theorem write_at_zero_append {α : Type} (l xs ys : List α) (h : xs.length = l.length) :
    write_at (l ++ ys) 0 xs = xs ++ ys := by
  simp [write_at, h]

/-! ## The loops of `make_next_view` -/

theorem sst_get_ok_row {α : Type} {field : List (List α)} {row i : Nat} {a : α} (d : α)
    (h : sst_get field row i = .ok a) :
    i < (field.getD row []).length ∧ a = (field.getD row []).getD i d := by
  rw [sst_get_eq_ok] at h
  obtain ⟨r, h1, h2⟩ := h
  have hr : field.getD row [] = r := by simp [List.getD, h1]
  rw [hr]
  exact ⟨(List.getElem?_eq_some.mp h2).1, by simp [List.getD, h2]⟩

theorem rank_of_cases (v : View) (who : node_id_t) :
    (who ∉ v.members ∧ v.rank_of who = -1) ∨
    (who ∈ v.members ∧ v.rank_of who = (v.members.indexOf who : Int)
      ∧ v.members.indexOf who < v.members.length) := by
  unfold View.rank_of
  by_cases h : who ∈ v.members
  · right
    simp [h, List.indexOf_lt_length]
  · left
    simp [h]

theorem rank_of_eq_neg_one (v : View) (who : node_id_t) :
    v.rank_of who = -1 ↔ who ∉ v.members := by
  rcases rank_of_cases v who with ⟨h1, h2⟩ | ⟨h1, h2, _⟩
  · simp [h1, h2]
  · simp only [h1, not_true_eq_false, iff_false, h2]
    omega

theorem filter_changes_ok (v : View) (sst : DerechoSST) :
    ∀ (k i : Nat) (L J L2 J2 : List Nat),
      filter_changes v sst i k (L, J) = .ok (L2, J2) →
      (0 < k → i + k ≤ (changes_row v sst).length) ∧
      (∀ r : Nat, r ∈ L2 ↔ r ∈ L ∨ ∃ idx, i ≤ idx ∧ idx < i + k ∧
          v.rank_of ((changes_row v sst).getD idx 0) = (r : Int)) ∧
      (L.Sorted (· < ·) → L2.Sorted (· < ·)) ∧
      J2 = J ++ (List.range' i k).filter
          (fun idx => decide (v.rank_of ((changes_row v sst).getD idx 0) = -1)) := by
  intro k
  induction k with
  | zero =>
    intro i L J L2 J2 h
    simp only [filter_changes, Except.ok.injEq, Prod.mk.injEq] at h
    obtain ⟨rfl, rfl⟩ := h
    refine ⟨by omega, ?_, fun h => h, by simp⟩
    intro r
    constructor
    · intro h
      exact Or.inl h
    · rintro (h | ⟨idx, h1, h2, _⟩)
      · exact h
      · omega
  | succ k ih =>
    intro i L J L2 J2 h
    simp only [filter_changes, bind_eq_ok] at h
    obtain ⟨change_id, hget, h⟩ := h
    obtain ⟨hlt, hid⟩ := sst_get_ok_row 0 hget
    change i < (changes_row v sst).length at hlt
    change change_id = (changes_row v sst).getD i 0 at hid
    split at h
    · rename_i hne
      obtain ⟨hk, hmem, hsorted, hJ⟩ := ih _ _ _ _ _ h
      have hrk : v.rank_of change_id = ((v.rank_of change_id).toNat : Int) := by
        rcases rank_of_cases v change_id with ⟨_, h2⟩ | ⟨_, h2, _⟩
        · exact absurd h2 hne
        · rw [h2]
          simp
      refine ⟨fun _ => ?_, ?_, fun hs => hsorted (sorted_set_emplace _ _ hs), ?_⟩
      · rcases Nat.eq_zero_or_pos k with rfl | hpos
        · omega
        · have := hk hpos
          omega
      · intro r
        rw [hmem, mem_set_emplace]
        constructor
        · rintro ((h1 | h1) | ⟨idx, h1, h2, h3⟩)
          · right
            refine ⟨i, Nat.le_refl _, by omega, ?_⟩
            rw [← hid, hrk, h1]
          · exact Or.inl h1
          · exact Or.inr ⟨idx, by omega, by omega, h3⟩
        · rintro (h1 | ⟨idx, h1, h2, h3⟩)
          · exact Or.inl (Or.inr h1)
          · rcases Nat.eq_or_lt_of_le h1 with rfl | hlt2
            · left
              left
              rw [← hid, hrk] at h3
              exact (Int.ofNat_inj.mp h3).symm
            · exact Or.inr ⟨idx, by omega, by omega, h3⟩
      · have hthis : ¬ v.rank_of ((changes_row v sst).getD i 0) = -1 := by
          rw [← hid]
          exact hne
        rw [hJ, List.range'_succ, List.filter_cons_of_neg]
        simpa using hthis
    · rename_i hne
      have heq : v.rank_of change_id = -1 := by
        by_contra hc
        exact hne hc
      obtain ⟨hk, hmem, hsorted, hJ⟩ := ih _ _ _ _ _ h
      refine ⟨fun _ => ?_, ?_, hsorted, ?_⟩
      · rcases Nat.eq_zero_or_pos k with rfl | hpos
        · omega
        · have := hk hpos
          omega
      · intro r
        rw [hmem]
        constructor
        · rintro (h1 | ⟨idx, h1, h2, h3⟩)
          · exact Or.inl h1
          · exact Or.inr ⟨idx, by omega, by omega, h3⟩
        · rintro (h1 | ⟨idx, h1, h2, h3⟩)
          · exact Or.inl h1
          · rcases Nat.eq_or_lt_of_le h1 with rfl | hlt2
            · rw [← hid, heq] at h3
              omega
            · exact Or.inr ⟨idx, by omega, by omega, h3⟩
      · have hthis : v.rank_of ((changes_row v sst).getD i 0) = -1 := by
          rw [← hid]
          exact heq
        rw [hJ, List.range'_succ, List.filter_cons_of_pos]
        · simp
        · simpa using hthis

theorem to_index_sub_ok {n lc i k : Nat} (hlc : lc ≤ n)
    (h : to_index ((n : Int) - lc + i) = .ok k) : k = n - lc + i := by
  rw [to_index_eq_ok] at h
  omega

theorem vec_set_ok_write_at {α : Type} {v : List α} {i : Nat} {a : α} {w : List α}
    (h : vec_set v i a = .ok w) : i < v.length ∧ w = write_at v i [a] := by
  rw [vec_set_eq_ok] at h
  exact ⟨h.1, by rw [h.2, set_eq_write_at _ _ _ h.1]⟩

theorem write_at_cons_step {α : Type} (l : List α) (s : Nat) (x : α) (xs : List α)
    (h : s < l.length) :
    write_at (write_at l s [x]) (s + 1) xs = write_at l s (x :: xs) := by
  have := write_at_write_at l s [x] xs (by simpa using h)
  simpa using this

theorem add_joiners_ok (ntoa : Nat → ip_addr) (v : View) (sst : DerechoSST) (lc : Nat)
    (hlc : lc ≤ v.num_members) :
    ∀ (rest : List Nat) (i : Nat) (jd m : List node_id_t) (ips : List ip_addr)
      (jd2 m2 : List node_id_t) (ips2 : List ip_addr),
      add_joiners ntoa v sst lc i rest (jd, m, ips) = .ok (jd2, m2, ips2) →
      jd2 = jd ++ rest.map (fun idx => (changes_row v sst).getD idx 0) ∧
      m2 = write_at m (v.num_members - lc + i)
            (rest.map (fun idx => (changes_row v sst).getD idx 0)) ∧
      ips2 = write_at ips (v.num_members - lc + i)
            (rest.map (fun idx => ntoa ((joiner_ips_row v sst).getD idx 0))) := by
  intro rest
  induction rest with
  | nil =>
    intro i jd m ips jd2 m2 ips2 h
    simp only [add_joiners, Except.ok.injEq, Prod.mk.injEq] at h
    obtain ⟨rfl, rfl, rfl⟩ := h
    simp [write_at_nil]
  | cons join_index rest ih =>
    intro i jd m ips jd2 m2 ips2 h
    simp only [add_joiners, bind_eq_ok] at h
    obtain ⟨joiner_id, hid, packed, hip, rank, hrank, ma, hma, ipa, hipa, h⟩ := h
    have hrank2 := to_index_sub_ok hlc hrank
    subst hrank2
    obtain ⟨_, hid2⟩ := sst_get_ok_row 0 hid
    obtain ⟨_, hip2⟩ := sst_get_ok_row 0 hip
    change joiner_id = (changes_row v sst).getD join_index 0 at hid2
    change packed = (joiner_ips_row v sst).getD join_index 0 at hip2
    obtain ⟨hlt1, rfl⟩ := vec_set_ok_write_at hma
    obtain ⟨hlt2, rfl⟩ := vec_set_ok_write_at hipa
    obtain ⟨h1, h2, h3⟩ := ih _ _ _ _ _ _ _ h
    subst hid2 hip2
    refine ⟨by simp [h1], ?_, ?_⟩
    · rw [h2, ← Nat.add_assoc, write_at_cons_step _ _ _ _ hlt1]
      simp
    · rw [h3, ← Nat.add_assoc, write_at_cons_step _ _ _ _ hlt2]
      simp

theorem add_departed_ok (v : View) :
    ∀ (rest : List Nat) (dep : List node_id_t) (nur : Int) (dep2 : List node_id_t) (nur2 : Int),
      add_departed v rest (dep, nur) = .ok (dep2, nur2) →
      dep2 = dep ++ rest.map (fun r => v.members.getD r 0) := by
  intro rest
  induction rest with
  | nil =>
    intro dep nur dep2 nur2 h
    simp only [add_departed, Except.ok.injEq, Prod.mk.injEq] at h
    simp [h.1]
  | cons r rest ih =>
    intro dep nur dep2 nur2 h
    simp only [add_departed, bind_eq_ok] at h
    obtain ⟨leaver, hl, h⟩ := h
    have := vec_get_ok_getD 0 hl
    subst this
    rw [ih _ _ _ _ h]
    simp

theorem copy_members_ok (v : View) (L : List Nat) :
    ∀ (k o nr : Nat) (m : List node_id_t) (ips : List ip_addr) (f : List Bool)
      (nr2 : Nat) (m2 : List node_id_t) (ips2 : List ip_addr) (f2 : List Bool),
      copy_members v L o k (nr, m, ips, f) = .ok (nr2, m2, ips2, f2) →
      nr2 = nr + ((List.range' o k).filter (fun r => decide (r ∉ L))).length ∧
      m2 = write_at m nr
        (((List.range' o k).filter (fun r => decide (r ∉ L))).map (fun r => v.members.getD r 0)) ∧
      ips2 = write_at ips nr
        (((List.range' o k).filter (fun r => decide (r ∉ L))).map
          (fun r => v.member_ips.getD r "")) ∧
      f2 = write_at f nr
        (((List.range' o k).filter (fun r => decide (r ∉ L))).map
          (fun r => v.failed.getD r false)) := by
  intro k
  induction k with
  | zero =>
    intro o nr m ips f nr2 m2 ips2 f2 h
    simp only [copy_members, Except.ok.injEq, Prod.mk.injEq] at h
    obtain ⟨rfl, rfl, rfl, rfl⟩ := h
    simp [write_at_nil]
  | succ k ih =>
    intro o nr m ips f nr2 m2 ips2 f2 h
    unfold copy_members at h
    split at h
    · rename_i hnot
      simp only [bind_eq_ok] at h
      obtain ⟨x, hx, ma, hma, ip, hip, ipa, hipa, fl, hfl, fa, hfa, h⟩ := h
      have e1 := vec_get_ok_getD 0 hx
      have e2 := vec_get_ok_getD "" hip
      have e3 := vec_get_ok_getD false hfl
      subst e1 e2 e3
      obtain ⟨hlt1, rfl⟩ := vec_set_ok_write_at hma
      obtain ⟨hlt2, rfl⟩ := vec_set_ok_write_at hipa
      obtain ⟨hlt3, rfl⟩ := vec_set_ok_write_at hfa
      obtain ⟨h1, h2, h3, h4⟩ := ih _ _ _ _ _ _ _ _ _ h
      rw [List.range'_succ, List.filter_cons_of_pos (by simpa using hnot)]
      refine ⟨?_, ?_, ?_, ?_⟩
      · rw [h1]
        simp only [List.length_cons]
        omega
      · rw [h2, write_at_cons_step _ _ _ _ hlt1]
        simp
      · rw [h3, write_at_cons_step _ _ _ _ hlt2]
        simp
      · rw [h4, write_at_cons_step _ _ _ _ hlt3]
        simp
    · rename_i hnot
      rw [List.range'_succ, List.filter_cons_of_neg (by simpa using hnot)]
      exact ih _ _ _ _ _ _ _ _ _ h

theorem find_my_new_rank_ok (m : List node_id_t) (myID : node_id_t) :
    ∀ (k i : Nat) (r : Int), find_my_new_rank m myID i k = .ok r →
      (r = -1 ∧ ∀ j, i ≤ j → j < i + k → m[j]? ≠ some myID) ∨
      (∃ j : Nat, r = (j : Int) ∧ i ≤ j ∧ j < i + k ∧ m[j]? = some myID) := by
  intro k
  induction k with
  | zero =>
    intro i r h
    simp only [find_my_new_rank, Except.ok.injEq] at h
    left
    exact ⟨h.symm, fun j h1 h2 => by omega⟩
  | succ k ih =>
    intro i r h
    simp only [find_my_new_rank, bind_eq_ok] at h
    obtain ⟨x, hx, h⟩ := h
    rw [vec_get_eq_ok] at hx
    split at h
    · rename_i heq
      subst heq
      simp only [Except.ok.injEq] at h
      right
      exact ⟨i, h.symm, Nat.le_refl _, by omega, hx⟩
    · rename_i hne
      rcases ih _ _ h with ⟨h1, h2⟩ | ⟨j, h1, h2, h3, h4⟩
      · left
        refine ⟨h1, fun j hj1 hj2 => ?_⟩
        rcases Nat.eq_or_lt_of_le hj1 with rfl | hlt
        · rw [hx]
          simpa using hne
        · exact h2 j (by omega) (by omega)
      · right
        exact ⟨j, h1, by omega, by omega, h4⟩

theorem sorted_lt_ext {l1 l2 : List Nat} (h1 : l1.Sorted (· < ·)) (h2 : l2.Sorted (· < ·))
    (h : ∀ a, a ∈ l1 ↔ a ∈ l2) : l1 = l2 :=
  List.eq_of_perm_of_sorted ((List.perm_ext_iff_of_nodup h1.nodup h2.nodup).mpr h) h1 h2

theorem getD_take {α : Type} (l : List α) (c i : Nat) (d : α) (h : i < c) :
    (l.take c).getD i d = l.getD i d := by
  simp [List.getD, List.getElem?_take, h]

theorem mem_take_iff {α : Type} (l : List α) (c : Nat) (d x : α) (hc : c ≤ l.length) :
    x ∈ l.take c ↔ ∃ idx, idx < c ∧ l.getD idx d = x := by
  rw [List.mem_iff_getElem?]
  constructor
  · rintro ⟨n, hn⟩
    by_cases hlt : n < c
    · refine ⟨n, hlt, ?_⟩
      simp only [List.getElem?_take, hlt, if_true] at hn
      simp [List.getD, hn]
    · simp [List.getElem?_take, hlt] at hn
  · rintro ⟨idx, h1, rfl⟩
    refine ⟨idx, ?_⟩
    have hlt : idx < l.length := by omega
    simp [List.getElem?_take, h1, List.getD, List.getElem?_eq_getElem hlt]

theorem filter_changes_spec (v : View) (sst : DerechoSST) (c : Nat) (L J : List Nat)
    (h : filter_changes v sst 0 c ([], []) = .ok (L, J)) :
    L = leave_ranks_of v ((changes_row v sst).take c) ∧
    J = join_indexes_of v ((changes_row v sst).take c) ∧
    ((changes_row v sst).take c).length = c := by
  obtain ⟨hk, hmem, hsorted, hJ⟩ := filter_changes_ok v sst c 0 [] [] L J h
  have hc : c ≤ (changes_row v sst).length := by
    rcases Nat.eq_zero_or_pos c with rfl | hpos
    · exact Nat.zero_le _
    · have := hk hpos
      omega
  have hlen : ((changes_row v sst).take c).length = c := by
    simp [List.length_take, Nat.min_eq_left hc]
  refine ⟨?_, ?_, hlen⟩
  · apply sorted_lt_ext (hsorted List.sorted_nil)
    · exact List.Sorted.filter _ (List.sorted_lt_range _)
    · intro r
      rw [hmem]
      simp only [List.not_mem_nil, Nat.zero_le, Nat.zero_add, true_and, false_or, leave_ranks_of,
        List.mem_filter, List.mem_range, List.any_eq_true, decide_eq_true_eq]
      constructor
      · rintro ⟨idx, h1, h2⟩
        refine ⟨?_, (changes_row v sst).getD idx 0,
          (mem_take_iff _ c 0 _ hc).mpr ⟨idx, h1, rfl⟩, h2⟩
        rcases rank_of_cases v ((changes_row v sst).getD idx 0) with ⟨_, h3⟩ | ⟨_, h3, h4⟩
        · omega
        · omega
      · rintro ⟨_, x, hx, h2⟩
        obtain ⟨idx, h3, rfl⟩ := (mem_take_iff _ c 0 _ hc).mp hx
        exact ⟨idx, h3, h2⟩
  · rw [hJ, join_indexes_of, hlen, List.range_eq_range']
    apply List.filter_congr
    intro i hi
    have hi2 : i < c := by
      have := List.mem_range'_1.mp hi
      omega
    rw [getD_take _ _ _ _ hi2]

theorem leave_stay_length (v : View) (cs : List node_id_t) :
    (leave_ranks_of v cs).length + (stay_ranks_of v cs).length = v.members.length := by
  unfold leave_ranks_of stay_ranks_of
  rw [← List.countP_eq_length_filter, ← List.countP_eq_length_filter]
  have := List.length_eq_countP_add_countP
    (fun r : Nat => cs.any (fun c => decide (v.rank_of c = (r : Int))))
    (List.range v.members.length)
  simp only [List.length_range] at this
  have h2 : List.countP (fun r : Nat => !cs.any (fun c => decide (v.rank_of c = (r : Int))))
      (List.range v.members.length)
      = List.countP (fun a : Nat => decide ¬(cs.any fun c => decide (v.rank_of c = (a : Int))) = true)
      (List.range v.members.length) := by
    apply List.countP_congr
    intro r _
    simp
  omega

theorem filter_not_mem_leave (v : View) (cs : List node_id_t) :
    (List.range' 0 v.members.length).filter (fun r => decide (r ∉ leave_ranks_of v cs))
      = stay_ranks_of v cs := by
  unfold stay_ranks_of
  rw [List.range_eq_range']
  apply List.filter_congr
  intro r hr
  have hr2 : r < v.members.length := by
    have := List.mem_range'_1.mp hr
    omega
  rw [Bool.eq_iff_iff]
  simp [leave_ranks_of, hr2]

theorem committed_changes_eq (v : View) (sst : DerechoSST) (leader : Nat) (committed installed : Int)
    (hleader : to_index v.rank_of_leader = .ok leader)
    (hc : vec_get sst.num_committed leader = .ok committed)
    (hi : vec_get sst.num_installed leader = .ok installed) :
    committed_count v sst = (committed - installed).toNat := by
  rw [to_index_eq_ok] at hleader
  unfold committed_count
  rw [hleader, Int.toNat_ofNat, ← vec_get_ok_getD 0 hc, ← vec_get_ok_getD 0 hi]

/-- The vectors that the loops of `make_next_view` build, in terms of the
committed changes. -/
theorem next_view_vectors (ntoa : Nat → ip_addr) (v : View) (sst : DerechoSST)
    (hn : v.num_members = v.members.length)
    (leader : Nat) (committed installed : Int) (L J : List Nat) (N : Nat)
    (jd m1 : List node_id_t) (ips1 : List ip_addr) (dep : List node_id_t) (nur : Int) (nr : Nat)
    (m : List node_id_t) (ips : List ip_addr) (f : List Bool)
    (hleader : to_index v.rank_of_leader = .ok leader)
    (hc : vec_get sst.num_committed leader = .ok committed)
    (hi : vec_get sst.num_installed leader = .ok installed)
    (hfilter : filter_changes v sst 0 (committed - installed).toNat ([], []) = .ok (L, J))
    (hN : to_index ((v.num_members : Int) - L.length + J.length) = .ok N)
    (hj : add_joiners ntoa v sst L.length 0 J ([], List.replicate N 0, List.replicate N "")
      = .ok (jd, m1, ips1))
    (hdep : add_departed v L ([], v.next_unassigned_rank) = .ok (dep, nur))
    (hcopy : copy_members v L 0 v.num_members (0, m1, ips1, List.replicate N false)
      = .ok (nr, m, ips, f)) :
    L = leave_ranks_of v (committed_changes v sst) ∧
    J = join_indexes_of v (committed_changes v sst) ∧
    m = (stay_ranks_of v (committed_changes v sst)).map (fun r => v.members.getD r 0)
        ++ (join_indexes_of v (committed_changes v sst)).map
            (fun i => (committed_changes v sst).getD i 0) ∧
    ips = (stay_ranks_of v (committed_changes v sst)).map (fun r => v.member_ips.getD r "")
        ++ (join_indexes_of v (committed_changes v sst)).map
            (fun i => ntoa ((joiner_ips_row v sst).getD i 0)) ∧
    f = (stay_ranks_of v (committed_changes v sst)).map (fun r => v.failed.getD r false)
        ++ List.replicate (join_indexes_of v (committed_changes v sst)).length false ∧
    jd = (join_indexes_of v (committed_changes v sst)).map
          (fun i => (committed_changes v sst).getD i 0) ∧
    dep = (leave_ranks_of v (committed_changes v sst)).map (fun r => v.members.getD r 0) ∧
    m.length = N := by
  have hcc := committed_changes_eq v sst leader committed installed hleader hc hi
  obtain ⟨hL, hJ, hlen⟩ := filter_changes_spec v sst _ L J hfilter
  rw [← hcc] at hL hJ hlen
  change L = leave_ranks_of v (committed_changes v sst) at hL
  change J = join_indexes_of v (committed_changes v sst) at hJ
  change (committed_changes v sst).length = committed_count v sst at hlen
  have hsum := leave_stay_length v (committed_changes v sst)
  rw [← hL] at hsum
  have hlc : L.length ≤ v.num_members := by omega
  have hN2 : N = (stay_ranks_of v (committed_changes v sst)).length + J.length := by
    rw [to_index_eq_ok] at hN
    omega
  obtain ⟨hjd, hm1, hips1⟩ := add_joiners_ok ntoa v sst L.length hlc _ _ _ _ _ _ _ _ hj
  have hdep2 := add_departed_ok v _ _ _ _ _ hdep
  obtain ⟨hnr, hm, hips, hf⟩ := copy_members_ok v L _ _ _ _ _ _ _ _ _ _ hcopy
  have hstay : (List.range' 0 v.num_members).filter (fun r => decide (r ∉ L))
      = stay_ranks_of v (committed_changes v sst) := by
    rw [hn, hL]
    exact filter_not_mem_leave v _
  rw [hstay] at hnr hm hips hf
  have hbase : v.num_members - L.length + 0
      = (stay_ranks_of v (committed_changes v sst)).length := by omega
  rw [hbase] at hm1 hips1
  -- the joiners are written behind the staying members
  have hm1b : m1 = List.replicate (stay_ranks_of v (committed_changes v sst)).length 0
      ++ J.map (fun idx => (changes_row v sst).getD idx 0) := by
    rw [hm1, hN2]
    have := write_at_replicate (0 : node_id_t) (stay_ranks_of v (committed_changes v sst)).length
      (J.map (fun idx => (changes_row v sst).getD idx 0))
    simpa using this
  have hips1b : ips1 = List.replicate (stay_ranks_of v (committed_changes v sst)).length ""
      ++ J.map (fun idx => ntoa ((joiner_ips_row v sst).getD idx 0)) := by
    rw [hips1, hN2]
    have := write_at_replicate ("" : ip_addr) (stay_ranks_of v (committed_changes v sst)).length
      (J.map (fun idx => ntoa ((joiner_ips_row v sst).getD idx 0)))
    simpa using this
  have hm2 : m = (stay_ranks_of v (committed_changes v sst)).map (fun r => v.members.getD r 0)
      ++ J.map (fun idx => (changes_row v sst).getD idx 0) := by
    rw [hm, hm1b]
    exact write_at_zero_append _ _ _ (by simp)
  have hips2 : ips = (stay_ranks_of v (committed_changes v sst)).map
      (fun r => v.member_ips.getD r "")
      ++ J.map (fun idx => ntoa ((joiner_ips_row v sst).getD idx 0)) := by
    rw [hips, hips1b]
    exact write_at_zero_append _ _ _ (by simp)
  have hf2 : f = (stay_ranks_of v (committed_changes v sst)).map (fun r => v.failed.getD r false)
      ++ List.replicate J.length false := by
    rw [hf, hN2, List.replicate_add]
    exact write_at_zero_append _ _ _ (by simp)
  -- the joiners' ids are read from the committed part of the row
  have hJids : J.map (fun idx => (changes_row v sst).getD idx 0)
      = J.map (fun i => (committed_changes v sst).getD i 0) := by
    apply List.map_congr_left
    intro i hi
    rw [hJ, join_indexes_of, List.mem_filter, List.mem_range, hlen] at hi
    exact (getD_take _ _ _ _ hi.1).symm
  rw [hJids] at hm2
  rw [hJids] at hjd
  have hmlen : m.length = N := by
    rw [hm2, hN2]
    simp
  subst hJ
  subst hL
  exact ⟨rfl, rfl, hm2, hips2, hf2, by simpa using hjd, by simpa using hdep2, hmlen⟩

/-- What `make_next_view` returns, in terms of the committed changes. -/
theorem make_next_view_shape (ntoa : Nat → ip_addr) (v : View) (sst : DerechoSST) (nv : View)
    (hn : v.num_members = v.members.length)
    (h : make_next_view ntoa v sst = .ok nv) :
    nv.members = (stay_ranks_of v (committed_changes v sst)).map (fun r => v.members.getD r 0)
        ++ (join_indexes_of v (committed_changes v sst)).map
            (fun i => (committed_changes v sst).getD i 0) ∧
    nv.member_ips = (stay_ranks_of v (committed_changes v sst)).map
          (fun r => v.member_ips.getD r "")
        ++ (join_indexes_of v (committed_changes v sst)).map
            (fun i => ntoa ((joiner_ips_row v sst).getD i 0)) ∧
    nv.failed = (stay_ranks_of v (committed_changes v sst)).map (fun r => v.failed.getD r false)
        ++ List.replicate (join_indexes_of v (committed_changes v sst)).length false ∧
    nv.joined = (join_indexes_of v (committed_changes v sst)).map
          (fun i => (committed_changes v sst).getD i 0) ∧
    nv.departed = (leave_ranks_of v (committed_changes v sst)).map
          (fun r => v.members.getD r 0) ∧
    nv.num_members = nv.members.length ∧
    (∃ myID, v.members[v.my_rank]? = some myID ∧ nv.members[nv.my_rank]? = some myID) ∧
    nv.vid = v.vid + 1 ∧
    nv.i_know_i_am_leader = v.i_know_i_am_leader := by
  simp only [make_next_view, bind_eq_ok] at h
  obtain ⟨leader, hleader, committed, hc, installed, hi, ⟨L, J⟩, hfilter, N, hN, ⟨jd, m1, ips1⟩, hj,
    ⟨dep, nur⟩, hdep, ⟨nr, m, ips, f⟩, hcopy, myID, hmy, r, hfind, h⟩ := h
  simp only at hN hj hdep hcopy hfind h
  obtain ⟨_, _, hm2, hips2, hf2, hjd, hdep2, _⟩ :=
    next_view_vectors ntoa v sst hn leader committed installed L J N jd m1 ips1 dep nur nr m ips f
      hleader hc hi hfilter hN hj hdep hcopy
  split at h
  · exact absurd h (by simp)
  · rename_i hr
    simp only [bind_eq_ok] at h
    obtain ⟨vid, hvid, h⟩ := h
    simp only [Except.ok.injEq] at h
    have hvid2 : vid = v.vid + 1 := by
      unfold next_vid at hvid
      split at hvid
      · simpa using hvid.symm
      · exact absurd hvid (by simp)
    subst h
    refine ⟨hm2, hips2, hf2, hjd, hdep2, rfl, ?_, hvid2, rfl⟩
    rcases find_my_new_rank_ok m myID N 0 r hfind with ⟨h1, _⟩ | ⟨j, h1, _, _, h4⟩
    · exact absurd h1 hr
    · refine ⟨myID, (vec_get_eq_ok _ _ _).mp hmy, ?_⟩
      rw [h1, Int.toNat_ofNat]
      exact h4

/-! ## `make_next_view` returns or throws -/

theorem ok_bind {ε α β : Type} (a : α) (f : α → Except ε β) :
    ((Except.ok a : Except ε α) >>= f) = f a := rfl

theorem sst_get_of_lt {α : Type} (field : List (List α)) (row i : Nat) (d : α)
    (hrow : row < field.length) (hi : i < (field.getD row []).length) :
    sst_get field row i = .ok ((field.getD row []).getD i d) := by
  unfold sst_get
  rw [vec_get_of_lt field row [] hrow, ok_bind]
  exact vec_get_of_lt _ _ _ hi

theorem vec_set_of_lt {α : Type} (v : List α) (i : Nat) (a : α) (h : i < v.length) :
    vec_set v i a = .ok (v.set i a) := by
  simp [vec_set, h]

theorem filter_changes_total (v : View) (sst : DerechoSST) (hrow : v.my_rank < sst.changes.length) :
    ∀ (k i : Nat) (acc : List Nat × List Nat), i + k ≤ (changes_row v sst).length →
      ∃ r, filter_changes v sst i k acc = .ok r := by
  intro k
  induction k with
  | zero =>
    intro i acc _
    exact ⟨acc, rfl⟩
  | succ k ih =>
    intro i acc h
    obtain ⟨L, J⟩ := acc
    have hi : i < (sst.changes.getD v.my_rank []).length := by
      change i < (changes_row v sst).length
      omega
    simp only [filter_changes, sst_get_of_lt _ _ _ 0 hrow hi, ok_bind]
    split
    · exact ih _ _ (by omega)
    · exact ih _ _ (by omega)

theorem add_joiners_total (ntoa : Nat → ip_addr) (v : View) (sst : DerechoSST) (lc : Nat)
    (hlc : lc ≤ v.num_members) (hrow1 : v.my_rank < sst.changes.length)
    (hrow2 : v.my_rank < sst.joiner_ips.length) :
    ∀ (rest : List Nat) (i : Nat) (jd m : List node_id_t) (ips : List ip_addr),
      (∀ idx ∈ rest, idx < (changes_row v sst).length ∧ idx < (joiner_ips_row v sst).length) →
      v.num_members - lc + i + rest.length ≤ m.length →
      v.num_members - lc + i + rest.length ≤ ips.length →
      ∃ r, add_joiners ntoa v sst lc i rest (jd, m, ips) = .ok r := by
  intro rest
  induction rest with
  | nil =>
    intro i jd m ips _ _ _
    exact ⟨_, rfl⟩
  | cons idx rest ih =>
    intro i jd m ips hidx hm hips
    obtain ⟨h1, h2⟩ := hidx idx (List.mem_cons_self _ _)
    have hto : to_index ((v.num_members : Int) - lc + i) = .ok (v.num_members - lc + i) := by
      rw [to_index_eq_ok]
      omega
    simp only [List.length_cons] at hm hips
    simp only [add_joiners, sst_get_of_lt _ _ _ 0 hrow1 h1, sst_get_of_lt _ _ _ 0 hrow2 h2,
      ok_bind, hto, vec_set_of_lt m _ _ (show v.num_members - lc + i < m.length by omega),
      vec_set_of_lt ips _ _ (show v.num_members - lc + i < ips.length by omega)]
    apply ih
    · intro j hj
      exact hidx j (List.mem_cons_of_mem _ hj)
    · rw [List.length_set]
      omega
    · rw [List.length_set]
      omega

theorem add_departed_total (v : View) :
    ∀ (rest : List Nat) (acc : List node_id_t × Int), (∀ r ∈ rest, r < v.members.length) →
      ∃ r, add_departed v rest acc = .ok r := by
  intro rest
  induction rest with
  | nil =>
    intro acc _
    exact ⟨acc, rfl⟩
  | cons x rest ih =>
    intro acc h
    obtain ⟨dep, nur⟩ := acc
    simp only [add_departed, vec_get_of_lt _ _ 0 (h x (List.mem_cons_self _ _)), ok_bind]
    exact ih _ (fun r hr => h r (List.mem_cons_of_mem _ hr))

theorem copy_members_total (v : View) (L : List Nat) :
    ∀ (k o nr : Nat) (m : List node_id_t) (ips : List ip_addr) (f : List Bool),
      o + k ≤ v.members.length → o + k ≤ v.member_ips.length → o + k ≤ v.failed.length →
      nr + ((List.range' o k).filter (fun r => decide (r ∉ L))).length ≤ m.length →
      nr + ((List.range' o k).filter (fun r => decide (r ∉ L))).length ≤ ips.length →
      nr + ((List.range' o k).filter (fun r => decide (r ∉ L))).length ≤ f.length →
      ∃ r, copy_members v L o k (nr, m, ips, f) = .ok r := by
  intro k
  induction k with
  | zero =>
    intro o nr m ips f _ _ _ _ _ _
    exact ⟨_, rfl⟩
  | succ k ih =>
    intro o nr m ips f h1 h2 h3 h4 h5 h6
    unfold copy_members
    split
    · rename_i hnot
      rw [List.range'_succ, List.filter_cons_of_pos (by simpa using hnot)] at h4 h5 h6
      simp only [List.length_cons] at h4 h5 h6
      simp only [vec_get_of_lt v.members o 0 (by omega), vec_get_of_lt v.member_ips o "" (by omega),
        vec_get_of_lt v.failed o false (by omega), ok_bind,
        vec_set_of_lt m nr _ (by omega), vec_set_of_lt ips nr _ (by omega),
        vec_set_of_lt f nr _ (by omega)]
      apply ih
      · omega
      · omega
      · omega
      · rw [List.length_set]
        omega
      · rw [List.length_set]
        omega
      · rw [List.length_set]
        omega
    · rename_i hnot
      rw [List.range'_succ, List.filter_cons_of_neg (by simpa using hnot)] at h4 h5 h6
      exact ih _ _ _ _ _ (by omega) (by omega) (by omega) h4 h5 h6

theorem find_my_new_rank_total (m : List node_id_t) (myID : node_id_t) :
    ∀ (k i : Nat), i + k ≤ m.length → ∃ r, find_my_new_rank m myID i k = .ok r := by
  intro k
  induction k with
  | zero =>
    intro i _
    exact ⟨_, rfl⟩
  | succ k ih =>
    intro i h
    simp only [find_my_new_rank, vec_get_of_lt m i 0 (by omega), ok_bind]
    split
    · exact ⟨_, rfl⟩
    · exact ih _ (by omega)

theorem mem_leave_ranks_lt (v : View) (cs : List node_id_t) (r : Nat)
    (h : r ∈ leave_ranks_of v cs) : r < v.members.length := by
  unfold leave_ranks_of at h
  exact List.mem_range.mp (List.mem_filter.mp h).1

theorem mem_join_indexes_lt (v : View) (cs : List node_id_t) (i : Nat)
    (h : i ∈ join_indexes_of v cs) : i < cs.length := by
  unfold join_indexes_of at h
  exact List.mem_range.mp (List.mem_filter.mp h).1

/-- Under `next_view_inputs_ok` every access of `make_next_view` is in range:
the function returns a view when the local id is among the new members and
throws otherwise. -/
theorem make_next_view_total (ntoa : Nat → ip_addr) (v : View) (sst : DerechoSST)
    (hok : next_view_inputs_ok v sst) :
    (v.members.getD v.my_rank 0 ∈
        (stay_ranks_of v (committed_changes v sst)).map (fun r => v.members.getD r 0)
        ++ (join_indexes_of v (committed_changes v sst)).map
            (fun i => (committed_changes v sst).getD i 0) →
      ∃ nv, make_next_view ntoa v sst = .ok nv) ∧
    (v.members.getD v.my_rank 0 ∉
        (stay_ranks_of v (committed_changes v sst)).map (fun r => v.members.getD r 0)
        ++ (join_indexes_of v (committed_changes v sst)).map
            (fun i => (committed_changes v sst).getD i 0) →
      make_next_view ntoa v sst
        = .error (.thrown (.reported_failed (v.members.getD v.my_rank 0)))) := by
  obtain ⟨hn, hips, hfl, hmy, hvid, hl0, hl1, hl2, hrow1, hrow2, hc1, hc2⟩ := hok
  have hleader : to_index v.rank_of_leader = .ok v.rank_of_leader.toNat := by
    rw [to_index_eq_ok]
    omega
  have hc := vec_get_of_lt sst.num_committed _ 0 hl1
  have hi := vec_get_of_lt sst.num_installed _ 0 hl2
  have hcc : (sst.num_committed.getD v.rank_of_leader.toNat 0
      - sst.num_installed.getD v.rank_of_leader.toNat 0).toNat = committed_count v sst := rfl
  obtain ⟨⟨L, J⟩, hfilter⟩ := filter_changes_total v sst hrow1 (committed_count v sst) 0 ([], [])
    (by omega)
  obtain ⟨hL, hJ, hlen⟩ := filter_changes_spec v sst _ L J hfilter
  change L = leave_ranks_of v (committed_changes v sst) at hL
  change J = join_indexes_of v (committed_changes v sst) at hJ
  change (committed_changes v sst).length = committed_count v sst at hlen
  have hsum := leave_stay_length v (committed_changes v sst)
  rw [← hL] at hsum
  have hlc : L.length ≤ v.num_members := by omega
  have hN : to_index ((v.num_members : Int) - L.length + J.length)
      = .ok (v.num_members - L.length + J.length) := by
    rw [to_index_eq_ok]
    omega
  obtain ⟨⟨jd, m1, ips1⟩, hj⟩ := add_joiners_total ntoa v sst L.length hlc hrow1 hrow2 J 0 []
    (List.replicate (v.num_members - L.length + J.length) 0)
    (List.replicate (v.num_members - L.length + J.length) "")
    (by
      intro idx hidx
      rw [hJ] at hidx
      have := mem_join_indexes_lt _ _ _ hidx
      omega)
    (by simp) (by simp)
  obtain ⟨hjd, hm1, hips1⟩ := add_joiners_ok ntoa v sst L.length hlc _ _ _ _ _ _ _ _ hj
  obtain ⟨⟨dep, nur⟩, hdep⟩ := add_departed_total v L ([], v.next_unassigned_rank)
    (by
      intro r hr
      rw [hL] at hr
      exact mem_leave_ranks_lt _ _ _ hr)
  have hstay : (List.range' 0 v.num_members).filter (fun r => decide (r ∉ L))
      = stay_ranks_of v (committed_changes v sst) := by
    rw [hn, hL]
    exact filter_not_mem_leave v _
  have hm1len : m1.length = v.num_members - L.length + J.length := by
    rw [hm1, length_write_at _ _ _ (by simp)]
    simp
  have hips1len : ips1.length = v.num_members - L.length + J.length := by
    rw [hips1, length_write_at _ _ _ (by simp)]
    simp
  obtain ⟨⟨nr, m, ips, f⟩, hcopy⟩ := copy_members_total v L v.num_members 0 0 m1 ips1
    (List.replicate (v.num_members - L.length + J.length) false)
    (by omega) (by omega) (by omega)
    (by rw [hstay, hm1len]; omega) (by rw [hstay, hips1len]; omega)
    (by rw [hstay, List.length_replicate]; omega)
  obtain ⟨_, _, hm2, _, _, _, _, hmlen⟩ :=
    next_view_vectors ntoa v sst hn _ _ _ L J _ jd m1 ips1 dep nur nr m ips f
      hleader hc hi hfilter hN hj hdep hcopy
  obtain ⟨r, hfind⟩ := find_my_new_rank_total m (v.members.getD v.my_rank 0)
    (v.num_members - L.length + J.length) 0 (by omega)
  have hmyget := vec_get_of_lt v.members v.my_rank 0 hmy
  have hvid2 : next_vid v.vid = .ok (v.vid + 1) := by
    simp [next_vid, hvid]
  have hrun : make_next_view ntoa v sst =
      if r = -1 then .error (.thrown (.reported_failed (v.members.getD v.my_rank 0)))
      else .ok { View.make (v.vid + 1) m ips f jd dep r.toNat nur with
                 i_know_i_am_leader := v.i_know_i_am_leader } := by
    simp only [make_next_view, hleader, hc, hi, ok_bind, hcc, hfilter, hN, hj, hdep, hcopy,
      hmyget, hfind, hvid2]
  rw [← hm2]
  rcases find_my_new_rank_ok m _ _ 0 r hfind with ⟨h1, h2⟩ | ⟨j, h1, _, h3, h4⟩
  · have hnot : v.members.getD v.my_rank 0 ∉ m := by
      intro hmem
      rw [List.mem_iff_getElem?] at hmem
      obtain ⟨j, hj⟩ := hmem
      have hjlt := (List.getElem?_eq_some.mp hj).1
      exact h2 j (Nat.zero_le _) (by omega) hj
    refine ⟨fun hmem => absurd hmem hnot, fun _ => ?_⟩
    rw [hrun, if_pos h1]
  · have hmem : v.members.getD v.my_rank 0 ∈ m := List.mem_iff_getElem?.mpr ⟨j, h4⟩
    refine ⟨fun _ => ?_, fun hnot => absurd hmem hnot⟩
    rw [hrun, if_neg (by omega)]
    exact ⟨_, rfl⟩

/-! ## Ranks, leavers and joiners -/

theorem rank_of_eq_getElem (v : View) (c : node_id_t) (r : Nat)
    (h : v.rank_of c = (r : Int)) : v.members[r]? = some c := by
  rcases rank_of_cases v c with ⟨_, h2⟩ | ⟨h1, h2, _⟩
  · omega
  · have hr : r = v.members.indexOf c := by omega
    subst hr
    exact List.getElem?_indexOf h1

theorem rank_of_getD_of_nodup (v : View) (r : Nat) (hnd : v.members.Nodup)
    (hr : r < v.members.length) : v.rank_of (v.members.getD r 0) = (r : Int) := by
  have hget : v.members.getD r 0 = v.members[r] := by
    simp [List.getD, List.getElem?_eq_getElem hr]
  rw [hget]
  unfold View.rank_of
  rw [if_pos (List.getElem_mem _), List.indexOf_getElem hnd r hr]

theorem map_getD_range {α : Type} (l : List α) (d : α) :
    (List.range l.length).map (fun i => l.getD i d) = l := by
  apply List.ext_getElem
  · simp
  · intro n h1 h2
    simp [List.getD, List.getElem?_eq_getElem h2]

theorem filter_index_map {α : Type} (l : List α) (p : α → Bool) (d : α) :
    ((List.range l.length).filter (fun i => p (l.getD i d))).map (fun i => l.getD i d)
      = l.filter p := by
  conv_rhs => rw [← map_getD_range l d]
  rw [List.filter_map]
  rfl

/-- The ids read at the join indexes are the committed ids that are not members,
in the order of the committed changes. -/
theorem join_ids_eq_filter (v : View) (cs : List node_id_t) :
    (join_indexes_of v cs).map (fun i => cs.getD i 0)
      = cs.filter (fun c => decide (c ∉ v.members)) := by
  rw [← filter_index_map cs (fun c => decide (c ∉ v.members)) 0]
  unfold join_indexes_of
  congr 1
  apply List.filter_congr
  intro i _
  rw [Bool.eq_iff_iff]
  simp [rank_of_eq_neg_one]

theorem my_rank_stays (v : View) (cs : List node_id_t) (hmy : v.my_rank < v.members.length)
    (h : v.members.getD v.my_rank 0 ∉ cs) : v.my_rank ∈ stay_ranks_of v cs := by
  unfold stay_ranks_of
  rw [List.mem_filter, List.mem_range]
  refine ⟨hmy, ?_⟩
  simp only [Bool.not_eq_eq_eq_not, Bool.not_true, List.any_eq_false, decide_eq_true_eq]
  intro c hc hrank
  have := rank_of_eq_getElem v c _ hrank
  apply h
  simpa [List.getD, this] using hc

theorem my_id_stays (v : View) (cs : List node_id_t) (hmy : v.my_rank < v.members.length)
    (h : v.members.getD v.my_rank 0 ∉ cs) :
    v.members.getD v.my_rank 0 ∈ (stay_ranks_of v cs).map (fun r => v.members.getD r 0) :=
  List.mem_map.mpr ⟨v.my_rank, my_rank_stays v cs hmy h, rfl⟩

theorem my_id_leaves (v : View) (cs : List node_id_t) (hnd : v.members.Nodup)
    (hmy : v.my_rank < v.members.length) (h : v.members.getD v.my_rank 0 ∈ cs) :
    v.members.getD v.my_rank 0 ∉ (stay_ranks_of v cs).map (fun r => v.members.getD r 0)
      ++ cs.filter (fun c => decide (c ∉ v.members)) := by
  have hget : v.members.getD v.my_rank 0 = v.members[v.my_rank] := by
    simp [List.getD, List.getElem?_eq_getElem hmy]
  intro hmem
  rcases List.mem_append.mp hmem with h1 | h1
  · obtain ⟨r, hr, heq⟩ := List.mem_map.mp h1
    unfold stay_ranks_of at hr
    rw [List.mem_filter, List.mem_range] at hr
    obtain ⟨hr1, hr2⟩ := hr
    have hget2 : v.members.getD r 0 = v.members[r] := by
      simp [List.getD, List.getElem?_eq_getElem hr1]
    have hrr : r = v.my_rank := by
      rw [hget, hget2] at heq
      exact (List.Nodup.getElem_inj_iff hnd).mp heq
    subst hrr
    simp only [Bool.not_eq_eq_eq_not, Bool.not_true, List.any_eq_false, decide_eq_true_eq] at hr2
    exact hr2 _ h (rank_of_getD_of_nodup v _ hnd hmy)
  · have := (List.mem_filter.mp h1).2
    simp only [decide_eq_true_eq] at this
    apply this
    rw [hget]
    exact List.getElem_mem _

/-! ## Claims about `make_next_view` -/

/-- Scenario E1: both nodes install view 1 with members `[1, 2]`, joined `[2]`
and nothing departed. -/
theorem E1_next_view :
    make_next_view scenario_ntoa E1_view E1_sst
      = .ok (View.make 1 [1, 2] ["10.0.0.1", "10.0.0.2"] [false, false] [2] [] 0 0) := by
  rfl

/-- Scenario E3: the live nodes install view 2 with members `[1, 2]`, departed
`[3]` and nobody failed. -/
theorem E3_next_view :
    make_next_view scenario_ntoa E3_view E3_sst
      = .ok (View.make 2 [1, 2] ["10.0.0.1", "10.0.0.2"] [false, false] [] [3] 0 0) := by
  rfl

/-- C1: for a current view with one `members` entry per member and the
committed changes `cs` of the local `changes` row, every view that
`make_next_view` (SST variant) returns has as members, member addresses and
failed flags the current entries at the ranks that `cs` does not name, in rank
order, followed by the joiners (the ids of `cs` that are not members, in the
order of `cs`; address converted from `joiner_ips` at the same index; not
failed); the three vectors have length
`num_members - |leave ranks| + |join indexes|`; `joined` lists the joiners and
`departed` the members at the leave ranks. The function does return such a
view when its inputs fit together and the local id is not among `cs`. -/
theorem make_next_view_compacts_and_appends (ntoa : Nat → ip_addr) (v : View) (sst : DerechoSST)
    (hn : v.num_members = v.members.length) :
    (∀ nv, make_next_view ntoa v sst = .ok nv →
      nv.members = (stay_ranks_of v (committed_changes v sst)).map (fun r => v.members.getD r 0)
          ++ (committed_changes v sst).filter (fun c => decide (c ∉ v.members)) ∧
      nv.member_ips = (stay_ranks_of v (committed_changes v sst)).map
            (fun r => v.member_ips.getD r "")
          ++ (join_indexes_of v (committed_changes v sst)).map
              (fun i => ntoa ((joiner_ips_row v sst).getD i 0)) ∧
      nv.failed = (stay_ranks_of v (committed_changes v sst)).map (fun r => v.failed.getD r false)
          ++ List.replicate (join_indexes_of v (committed_changes v sst)).length false ∧
      nv.members.length = v.num_members - (leave_ranks_of v (committed_changes v sst)).length
          + (join_indexes_of v (committed_changes v sst)).length ∧
      nv.member_ips.length = nv.members.length ∧
      nv.failed.length = nv.members.length ∧
      nv.joined = (committed_changes v sst).filter (fun c => decide (c ∉ v.members)) ∧
      nv.departed = (leave_ranks_of v (committed_changes v sst)).map
          (fun r => v.members.getD r 0)) ∧
    (next_view_inputs_ok v sst → v.members.getD v.my_rank 0 ∉ committed_changes v sst →
      ∃ nv, make_next_view ntoa v sst = .ok nv) := by
  constructor
  · intro nv h
    obtain ⟨h1, h2, h3, h4, h5, _⟩ := make_next_view_shape ntoa v sst nv hn h
    have hsum := leave_stay_length v (committed_changes v sst)
    rw [join_ids_eq_filter] at h1 h4
    refine ⟨h1, h2, h3, ?_, ?_, ?_, h4, h5⟩
    · rw [h1, ← join_ids_eq_filter]
      simp only [List.length_append, List.length_map]
      omega
    · rw [h1, h2, ← join_ids_eq_filter]
      simp
    · rw [h1, h3, ← join_ids_eq_filter]
      simp
  · intro hok hmy
    apply (make_next_view_total ntoa v sst hok).1
    exact List.mem_append_left _ (my_id_stays v _ hok.2.2.2.1 hmy)

/-- C1, witness: scenario E1 (members `[1]` and the committed join of node 2)
and scenario E3 (members `[1, 2, 3]`, node 3 failed and its removal
committed). -/
theorem make_next_view_compacts_and_appends_witness :
    (∃ nv, make_next_view scenario_ntoa E1_view E1_sst = .ok nv ∧
      nv.members = [1, 2] ∧ nv.member_ips = ["10.0.0.1", "10.0.0.2"] ∧
      nv.failed = [false, false] ∧ nv.joined = [2] ∧ nv.departed = []) ∧
    (∃ nv, make_next_view scenario_ntoa E3_view E3_sst = .ok nv ∧
      nv.members = [1, 2] ∧ nv.member_ips = ["10.0.0.1", "10.0.0.2"] ∧
      nv.failed = [false, false] ∧ nv.joined = [] ∧ nv.departed = [3]) := by
  have h := make_next_view_compacts_and_appends scenario_ntoa E1_view E1_sst rfl
  obtain ⟨nv, hnv⟩ := h.2 (by decide) (by decide)
  obtain ⟨h1, h2, h3, _, _, _, h7, h8⟩ := h.1 nv hnv
  have g := make_next_view_compacts_and_appends scenario_ntoa E3_view E3_sst rfl
  obtain ⟨nw, hnw⟩ := g.2 (by decide) (by decide)
  obtain ⟨g1, g2, g3, _, _, _, g7, g8⟩ := g.1 nw hnw
  exact ⟨⟨nv, hnv, h1.trans (by decide), h2.trans (by decide), h3.trans (by decide),
      h7.trans (by decide), h8.trans (by decide)⟩,
    ⟨nw, hnw, g1.trans (by decide), g2.trans (by decide), g3.trans (by decide),
      g7.trans (by decide), g8.trans (by decide)⟩⟩

/-- Scenario E6: the restart leader computes view 5 with members `[1, 2, 3]`,
none of them failed. -/
theorem E6_next_view :
    make_next_view_restart E6_view [] []
      = .ok (View.make 5 [1, 2, 3] ["10.0.0.1", "10.0.0.2", "10.0.0.3"] [false, false, false]
              [] [4, 5] 0 0) := by
  rfl

theorem next_vid_ok {vid r : Int} (h : next_vid vid = .ok r) : r = vid + 1 := by
  unfold next_vid at h
  split at h
  · simpa using h.symm
  · exact absurd h (by simp)

theorem make_next_view_vid (ntoa : Nat → ip_addr) (v : View) (sst : DerechoSST) (nv : View)
    (h : make_next_view ntoa v sst = .ok nv) : nv.vid = v.vid + 1 := by
  simp only [make_next_view, bind_eq_ok] at h
  obtain ⟨leader, hleader, committed, hc, installed, hi, ⟨L, J⟩, hfilter, N, hN, ⟨jd, m1, ips1⟩, hj,
    ⟨dep, nur⟩, hdep, ⟨nr, m, ips, f⟩, hcopy, myID, hmy, r, hfind, h⟩ := h
  simp only at h
  split at h
  · exact absurd h (by simp)
  · simp only [bind_eq_ok] at h
    obtain ⟨vid, hvid, h⟩ := h
    simp only [Except.ok.injEq] at h
    subst h
    exact next_vid_ok hvid

theorem make_next_view_restart_vid (v : View) (joiner_ids : List node_id_t)
    (joiner_ips : List ip_addr) (nv : View)
    (h : make_next_view_restart v joiner_ids joiner_ips = .ok nv) : nv.vid = v.vid + 1 := by
  simp only [make_next_view_restart, bind_eq_ok] at h
  obtain ⟨N, hN, L, hL, ⟨m1, ips1⟩, hj, ⟨dep, nur⟩, hdep, ⟨nr, m, ips, f⟩, hcopy, myID, hmy,
    r, hfind, h⟩ := h
  simp only at h
  split at h
  · exact absurd h (by simp)
  · simp only [bind_eq_ok] at h
    obtain ⟨vid, hvid, h⟩ := h
    simp only [Except.ok.injEq] at h
    subst h
    exact next_vid_ok hvid

/-- C2: every view returned by `make_next_view`, in the SST variant and in the
restart variant, has the view id of the current view plus one, which is
strictly greater than the current view id. -/
theorem next_view_vid_succ (ntoa : Nat → ip_addr) (v : View) (sst : DerechoSST)
    (joiner_ids : List node_id_t) (joiner_ips : List ip_addr) :
    (∀ nv, make_next_view ntoa v sst = .ok nv → nv.vid = v.vid + 1 ∧ v.vid < nv.vid) ∧
    (∀ nv, make_next_view_restart v joiner_ids joiner_ips = .ok nv →
      nv.vid = v.vid + 1 ∧ v.vid < nv.vid) := by
  constructor
  · intro nv h
    have := make_next_view_vid ntoa v sst nv h
    exact ⟨this, by omega⟩
  · intro nv h
    have := make_next_view_restart_vid v joiner_ids joiner_ips nv h
    exact ⟨this, by omega⟩

/-- C2, witness: scenario E3 (view 1 to view 2) for the SST variant and
scenario E6 (view 4 to view 5) for the restart variant. -/
theorem next_view_vid_succ_witness :
    (∃ nv, make_next_view scenario_ntoa E3_view E3_sst = .ok nv ∧ nv.vid = 2 ∧ E3_view.vid < nv.vid) ∧
    (∃ nv, make_next_view_restart E6_view [] [] = .ok nv ∧ nv.vid = 5 ∧ E6_view.vid < nv.vid) := by
  have h := next_view_vid_succ scenario_ntoa E3_view E3_sst [] []
  have h6 := next_view_vid_succ scenario_ntoa E6_view E3_sst [] []
  exact ⟨⟨_, E3_next_view, (h.1 _ E3_next_view).1, (h.1 _ E3_next_view).2⟩,
    ⟨_, E6_next_view, (h6.2 _ E6_next_view).1, (h6.2 _ E6_next_view).2⟩⟩

/-- C4: in a view returned by `make_next_view`, `departed` holds only members of
the current view and `joined` holds only ids that are not members, so no id is
in both. -/
theorem joined_departed_disjoint (ntoa : Nat → ip_addr) (v : View) (sst : DerechoSST) (nv : View)
    (hn : v.num_members = v.members.length)
    (h : make_next_view ntoa v sst = .ok nv) :
    (∀ x ∈ nv.departed, x ∈ v.members) ∧ (∀ x ∈ nv.joined, x ∉ v.members) ∧
    (∀ x, ¬ (x ∈ nv.joined ∧ x ∈ nv.departed)) := by
  obtain ⟨_, _, _, h4, h5, _⟩ := make_next_view_shape ntoa v sst nv hn h
  rw [join_ids_eq_filter] at h4
  have hdep : ∀ x ∈ nv.departed, x ∈ v.members := by
    intro x hx
    rw [h5] at hx
    obtain ⟨r, hr, rfl⟩ := List.mem_map.mp hx
    have hlt := mem_leave_ranks_lt _ _ _ hr
    have hget : v.members.getD r 0 = v.members[r] := by
      simp [List.getD, List.getElem?_eq_getElem hlt]
    show v.members.getD r 0 ∈ v.members
    rw [hget]
    exact List.getElem_mem _
  have hjoin : ∀ x ∈ nv.joined, x ∉ v.members := by
    intro x hx
    rw [h4] at hx
    simpa using (List.mem_filter.mp hx).2
  exact ⟨hdep, hjoin, fun x hx => hjoin x hx.1 (hdep x hx.2)⟩

/-- C4, witness: members `[1, 2, 3]` with duplicate-free ids at node 1, the
committed changes remove node 3 and add node 4. -/
theorem joined_departed_disjoint_witness :
    ∃ nv, make_next_view scenario_ntoa E3_view
        (scenario_sst 3 0 [3, 4, 0, 0, 0] [0, 33554442, 0, 0, 0] 2 2 2 0) = .ok nv ∧
      nv.joined = [4] ∧ nv.departed = [3] ∧
      (∀ x ∈ nv.departed, x ∈ E3_view.members) ∧ (∀ x ∈ nv.joined, x ∉ E3_view.members) ∧
      (∀ x, ¬ (x ∈ nv.joined ∧ x ∈ nv.departed)) :=
  ⟨_, rfl, rfl, rfl,
    joined_departed_disjoint scenario_ntoa E3_view
      (scenario_sst 3 0 [3, 4, 0, 0, 0] [0, 33554442, 0, 0, 0] 2 2 2 0) _ rfl rfl⟩

/-- C5, as stated, fails on a view that holds an id twice: in the view of the
nodes 1, 2, 2 at the second member, with the removal of node 2 committed, the
own id 2 occurs in the committed changes, but `rank_of` names only the first
entry with that id, the second stays, and `make_next_view` returns the view
`[1, 2]` with `my_rank` 1 instead of throwing. -/
theorem self_leaver_with_duplicate_id_returns :
    next_view_inputs_ok duplicate_member_view duplicate_member_sst ∧
    duplicate_member_view.members.getD duplicate_member_view.my_rank 0 = 2 ∧
    committed_changes duplicate_member_view duplicate_member_sst = [2] ∧
    (make_next_view scenario_ntoa duplicate_member_view duplicate_member_sst).map
        (fun nv => (nv.members, nv.departed, nv.my_rank))
      = .ok ([1, 2], [2], 1) := by
  refine ⟨by decide, rfl, rfl, rfl⟩

/-- C5, amended: for a current view whose inputs fit together, `make_next_view`
(SST variant) throws if and only if the id of the local node is not a member of
the next view, and the exception is the one of the local-rank check; when the
current view holds no member id twice, this is the case if and only if the
local id occurs among the committed changes. When the local id is not among the
committed changes the function returns a view, and in every returned view the
member at `my_rank` is the local node. -/
theorem make_next_view_fails_iff_self_leaves (ntoa : Nat → ip_addr) (v : View) (sst : DerechoSST)
    (hok : next_view_inputs_ok v sst) :
    ((∃ e, make_next_view ntoa v sst = .error (.thrown e)) ↔
      v.members.getD v.my_rank 0 ∉ next_members_of v (committed_changes v sst)) ∧
    (v.members.getD v.my_rank 0 ∉ next_members_of v (committed_changes v sst) →
      make_next_view ntoa v sst
        = .error (.thrown (.reported_failed (v.members.getD v.my_rank 0)))) ∧
    (v.members.Nodup →
      ((∃ e, make_next_view ntoa v sst = .error (.thrown e)) ↔
        v.members.getD v.my_rank 0 ∈ committed_changes v sst)) ∧
    (v.members.Nodup → v.members.getD v.my_rank 0 ∈ committed_changes v sst →
      make_next_view ntoa v sst
        = .error (.thrown (.reported_failed (v.members.getD v.my_rank 0)))) ∧
    (v.members.getD v.my_rank 0 ∉ committed_changes v sst →
      ∃ nv, make_next_view ntoa v sst = .ok nv) ∧
    (∀ nv, make_next_view ntoa v sst = .ok nv →
      nv.members[nv.my_rank]? = some (v.members.getD v.my_rank 0)) := by
  have htotal := make_next_view_total ntoa v sst hok
  rw [join_ids_eq_filter] at htotal
  have hmy := hok.2.2.2.1
  have hout : v.members.getD v.my_rank 0 ∉ next_members_of v (committed_changes v sst) →
      make_next_view ntoa v sst
        = .error (.thrown (.reported_failed (v.members.getD v.my_rank 0))) :=
    fun hnot => htotal.2 hnot
  have hthrow : v.members.Nodup → v.members.getD v.my_rank 0 ∈ committed_changes v sst →
      make_next_view ntoa v sst
        = .error (.thrown (.reported_failed (v.members.getD v.my_rank 0))) :=
    fun hnd hin => htotal.2 (my_id_leaves v _ hnd hmy hin)
  have hret : v.members.getD v.my_rank 0 ∉ committed_changes v sst →
      ∃ nv, make_next_view ntoa v sst = .ok nv :=
    fun hnot => htotal.1 (List.mem_append_left _ (my_id_stays v _ hmy hnot))
  refine ⟨⟨?_, fun hnot => ⟨_, hout hnot⟩⟩, hout,
    fun hnd => ⟨?_, fun hin => ⟨_, hthrow hnd hin⟩⟩, hthrow, hret, ?_⟩
  · rintro ⟨e, he⟩ hin
    obtain ⟨nv, hnv⟩ := htotal.1 hin
    rw [he] at hnv
    exact absurd hnv (by simp)
  · rintro ⟨e, he⟩
    by_contra hnot
    obtain ⟨nv, hnv⟩ := hret hnot
    rw [he] at hnv
    exact absurd hnv (by simp)
  · intro nv hnv
    obtain ⟨_, _, _, _, _, _, ⟨myID, h1, h2⟩, _⟩ := make_next_view_shape ntoa v sst nv hok.1 hnv
    rw [h2]
    simp [List.getD, h1]

/-- C5, witness of the amended statement: in scenario E3 the local node 1 is
not among the committed changes and keeps rank 0; at node 3, whose id is the
committed change and which the duplicate-free view holds once, the function
throws. -/
theorem make_next_view_fails_iff_self_leaves_witness :
    (∃ nv, make_next_view scenario_ntoa E3_view E3_sst = .ok nv ∧ nv.members[nv.my_rank]? = some 1) ∧
    make_next_view scenario_ntoa { E3_view with my_rank := 2 }
        (scenario_sst 3 2 [3, 0, 0, 0, 0] [0, 0, 0, 0, 0] 1 1 1 0)
      = .error (.thrown (.reported_failed 3)) := by
  have h1 := make_next_view_fails_iff_self_leaves scenario_ntoa E3_view E3_sst (by decide)
  have h2 := make_next_view_fails_iff_self_leaves scenario_ntoa { E3_view with my_rank := 2 }
    (scenario_sst 3 2 [3, 0, 0, 0, 0] [0, 0, 0, 0, 0] 1 1 1 0) (by decide)
  obtain ⟨nv, hnv⟩ := h1.2.2.2.2.1 (by decide)
  exact ⟨⟨nv, hnv, h1.2.2.2.2.2 nv hnv⟩, h2.2.2.2.1 (by decide) (by decide)⟩

/-- The member vector of the next view stays duplicate-free when the current
one is and the committed changes name no new id twice. -/
theorem next_members_nodup (ntoa : Nat → ip_addr) (v : View) (sst : DerechoSST) (nv : View)
    (hn : v.num_members = v.members.length) (hnd : v.members.Nodup)
    (hjoin : ((committed_changes v sst).filter (fun c => decide (c ∉ v.members))).Nodup)
    (h : make_next_view ntoa v sst = .ok nv) : nv.members.Nodup := by
  obtain ⟨h1, _⟩ := make_next_view_shape ntoa v sst nv hn h
  rw [join_ids_eq_filter] at h1
  rw [h1]
  have hstay_lt : ∀ r ∈ stay_ranks_of v (committed_changes v sst), r < v.members.length := by
    intro r hr
    unfold stay_ranks_of at hr
    exact List.mem_range.mp (List.mem_filter.mp hr).1
  have hget : ∀ r, r < v.members.length → v.members[r]? = some (v.members.getD r 0) := by
    intro r hr
    simp [List.getD, List.getElem?_eq_getElem hr]
  refine List.Nodup.append ?_ hjoin ?_
  · refine List.Nodup.map_on ?_ ?_
    · intro a ha b hb hab
      have h2 := hget a (hstay_lt a ha)
      have h3 := hget b (hstay_lt b hb)
      rw [hab] at h2
      have hlt := hstay_lt a ha
      have hlt2 := hstay_lt b hb
      rw [List.getElem?_eq_getElem hlt] at h2
      rw [List.getElem?_eq_getElem hlt2] at h3
      have h4 : v.members[a] = v.members[b] := Option.some.inj (h2.trans h3.symm)
      exact (List.Nodup.getElem_inj_iff hnd).mp h4
    · unfold stay_ranks_of
      exact List.Nodup.filter _ (List.nodup_range _)
  · intro x hx1 hx2
    obtain ⟨r, hr, rfl⟩ := List.mem_map.mp hx1
    have hmem : v.members.getD r 0 ∈ v.members :=
      List.mem_iff_getElem?.mpr ⟨r, hget r (hstay_lt r hr)⟩
    have := (List.mem_filter.mp hx2).2
    simp only [decide_eq_true_eq] at this
    exact this hmem

/-- C3: the member vector of the next view can hold an id twice although the
current one does not. `receive_join` admits two clients that announce the
same new id 2 (it compares the id with the current members only); after both
changes are committed `make_next_view` returns members `[1, 2, 2]`. -/
theorem duplicate_join_ids_enter_next_view :
    E1_view.members.Nodup ∧
    ∃ nv, duplicate_join_run = .ok nv ∧ nv.members = [1, 2, 2] ∧ nv.joined = [2, 2] ∧
      ¬ nv.members.Nodup :=
  ⟨by decide, _, rfl, rfl, rfl, by decide⟩

/-! ## Claims about `receive_join` -/

/-- With room in the ring, `receive_join` refuses an id that is a member:
`ID_IN_USE` is written, the flag is false and the state is unchanged. -/
theorem receive_join_id_in_use (aton : ip_addr → Nat) (vm : ViewManager) (s : Socket)
    (nc ncm : Int) (my_id : node_id_t)
    (hnc : vm.gmsSST.num_changes[vm.curr_view.my_rank]? = some nc)
    (hncm : vm.gmsSST.num_committed[vm.curr_view.my_rank]? = some ncm)
    (hroom : nc - ncm ≠ (vm.gmsSST.changes_size : Int))
    (hmy : vm.curr_view.members[vm.curr_view.my_rank]? = some my_id)
    (hid : (s.read 0).1 ∈ vm.curr_view.members) :
    receive_join aton vm s
      = .ok (false, vm, (s.read 0).2.write { code := .ID_IN_USE, leader_id := my_id }) := by
  have h1 := (vec_get_eq_ok _ _ _).mpr hnc
  have h2 := (vec_get_eq_ok _ _ _).mpr hncm
  have h3 := (vec_get_eq_ok _ _ _).mpr hmy
  have hrank : vm.curr_view.rank_of (s.read 0).1 ≠ -1 := by
    rw [Ne, rank_of_eq_neg_one]
    exact fun h => h hid
  simp only [receive_join, h1, h2, ok_bind, if_neg hroom, if_pos hrank, h3]

/-- C7, as amended: when the guard on the ring does not fire
(`num_changes - num_committed ≠ changes.size()` in the leader's row), a join
attempt that announces the id of a current member gets `ID_IN_USE`,
`receive_join` returns false and leaves the whole state (SST and view) as it
was, and `leader_start_join` drops the socket again, so that only the pending
socket is consumed and `proposed_join_sockets` is as before. -/
theorem leader_start_join_rejects_member_id (aton : ip_addr → Nat) (vm : ViewManager)
    (s : Socket) (rest : List Socket) (nc ncm : Int) (my_id : node_id_t)
    (hpending : vm.pending_join_sockets = s :: rest)
    (hnc : vm.gmsSST.num_changes[vm.curr_view.my_rank]? = some nc)
    (hncm : vm.gmsSST.num_committed[vm.curr_view.my_rank]? = some ncm)
    (hroom : nc - ncm ≠ (vm.gmsSST.changes_size : Int))
    (hmy : vm.curr_view.members[vm.curr_view.my_rank]? = some my_id)
    (hid : (s.read 0).1 ∈ vm.curr_view.members) :
    receive_join aton vm s
      = .ok (false, vm, (s.read 0).2.write { code := .ID_IN_USE, leader_id := my_id }) ∧
    leader_start_join aton vm = .ok { vm with pending_join_sockets := rest } := by
  refine ⟨receive_join_id_in_use aton vm s nc ncm my_id hnc hncm hroom hmy hid, ?_⟩
  have h := receive_join_id_in_use aton
    { vm with pending_join_sockets := rest,
              proposed_join_sockets := vm.proposed_join_sockets ++ [s] }
    s nc ncm my_id hnc hncm hroom hmy hid
  unfold leader_start_join
  rw [hpending]
  simp only [h, ok_bind]
  simp

/-- C7, witness: scenario E2, members `[1, 2, 3]` and a joiner that announces
id 2. -/
theorem leader_start_join_rejects_member_id_witness :
    receive_join scenario_aton E2_vm (scenario_client "10.0.0.9" 2)
      = .ok (false, E2_vm,
          { remote_ip := "10.0.0.9", incoming := [],
            written := [{ code := .ID_IN_USE, leader_id := 1 }] }) ∧
    leader_start_join scenario_aton E2_vm = .ok { E2_vm with pending_join_sockets := [] } :=
  leader_start_join_rejects_member_id scenario_aton E2_vm (scenario_client "10.0.0.9" 2) []
    0 0 1 rfl rfl rfl (by decide) rfl (by decide)

/-- C7, as stated, fails when the ring is full: the joiner announces the id 2
of a member, but `receive_join` throws before it reads the id. -/
theorem receive_join_full_ring_throws :
    ((scenario_client "10.0.0.9" 2).read 0).1 ∈ full_ring_vm.curr_view.members ∧
    receive_join scenario_aton full_ring_vm (scenario_client "10.0.0.9" 2)
      = .error (.thrown .too_many_changes) ∧
    leader_start_join scenario_aton full_ring_vm = .error (.thrown .too_many_changes) :=
  ⟨by decide, rfl, rfl⟩

/-- C8: `receive_join` reaches the write of `changes[my_rank][5]` in a row of
size 5. In the state `num_installed = 0 ≤ num_committed = 1 ≤ num_changes = 5`
the guard compares `num_changes - num_committed = 4` with the size and does
not fire, while the write index is `num_changes - num_installed = 5`. -/
theorem receive_join_writes_past_ring :
    committed_ring_vm.gmsSST.num_installed[0]? = some 0 ∧
    committed_ring_vm.gmsSST.num_committed[0]? = some 1 ∧
    committed_ring_vm.gmsSST.num_changes[0]? = some 5 ∧
    committed_ring_vm.gmsSST.changes_size = 5 ∧
    committed_ring_vm.gmsSST.changes[0]? = some [4, 5, 6, 7, 8] ∧
    receive_join scenario_aton committed_ring_vm (scenario_client "10.0.0.9" 9)
      = .error .out_of_range :=
  ⟨rfl, rfl, rfl, rfl, rfl, rfl⟩

/-- Whenever the guard of `receive_join` does not fire for a new id and the
write index `num_changes - num_installed` is not inside the `changes` row, the
function does not throw: it performs the write outside the row. -/
theorem receive_join_unguarded_write (aton : ip_addr → Nat) (vm : ViewManager) (s : Socket)
    (nc ncm ni : Int) (my_id : node_id_t) (row : List node_id_t)
    (hnc : vm.gmsSST.num_changes[vm.curr_view.my_rank]? = some nc)
    (hncm : vm.gmsSST.num_committed[vm.curr_view.my_rank]? = some ncm)
    (hni : vm.gmsSST.num_installed[vm.curr_view.my_rank]? = some ni)
    (hmy : vm.curr_view.members[vm.curr_view.my_rank]? = some my_id)
    (hrow : vm.gmsSST.changes[vm.curr_view.my_rank]? = some row)
    (hguard : nc - ncm ≠ (vm.gmsSST.changes_size : Int))
    (hid : (s.read 0).1 ∉ vm.curr_view.members)
    (hindex : (row.length : Int) ≤ nc - ni) :
    receive_join aton vm s = .error .out_of_range := by
  have h1 := (vec_get_eq_ok _ _ _).mpr hnc
  have h2 := (vec_get_eq_ok _ _ _).mpr hncm
  have h3 := (vec_get_eq_ok _ _ _).mpr hmy
  have h4 := (vec_get_eq_ok _ _ _).mpr hni
  have h5 := (vec_get_eq_ok _ _ _).mpr hrow
  have hrank : ¬ vm.curr_view.rank_of (s.read 0).1 ≠ -1 := by
    rw [Ne, rank_of_eq_neg_one]
    exact fun h => h hid
  have hto : to_index (nc - ni) = .ok (nc - ni).toNat := by
    rw [to_index_eq_ok]
    omega
  have hset : ∀ a, vec_set row (nc - ni).toNat a = .error .out_of_range := by
    intro a
    unfold vec_set
    rw [if_neg (by omega)]
  simp only [receive_join, h1, h2, ok_bind, if_neg hguard, if_neg hrank, h3, h4, hto, sst_set, h5,
    hset]
  rfl

/-! ## Claims about `min_acked` and the commit -/

theorem min_acked_loop_ok (sst : DerechoSST) (failed : List Bool) :
    ∀ (k n : Nat) (min r : Int), min_acked_loop sst failed n k min = .ok r →
      r ≤ min ∧
      (∀ j, n ≤ j → j < n + k → failed[j]? = some false →
        ∃ a, sst.num_acked[j]? = some a ∧ r ≤ a) ∧
      (r = min ∨ ∃ j, n ≤ j ∧ j < n + k ∧ failed[j]? = some false ∧
        sst.num_acked[j]? = some r) := by
  intro k
  induction k with
  | zero =>
    intro n min r h
    simp only [min_acked_loop, Except.ok.injEq] at h
    subst h
    exact ⟨Int.le_refl _, fun j h1 h2 => by omega, Or.inl rfl⟩
  | succ k ih =>
    intro n min r h
    simp only [min_acked_loop, bind_eq_ok] at h
    obtain ⟨f, hf, h⟩ := h
    rw [vec_get_eq_ok] at hf
    cases f with
    | false =>
      simp only [Bool.not_false, if_true, bind_eq_ok] at h
      obtain ⟨acked, ha, h⟩ := h
      rw [vec_get_eq_ok] at ha
      split at h
      · rename_i hlt
        obtain ⟨h1, h2, h3⟩ := ih _ _ _ h
        refine ⟨by omega, ?_, ?_⟩
        · intro j hj1 hj2 hfj
          rcases Nat.eq_or_lt_of_le hj1 with rfl | hgt
          · exact ⟨acked, ha, h1⟩
          · exact h2 j (by omega) (by omega) hfj
        · rcases h3 with h3 | ⟨j, h4, h5, h6, h7⟩
          · right
            exact ⟨n, Nat.le_refl _, by omega, hf, by rw [h3]; exact ha⟩
          · right
            exact ⟨j, by omega, by omega, h6, h7⟩
      · rename_i hge
        obtain ⟨h1, h2, h3⟩ := ih _ _ _ h
        refine ⟨h1, ?_, ?_⟩
        · intro j hj1 hj2 hfj
          rcases Nat.eq_or_lt_of_le hj1 with rfl | hgt
          · exact ⟨acked, ha, by omega⟩
          · exact h2 j (by omega) (by omega) hfj
        · rcases h3 with h3 | ⟨j, h4, h5, h6, h7⟩
          · exact Or.inl h3
          · right
            exact ⟨j, by omega, by omega, h6, h7⟩
    | true =>
      simp only [Bool.not_true, Bool.false_eq_true, if_false] at h
      obtain ⟨h1, h2, h3⟩ := ih _ _ _ h
      refine ⟨h1, ?_, ?_⟩
      · intro j hj1 hj2 hfj
        rcases Nat.eq_or_lt_of_le hj1 with rfl | hgt
        · rw [hf] at hfj
          exact absurd hfj (by simp)
        · exact h2 j (by omega) (by omega) hfj
      · rcases h3 with h3 | ⟨j, h4, h5, h6, h7⟩
        · exact Or.inl h3
        · right
          exact ⟨j, by omega, by omega, h6, h7⟩

theorem min_acked_loop_total (sst : DerechoSST) (failed : List Bool)
    (hlen : failed.length ≤ sst.num_acked.length) :
    ∀ (k n : Nat) (min : Int), n + k ≤ failed.length →
      ∃ r, min_acked_loop sst failed n k min = .ok r := by
  intro k
  induction k with
  | zero =>
    intro n min _
    exact ⟨min, rfl⟩
  | succ k ih =>
    intro n min h
    simp only [min_acked_loop, vec_get_of_lt failed n true (by omega), ok_bind,
      vec_get_of_lt sst.num_acked n 0 (by omega)]
    split
    · split
      · exact ih _ _ (by omega)
      · exact ih _ _ (by omega)
    · exact ih _ _ (by omega)

/-- What `min_acked` returns when it returns. -/
theorem min_acked_ok (sst : DerechoSST) (failed : List Bool) (m : Int)
    (h : min_acked sst failed = .ok m) :
    (∃ mine, sst.num_acked[sst.local_index]? = some mine ∧ m ≤ mine ∧
      (m = mine ∨ ∃ r : Nat, failed[r]? = some false ∧ sst.num_acked[r]? = some m)) ∧
    (∀ r : Nat, failed[r]? = some false → ∃ a, sst.num_acked[r]? = some a ∧ m ≤ a) := by
  simp only [min_acked, bind_eq_ok] at h
  obtain ⟨mine, hmine, h⟩ := h
  rw [vec_get_eq_ok] at hmine
  obtain ⟨h1, h2, h3⟩ := min_acked_loop_ok sst failed _ _ _ _ h
  refine ⟨⟨mine, hmine, h1, ?_⟩, ?_⟩
  · rcases h3 with h3 | ⟨j, _, _, h6, h7⟩
    · exact Or.inl h3
    · exact Or.inr ⟨j, h6, h7⟩
  · intro r hr
    have hlt := (List.getElem?_eq_some.mp hr).1
    exact h2 r (Nat.zero_le _) (by omega) hr

/-- C10, as amended: when the SST has a `num_acked` entry for the local row and
for every rank of `failed`, `min_acked` returns the minimum of the local
`num_acked` entry and the `num_acked` entries of the ranks that are not failed;
when the local rank is itself not failed this is the minimum of `num_acked[r]`
over the ranks `r` with `failed[r] = false`. -/
theorem min_acked_is_min (sst : DerechoSST) (failed : List Bool)
    (hlocal : sst.local_index < sst.num_acked.length)
    (hlen : failed.length ≤ sst.num_acked.length) :
    ∃ m, min_acked sst failed = .ok m ∧
      m ≤ sst.num_acked.getD sst.local_index 0 ∧
      (∀ r : Nat, failed[r]? = some false → m ≤ sst.num_acked.getD r 0) ∧
      (m = sst.num_acked.getD sst.local_index 0 ∨
        ∃ r : Nat, failed[r]? = some false ∧ m = sst.num_acked.getD r 0) ∧
      (failed[sst.local_index]? = some false →
        ∃ r : Nat, failed[r]? = some false ∧ m = sst.num_acked.getD r 0) := by
  obtain ⟨m, hm⟩ : ∃ m, min_acked sst failed = .ok m := by
    simp only [min_acked, vec_get_of_lt sst.num_acked _ 0 hlocal, ok_bind]
    exact min_acked_loop_total sst failed hlen failed.length 0 _ (by omega)
  obtain ⟨⟨mine, h1, h2, h3⟩, h4⟩ := min_acked_ok sst failed m hm
  have hmine : sst.num_acked.getD sst.local_index 0 = mine := by simp [List.getD, h1]
  have hattained : m = sst.num_acked.getD sst.local_index 0 ∨
      ∃ r : Nat, failed[r]? = some false ∧ m = sst.num_acked.getD r 0 := by
    rcases h3 with h3 | ⟨r, h5, h6⟩
    · exact Or.inl (by rw [hmine]; exact h3)
    · exact Or.inr ⟨r, h5, by simp [List.getD, h6]⟩
  refine ⟨m, hm, by rw [hmine]; exact h2, ?_, hattained, ?_⟩
  · intro r hr
    obtain ⟨a, ha1, ha2⟩ := h4 r hr
    simpa [List.getD, ha1] using ha2
  · intro hloc
    rcases hattained with h5 | h5
    · exact ⟨sst.local_index, hloc, h5⟩
    · exact h5

/-- C10, witness: three rows, the middle one failed; the minimum over the
other two is returned. -/
theorem min_acked_is_min_witness :
    min_acked { scenario_sst 3 0 [] [] 0 0 0 0 with num_acked := [4, 1, 3] } [false, true, false]
      = .ok 3 ∧
    ∃ m, min_acked { scenario_sst 3 0 [] [] 0 0 0 0 with num_acked := [4, 1, 3] }
        [false, true, false] = .ok m ∧
      (∀ r : Nat, [false, true, false][r]? = some false → m ≤ ([4, 1, 3] : List Int).getD r 0) ∧
      ∃ r : Nat, [false, true, false][r]? = some false ∧ m = ([4, 1, 3] : List Int).getD r 0 := by
  obtain ⟨m, h1, _, h3, _, h5⟩ := min_acked_is_min
    { scenario_sst 3 0 [] [] 0 0 0 0 with num_acked := [4, 1, 3] } [false, true, false]
    (by decide) (by decide)
  exact ⟨rfl, m, h1, h3, h5 rfl⟩

/-- C10, as stated, fails when the local rank is marked failed: the local row 0
is failed and has acknowledged 0 changes, row 1 is not failed and has
acknowledged 5; `min_acked` returns 0, which is the `num_acked` entry of no
rank that is not failed, and not their minimum 5. -/
theorem min_acked_counts_failed_local_row :
    min_acked { scenario_sst 2 0 [] [] 0 0 0 0 with num_acked := [0, 5] } [true, false] = .ok 0 ∧
    (∀ r : Nat, [true, false][r]? = some false → ([0, 5] : List Int)[r]? = some 5) := by
  refine ⟨rfl, ?_⟩
  intro r hr
  match r, hr with
  | 1, _ => rfl

/-- C9: when `change_commit_ready` holds, `leader_commit_change` on the same
state returns, the leader's `num_committed` (the local row) strictly increases,
and afterwards it is at most `num_acked[r]` for every rank `r` that is not
failed; `num_acked` and the view are not changed by the commit. -/
theorem commit_increases_and_stays_below_acks (vm : ViewManager)
    (h : change_commit_ready vm = .ok true) :
    ∃ vm2 before after, leader_commit_change vm = .ok vm2 ∧
      vm.gmsSST.num_committed[vm.gmsSST.local_index]? = some before ∧
      vm2.gmsSST.num_committed[vm2.gmsSST.local_index]? = some after ∧
      before < after ∧
      (∀ r : Nat, vm2.curr_view.failed[r]? = some false →
        ∃ a, vm2.gmsSST.num_acked[r]? = some a ∧ after ≤ a) ∧
      vm2.gmsSST.num_acked = vm.gmsSST.num_acked ∧ vm2.curr_view = vm.curr_view := by
  unfold change_commit_ready at h
  split at h
  · simp only [bind_eq_ok] at h
    obtain ⟨acked, hacked, committed, hcommitted, h⟩ := h
    simp only [Except.ok.injEq, decide_eq_true_eq] at h
    have hlt := vec_get_ok_lt hcommitted
    rw [vec_get_eq_ok] at hcommitted
    obtain ⟨_, h2⟩ := min_acked_ok _ _ _ hacked
    refine ⟨{ vm with gmsSST := (DerechoSST.put
        { vm.gmsSST with
            num_committed := vm.gmsSST.num_committed.set vm.gmsSST.local_index acked }
        SSTField.num_committed 0 (PutSize.entries 1)) },
      committed, acked, ?_, hcommitted, ?_, h, h2, rfl, rfl⟩
    · simp only [leader_commit_change, hacked, ok_bind, vec_set_of_lt _ _ _ hlt]
    · simp [DerechoSST.put, List.getElem?_set, hlt]
  · simp at h

/-- C9, witness: one proposed change acknowledged by the two live rows; the
commit raises the leader's `num_committed` from 0 to 1. -/
theorem commit_increases_and_stays_below_acks_witness :
    change_commit_ready commit_ready_vm = .ok true ∧
    ∃ vm2 before after, leader_commit_change commit_ready_vm = .ok vm2 ∧
      commit_ready_vm.gmsSST.num_committed[commit_ready_vm.gmsSST.local_index]? = some before ∧
      vm2.gmsSST.num_committed[vm2.gmsSST.local_index]? = some after ∧
      before < after ∧
      (∀ r : Nat, vm2.curr_view.failed[r]? = some false →
        ∃ a, vm2.gmsSST.num_acked[r]? = some a ∧ after ≤ a) ∧
      vm2.gmsSST.num_acked = commit_ready_vm.gmsSST.num_acked ∧
      vm2.curr_view = commit_ready_vm.curr_view :=
  ⟨rfl, commit_increases_and_stays_below_acks commit_ready_vm rfl⟩

/-! ## Claims about `new_suspicion` -/

/-- The body of the loop of `new_suspicion` for a newly suspected member that
is not yet failed: two partition checks, then "Leader initiated". -/
theorem new_suspicion_member_eq (vm : ViewManager) (q : Nat)
    (hs : sst_get vm.gmsSST.suspected vm.curr_view.my_rank q = .ok true)
    (hf : vec_get vm.curr_view.failed q = .ok false)
    (hl : q < vm.last_suspected.length)
    (hw : vm.curr_view.my_rank < vm.gmsSST.wedged.length) :
    new_suspicion_member vm q =
      if vm.curr_view.num_failed ≥ (partition_threshold vm.curr_view : Int) then
        .error (.thrown .majority_failed)
      else if vm.curr_view.num_failed + 1 ≥ (partition_threshold vm.curr_view : Int) then
        .error (.thrown .potential_partition)
      else propose_failed_member (mark_failed vm q) q := by
  have hq := vec_get_ok_lt hf
  simp only [new_suspicion_member, hs, hf, ok_bind, Bool.not_true, Bool.false_eq_true, if_false,
    vec_set_of_lt vm.last_suspected q true hl, vec_set_of_lt vm.gmsSST.wedged _ true hw,
    vec_set_of_lt vm.curr_view.failed q true hq]
  rfl

theorem changes_contains_loop_total (sst : DerechoSST) (c : node_id_t) (row : Nat)
    (hrow : row < sst.changes.length) :
    ∀ (k p : Nat), p + k ≤ (sst.changes.getD row []).length →
      ∃ b, changes_contains_loop sst c row p k = .ok b := by
  intro k
  induction k with
  | zero =>
    intro p _
    exact ⟨false, rfl⟩
  | succ k ih =>
    intro p h
    simp only [changes_contains_loop, sst_get_of_lt sst.changes row p 0 hrow (by omega), ok_bind]
    split
    · exact ⟨true, rfl⟩
    · exact ih _ (by omega)

/-- The part "Leader initiated" does not touch the view. -/
theorem propose_failed_member_view (vm vm2 : ViewManager) (q : Nat)
    (h : propose_failed_member vm q = .ok vm2) : vm2.curr_view = vm.curr_view := by
  simp only [propose_failed_member] at h
  split at h
  · simp only [bind_eq_ok] at h
    obtain ⟨m, _, known, _, h⟩ := h
    split at h
    · simp only [bind_eq_ok] at h
      obtain ⟨nc, _, ni, _, h⟩ := h
      split at h
      · exact absurd h (by simp)
      · simp only [bind_eq_ok] at h
        obtain ⟨idx, _, ch, _, ncc, _, h⟩ := h
        simp only [Except.ok.injEq] at h
        rw [← h]
    · simp only [Except.ok.injEq] at h
      rw [← h]
  · simp only [Except.ok.injEq] at h
    rw [← h]

theorem faults_in_bind {α β : Type} {P : Fault → Prop} {x : Except Fault α}
    {f : α → Except Fault β} (hx : faults_in P x) (hf : ∀ a, faults_in P (f a)) :
    faults_in P (x >>= f) := by
  intro e he
  cases x with
  | error e1 =>
    have : e1 = e := by simpa [bind, Except.bind] using he
    exact this ▸ hx e1 rfl
  | ok a => exact hf a e he

theorem faults_in_ok {α : Type} {P : Fault → Prop} (a : α) :
    faults_in P (Except.ok a : Except Fault α) := by
  intro e he
  exact absurd he (by simp)

theorem faults_in_vec_get {α : Type} (l : List α) (i : Nat) :
    faults_in no_partition_fault (vec_get l i) := by
  intro e he x hx
  subst hx
  unfold vec_get at he
  split at he <;> simp at he

theorem faults_in_vec_set {α : Type} (l : List α) (i : Nat) (a : α) :
    faults_in no_partition_fault (vec_set l i a) := by
  intro e he x hx
  subst hx
  unfold vec_set at he
  split at he <;> simp at he

theorem faults_in_to_index (i : Int) : faults_in no_partition_fault (to_index i) := by
  intro e he x hx
  subst hx
  unfold to_index at he
  split at he <;> simp at he

theorem faults_in_sst_get {α : Type} (f : List (List α)) (r i : Nat) :
    faults_in no_partition_fault (sst_get f r i) :=
  faults_in_bind (faults_in_vec_get _ _) (fun _ => faults_in_vec_get _ _)

theorem faults_in_sst_set {α : Type} (f : List (List α)) (r i : Nat) (a : α) :
    faults_in no_partition_fault (sst_set f r i a) :=
  faults_in_bind (faults_in_vec_get _ _)
    (fun _ => faults_in_bind (faults_in_vec_set _ _ _) (fun _ => faults_in_vec_set _ _ _))

theorem faults_in_changes_contains_loop (sst : DerechoSST) (c : node_id_t) (row : Nat) :
    ∀ (k p : Nat), faults_in no_partition_fault (changes_contains_loop sst c row p k) := by
  intro k
  induction k with
  | zero =>
    intro p
    exact faults_in_ok _
  | succ k ih =>
    intro p
    simp only [changes_contains_loop]
    apply faults_in_bind (faults_in_sst_get _ _ _)
    intro a
    split
    · exact faults_in_ok _
    · exact ih _

/-- The part "Leader initiated" throws no partition error: the only exception
it throws is the one for a full ring. -/
theorem propose_failed_member_faults (vm : ViewManager) (q : Nat) :
    faults_in no_partition_fault (propose_failed_member vm q) := by
  simp only [propose_failed_member]
  split
  · apply faults_in_bind (faults_in_vec_get _ _)
    intro m
    apply faults_in_bind
    · simp only [changes_contains]
      apply faults_in_bind (faults_in_vec_get _ _)
      intro nc
      apply faults_in_bind (faults_in_vec_get _ _)
      intro ni
      exact faults_in_changes_contains_loop _ _ _ _ _
    · intro known
      split
      · apply faults_in_bind (faults_in_vec_get _ _)
        intro nc
        apply faults_in_bind (faults_in_vec_get _ _)
        intro ni
        split
        · intro e he x hx
          subst hx
          simpa using he.symm
        · apply faults_in_bind (faults_in_to_index _)
          intro idx
          apply faults_in_bind (faults_in_sst_set _ _ _ _)
          intro ch
          apply faults_in_bind (faults_in_vec_set _ _ _)
          intro ncc
          exact faults_in_ok _
      · exact faults_in_ok _
  · exact faults_in_ok _

/-- With its accesses in range, "Leader initiated" returns or throws
`changes_full`. -/
theorem propose_failed_member_total (vm : ViewManager) (q : Nat)
    (hok : proposal_inputs_ok vm q) :
    propose_failed_member vm q = .error (.thrown .changes_full) ∨
    ∃ vm2, propose_failed_member vm q = .ok vm2 := by
  obtain ⟨hq, hlocal, h1, h2, h3, h4, h5, h6⟩ := hok
  simp only [propose_failed_member]
  split
  · simp only [vec_get_of_lt vm.curr_view.members q 0 hq, ok_bind, changes_contains, hlocal,
      vec_get_of_lt vm.gmsSST.num_changes _ 0 h1, vec_get_of_lt vm.gmsSST.num_installed _ 0 h2]
    obtain ⟨known, hknown⟩ := changes_contains_loop_total vm.gmsSST (vm.curr_view.members.getD q 0)
      vm.curr_view.my_rank h3
      (vm.gmsSST.num_changes.getD vm.curr_view.my_rank 0
        - vm.gmsSST.num_installed.getD vm.curr_view.my_rank 0).toNat 0 (by omega)
    rw [hknown, ok_bind]
    split
    · split
      · exact Or.inl rfl
      · rename_i hne
        right
        have hto : to_index (vm.gmsSST.num_changes.getD vm.curr_view.my_rank 0
            - vm.gmsSST.num_installed.getD vm.curr_view.my_rank 0)
            = .ok (vm.gmsSST.num_changes.getD vm.curr_view.my_rank 0
              - vm.gmsSST.num_installed.getD vm.curr_view.my_rank 0).toNat := by
          rw [to_index_eq_ok]
          omega
        have hrow := vec_get_of_lt vm.gmsSST.changes _ [] h3
        simp only [hto, ok_bind, sst_set, hrow,
          vec_set_of_lt (vm.gmsSST.changes.getD vm.curr_view.my_rank []) _ _
            (show (vm.gmsSST.num_changes.getD vm.curr_view.my_rank 0
              - vm.gmsSST.num_installed.getD vm.curr_view.my_rank 0).toNat
              < (vm.gmsSST.changes.getD vm.curr_view.my_rank []).length by omega),
          vec_set_of_lt vm.gmsSST.changes _ _ h3, vec_set_of_lt vm.gmsSST.num_changes _ _ h1]
        exact ⟨_, rfl⟩
    · exact Or.inr ⟨_, rfl⟩
  · exact Or.inr ⟨_, rfl⟩

/-- C6, as amended: while `new_suspicion` processes a newly suspected member
`q` that is not yet failed, it aborts with a partition error exactly when the
number of failed members reaches `(num_members + 1) / 2` (rounded down) before
or after the new failure is counted, that is when
`num_failed + 1 ≥ (num_members + 1) / 2`: with the first exception when the
old count reaches it, with the second one when only the new count does. For
every smaller count every returned state has `q` marked failed and counted
once; the member is processed without a partition abort: the state is
returned as marked when the node is not the leader, and with the accesses of
"Leader initiated" in range the only other outcome is the exception for a
full ring. -/
theorem new_suspicion_aborts_at_half (vm : ViewManager) (q : Nat)
    (hs : sst_get vm.gmsSST.suspected vm.curr_view.my_rank q = .ok true)
    (hf : vec_get vm.curr_view.failed q = .ok false)
    (hl : q < vm.last_suspected.length)
    (hw : vm.curr_view.my_rank < vm.gmsSST.wedged.length) :
    ((∃ e, e.is_partition_error = true ∧ new_suspicion_member vm q = .error (.thrown e)) ↔
      (partition_threshold vm.curr_view : Int) ≤ vm.curr_view.num_failed + 1) ∧
    ((partition_threshold vm.curr_view : Int) ≤ vm.curr_view.num_failed →
      new_suspicion_member vm q = .error (.thrown .majority_failed)) ∧
    (vm.curr_view.num_failed < (partition_threshold vm.curr_view : Int) →
      (partition_threshold vm.curr_view : Int) ≤ vm.curr_view.num_failed + 1 →
      new_suspicion_member vm q = .error (.thrown .potential_partition)) ∧
    (vm.curr_view.num_failed + 1 < (partition_threshold vm.curr_view : Int) →
      (∀ vm2, new_suspicion_member vm q = .ok vm2 →
        vm2.curr_view.failed = vm.curr_view.failed.set q true ∧
        vm2.curr_view.num_failed = vm.curr_view.num_failed + 1) ∧
      ((mark_failed vm q).curr_view.i_am_leader = false →
        new_suspicion_member vm q = .ok (mark_failed vm q)) ∧
      (proposal_inputs_ok vm q →
        new_suspicion_member vm q = .error (.thrown .changes_full) ∨
        ∃ vm2, new_suspicion_member vm q = .ok vm2)) := by
  have heq := new_suspicion_member_eq vm q hs hf hl hw
  have hmajor : (partition_threshold vm.curr_view : Int) ≤ vm.curr_view.num_failed →
      new_suspicion_member vm q = .error (.thrown .majority_failed) := by
    intro h
    rw [heq, if_pos h]
  have hpart : vm.curr_view.num_failed < (partition_threshold vm.curr_view : Int) →
      (partition_threshold vm.curr_view : Int) ≤ vm.curr_view.num_failed + 1 →
      new_suspicion_member vm q = .error (.thrown .potential_partition) := by
    intro h1 h2
    rw [heq, if_neg (by omega), if_pos h2]
  have hsmall : vm.curr_view.num_failed + 1 < (partition_threshold vm.curr_view : Int) →
      new_suspicion_member vm q = propose_failed_member (mark_failed vm q) q := by
    intro h
    rw [heq, if_neg (by omega), if_neg (by omega)]
  refine ⟨⟨?_, ?_⟩, hmajor, hpart, fun h => ⟨?_, ?_, ?_⟩⟩
  · rintro ⟨e, he1, he2⟩
    by_contra hnot
    rw [hsmall (by omega)] at he2
    have := propose_failed_member_faults _ _ _ he2 e rfl
    subst this
    simp [derecho_exception.is_partition_error] at he1
  · intro h
    by_cases h1 : (partition_threshold vm.curr_view : Int) ≤ vm.curr_view.num_failed
    · exact ⟨.majority_failed, rfl, hmajor h1⟩
    · exact ⟨.potential_partition, rfl, hpart (by omega) h⟩
  · intro vm2 h2
    rw [hsmall h] at h2
    rw [propose_failed_member_view _ _ _ h2]
    exact ⟨rfl, rfl⟩
  · intro hnl
    rw [hsmall h]
    simp only [propose_failed_member, hnl, Bool.false_eq_true, if_false]
  · intro hok
    rw [hsmall h]
    exact propose_failed_member_total _ _ hok

/-- C6, witness: scenario E3, three members none of them failed; node 1
suspects node 3, marks it failed and, as the leader, proposes its removal. -/
theorem new_suspicion_aborts_at_half_witness :
    partition_threshold E3_suspicion_vm.curr_view = 2 ∧
    ∃ vm2, new_suspicion_member E3_suspicion_vm 2 = .ok vm2 ∧
      vm2.curr_view.failed = [false, false, true] ∧ vm2.curr_view.num_failed = 1 ∧
      vm2.gmsSST.changes[0]? = some [3, 0, 0, 0, 0] := by
  have h := new_suspicion_aborts_at_half E3_suspicion_vm 2 rfl rfl (by decide) (by decide)
  have h4 := h.2.2.2 (by decide)
  exact ⟨rfl, _, rfl, (h4.1 _ rfl).1, (h4.1 _ rfl).2, rfl⟩

/-- C6, as stated, fails for a view of four members: the specification's
threshold `⌈(4+1)/2⌉` is 3 and the failed count is 1 before and 2 after the new
failure is counted, both below 3, but `new_suspicion` aborts with the
partition error, because the code compares with `(4 + 1) / 2 = 2`. -/
theorem new_suspicion_aborts_below_spec_threshold :
    even_group_vm.curr_view.num_members = 4 ∧ spec_partition_threshold 4 = 3 ∧
    even_group_vm.curr_view.num_failed = 1 ∧
    sst_get even_group_vm.gmsSST.suspected even_group_vm.curr_view.my_rank 2 = .ok true ∧
    vec_get even_group_vm.curr_view.failed 2 = .ok false ∧
    new_suspicion_member even_group_vm 2 = .error (.thrown .potential_partition) ∧
    new_suspicion even_group_vm = .error (.thrown .potential_partition) :=
  ⟨rfl, rfl, rfl, rfl, rfl, rfl, rfl⟩

/-! ## Ragged-edge cleanup -/

theorem sst_set_eq_ok {α : Type} (field : List (List α)) (row i : Nat) (a : α)
    (f2 : List (List α)) :
    sst_set field row i a = .ok f2 ↔
      ∃ r, field[row]? = some r ∧ i < r.length ∧ f2 = field.set row (r.set i a) := by
  unfold sst_set
  simp only [bind_eq_ok, vec_get_eq_ok, vec_set_eq_ok]
  constructor
  · rintro ⟨r, hr, r2, ⟨hi, rfl⟩, hrow, rfl⟩
    exact ⟨r, hr, hi, rfl⟩
  · rintro ⟨r, hr, hi, rfl⟩
    exact ⟨r, hr, r.set i a, ⟨hi, rfl⟩, (List.getElem?_eq_some.mp hr).1, rfl⟩

theorem sst_get_set_same {α : Type} {field f2 : List (List α)} {row i : Nat} {a : α}
    (h : sst_set field row i a = .ok f2) : sst_get f2 row i = .ok a := by
  obtain ⟨r, hr, hi, rfl⟩ := (sst_set_eq_ok _ _ _ _ _).mp h
  have hrow := (List.getElem?_eq_some.mp hr).1
  rw [sst_get_eq_ok]
  exact ⟨r.set i a, by simp [List.getElem?_set, hrow], by simp [List.getElem?_set, hi]⟩

theorem sst_get_set_other {α : Type} {field f2 : List (List α)} {row i : Nat} {a : α}
    (h : sst_set field row i a = .ok f2) (row2 j : Nat) (hne : ¬ (row2 = row ∧ j = i)) :
    sst_get f2 row2 j = sst_get field row2 j := by
  obtain ⟨r, hr, hi, rfl⟩ := (sst_set_eq_ok _ _ _ _ _).mp h
  have hrow := (List.getElem?_eq_some.mp hr).1
  unfold sst_get vec_get
  by_cases h1 : row2 = row
  · subst h1
    have hj : ¬ i = j := fun h2 => hne ⟨rfl, h2.symm⟩
    simp [List.getElem?_set, hrow, hr, hj, bind, Except.bind]
  · have h2 : ¬ row = row2 := fun h3 => h1 h3.symm
    simp [List.getElem?_set, h2]

theorem min_received_ok (Vc : View) (sst : DerechoSST) (column : Nat) :
    ∀ (rest : List node_id_t) (min v : Int), min_received Vc sst column rest min = .ok v →
      v ≤ min ∧
      (∀ m ∈ rest, ∀ r : Nat, Vc.rank_of m = (r : Int) → Vc.failed[r]? = some false →
        ∃ x, sst_get sst.num_received r column = .ok x ∧ v ≤ x) ∧
      (v = min ∨ ∃ m ∈ rest, ∃ r : Nat, Vc.rank_of m = (r : Int) ∧
        Vc.failed[r]? = some false ∧ sst_get sst.num_received r column = .ok v) := by
  intro rest
  induction rest with
  | nil =>
    intro min v h
    simp only [min_received, Except.ok.injEq] at h
    subst h
    exact ⟨Int.le_refl _, fun m hm => absurd hm (List.not_mem_nil _), Or.inl rfl⟩
  | cons node rest ih =>
    intro min v h
    simp only [min_received, bind_eq_ok] at h
    obtain ⟨rank, hrank, f, hf, h⟩ := h
    rw [to_index_eq_ok] at hrank
    rw [vec_get_eq_ok] at hf
    cases f with
    | false =>
      simp only [Bool.not_false, if_true, bind_eq_ok] at h
      obtain ⟨received, hrec, h⟩ := h
      split at h
      · obtain ⟨h1, h2, h3⟩ := ih _ _ h
        refine ⟨by omega, ?_, ?_⟩
        · intro m hm r hr hfr
          rcases List.mem_cons.mp hm with rfl | hm
          · have : r = rank := by omega
            subst this
            exact ⟨received, hrec, h1⟩
          · exact h2 m hm r hr hfr
        · right
          rcases h3 with h3 | ⟨m, hm, r, hr, hfr, hv⟩
          · exact ⟨node, List.mem_cons_self _ _, rank, hrank, hf, by rw [h3]; exact hrec⟩
          · exact ⟨m, List.mem_cons_of_mem _ hm, r, hr, hfr, hv⟩
      · obtain ⟨h1, h2, h3⟩ := ih _ _ h
        refine ⟨h1, ?_, ?_⟩
        · intro m hm r hr hfr
          rcases List.mem_cons.mp hm with rfl | hm
          · have : r = rank := by omega
            subst this
            exact ⟨received, hrec, by omega⟩
          · exact h2 m hm r hr hfr
        · rcases h3 with h3 | ⟨m, hm, r, hr, hfr, hv⟩
          · exact Or.inl h3
          · exact Or.inr ⟨m, List.mem_cons_of_mem _ hm, r, hr, hfr, hv⟩
    | true =>
      simp only [Bool.not_true, Bool.false_eq_true, if_false] at h
      obtain ⟨h1, h2, h3⟩ := ih _ _ h
      refine ⟨h1, ?_, ?_⟩
      · intro m hm r hr hfr
        rcases List.mem_cons.mp hm with rfl | hm
        · have : r = rank := by omega
          subst this
          rw [hf] at hfr
          exact absurd hfr (by simp)
        · exact h2 m hm r hr hfr
      · rcases h3 with h3 | ⟨m, hm, r, hr, hfr, hv⟩
        · exact Or.inl h3
        · exact Or.inr ⟨m, List.mem_cons_of_mem _ hm, r, hr, hfr, hv⟩

theorem compute_global_min_ok (Vc : View) (offset : Nat) (members : List node_id_t) :
    ∀ (k n : Nat) (sst sst2 : DerechoSST),
      compute_global_min Vc offset members n k sst = .ok sst2 →
      sst2.num_received = sst.num_received ∧
      sst2.global_min_ready = sst.global_min_ready ∧
      sst2.puts = sst.puts ∧
      (∀ j, n ≤ j → j < n + k → ∃ v, sst_get sst2.global_min Vc.my_rank (offset + j) = .ok v ∧
        is_leader_min Vc sst.num_received members (offset + j) v) ∧
      (∀ row col, ¬ (row = Vc.my_rank ∧ offset + n ≤ col ∧ col < offset + n + k) →
        sst_get sst2.global_min row col = sst_get sst.global_min row col) := by
  intro k
  induction k with
  | zero =>
    intro n sst sst2 h
    simp only [compute_global_min, Except.ok.injEq] at h
    subst h
    exact ⟨rfl, rfl, rfl, fun j h1 h2 => by omega, fun _ _ _ => rfl⟩
  | succ k ih =>
    intro n sst sst2 h
    simp only [compute_global_min, bind_eq_ok] at h
    obtain ⟨start, hstart, v, hv, gm, hgm, h⟩ := h
    obtain ⟨h1, h2, h3, h4, h5⟩ := ih _ _ _ h
    obtain ⟨m1, m2, m3⟩ := min_received_ok Vc sst _ _ _ _ hv
    refine ⟨h1, h2, h3, ?_, ?_⟩
    · intro j hj1 hj2
      rcases Nat.eq_or_lt_of_le hj1 with rfl | hlt
      · refine ⟨v, ?_, start, hstart, m1, m2, m3⟩
        rw [h5 _ _ (by omega)]
        exact sst_get_set_same hgm
      · exact h4 j (by omega) (by omega)
    · intro row col hne
      rw [h5 row col (by omega)]
      exact sst_get_set_other hgm row col (by omega)

theorem read_max_received_ok (sst : DerechoSST) (rank offset : Nat) :
    ∀ (k n : Nat) (v v2 : List Int),
      read_max_received sst rank offset n k v = .ok v2 →
      v2 = write_at v n (slice sst.global_min rank (offset + n) k) ∧
      (slice sst.global_min rank (offset + n) k).length = k ∧
      (0 < k → n + k ≤ v.length) := by
  intro k
  induction k with
  | zero =>
    intro n v v2 h
    simp only [read_max_received, Except.ok.injEq] at h
    subst h
    simp [slice, write_at_nil]
  | succ k ih =>
    intro n v v2 h
    simp only [read_max_received, bind_eq_ok] at h
    obtain ⟨value, hvalue, upd, hupd, h⟩ := h
    obtain ⟨hlt, hval⟩ := sst_get_ok_row 0 hvalue
    obtain ⟨hn, rfl⟩ := vec_set_ok_write_at hupd
    obtain ⟨h1, h2, h3⟩ := ih _ _ _ h
    have hdrop : slice sst.global_min rank (offset + n) (k + 1)
        = value :: slice sst.global_min rank (offset + (n + 1)) k := by
      have hget : (sst.global_min.getD rank []).getD (offset + n) 0
          = (sst.global_min.getD rank [])[offset + n] :=
        List.getD_eq_getElem _ _ hlt
      unfold slice
      rw [List.drop_eq_getElem_cons hlt, List.take_succ_cons, hval, hget, Nat.add_assoc]
    have hlen : (write_at v n [value]).length = v.length :=
      length_write_at _ _ _ (by simpa using hn)
    refine ⟨?_, ?_, fun _ => ?_⟩
    · rw [h1, hdrop, write_at_cons_step _ _ _ _ hn]
    · rw [hdrop, List.length_cons, h2]
    · rcases Nat.eq_zero_or_pos k with rfl | hpos
      · omega
      · have := h3 hpos
        rw [hlen] at this
        omega

/-- The calls of `deliver_in_order`: the trim that is saved and the delivery
request carry the same vector, the slice of the decider's `global_min` row. -/
theorem deliver_in_order_ok (Vc : View) (sst : DerechoSST) (rank : Nat) (sg : subgroup_id_t)
    (offset count : Nat) (effects : List Effect)
    (h : deliver_in_order Vc sst rank sg offset count = .ok effects) :
    ∃ leader_id name,
      effects = [.save_object
                   (RaggedTrim.mk sg Vc.vid leader_id (slice sst.global_min rank offset count))
                   name,
                 .deliver_messages_upto (slice sst.global_min rank offset count) sg count] ∧
      (slice sst.global_min rank offset count).length = count := by
  simp only [deliver_in_order, bind_eq_ok] at h
  obtain ⟨v, hv, leader, _, leader_id, _, h⟩ := h
  obtain ⟨h1, h2, _⟩ := read_max_received_ok sst rank offset _ _ _ _ hv
  simp only [Nat.add_zero] at h1 h2
  have hv2 : v = slice sst.global_min rank offset count := by
    rw [h1]
    have := write_at_zero_append (List.replicate count (0 : Int))
      (slice sst.global_min rank offset count) [] (by simp [h2])
    simpa using this
  simp only [Except.ok.injEq] at h
  subst hv2
  exact ⟨leader_id, _, h.symm, h2⟩

theorem copy_ready_not_found (Vc : View) (sg : subgroup_id_t) (offset count : Nat) :
    ∀ (rest : List node_id_t) (sst : DerechoSST) (found : Bool) (sst1 : DerechoSST),
      copy_ready_global_min Vc sg offset count rest sst = .ok (found, sst1) →
      (∀ m ∈ rest, ∀ r : Nat, Vc.rank_of m = (r : Int) →
        sst_get sst.global_min_ready r sg ≠ .ok true) →
      found = false ∧ sst1 = sst := by
  intro rest
  induction rest with
  | nil =>
    intro sst found sst1 h _
    simp only [copy_ready_global_min, Except.ok.injEq, Prod.mk.injEq] at h
    exact ⟨h.1.symm, h.2.symm⟩
  | cons node rest ih =>
    intro sst found sst1 h hnot
    simp only [copy_ready_global_min, bind_eq_ok] at h
    obtain ⟨rank, hrank, ready, hready, h⟩ := h
    rw [to_index_eq_ok] at hrank
    cases ready with
    | true => exact absurd hready (hnot node (List.mem_cons_self _ _) rank hrank)
    | false =>
      simp only [Bool.false_eq_true, if_false] at h
      exact ih _ _ _ h (fun m hm => hnot m (List.mem_cons_of_mem _ hm))

theorem rank_of_mem (v : View) (m : node_id_t) (h : m ∈ v.members) :
    v.rank_of m = (v.members.indexOf m : Int) := by
  simp [View.rank_of, h]

theorem to_index_rank_of_mem (v : View) (m : node_id_t) (h : m ∈ v.members) :
    to_index (v.rank_of m) = .ok (v.members.indexOf m) := by
  rw [to_index_eq_ok, rank_of_mem v m h]

theorem sst_set_of_lt {α : Type} (field : List (List α)) (row i : Nat) (a : α)
    (hrow : row < field.length) (hi : i < (field.getD row []).length) :
    sst_set field row i a = .ok (field.set row ((field.getD row []).set i a)) := by
  unfold sst_set
  rw [vec_get_of_lt field row [] hrow, ok_bind, vec_set_of_lt _ _ _ hi, ok_bind,
    vec_set_of_lt _ _ _ hrow]

theorem getD_set_self {α : Type} (field : List (List α)) (row : Nat) (r : List α)
    (hrow : row < field.length) : (field.set row r).getD row [] = r := by
  simp [List.getD, List.getElem?_set, hrow]

theorem min_received_total (Vc : View) (sst : DerechoSST) (column : Nat) :
    ∀ (rest : List node_id_t) (min : Int),
      (∀ m ∈ rest, m ∈ Vc.members ∧ Vc.members.indexOf m < Vc.failed.length ∧
        Vc.members.indexOf m < sst.num_received.length ∧
        column < (sst.num_received.getD (Vc.members.indexOf m) []).length) →
      ∃ v, min_received Vc sst column rest min = .ok v := by
  intro rest
  induction rest with
  | nil =>
    intro min _
    exact ⟨min, rfl⟩
  | cons node rest ih =>
    intro min h
    obtain ⟨h1, h2, h3, h4⟩ := h node (List.mem_cons_self _ _)
    have hrest := fun m hm => h m (List.mem_cons_of_mem _ hm)
    simp only [min_received, to_index_rank_of_mem Vc node h1, ok_bind,
      vec_get_of_lt Vc.failed _ true h2, sst_get_of_lt sst.num_received _ _ 0 h3 h4]
    split
    · split
      · exact ih _ hrest
      · exact ih _ hrest
    · exact ih _ hrest

theorem compute_global_min_total (Vc : View) (offset : Nat) (members : List node_id_t) :
    ∀ (k n : Nat) (sst : DerechoSST),
      (∀ m ∈ members, m ∈ Vc.members ∧ Vc.members.indexOf m < Vc.failed.length ∧
        Vc.members.indexOf m < sst.num_received.length ∧
        offset + n + k ≤ (sst.num_received.getD (Vc.members.indexOf m) []).length) →
      Vc.my_rank < sst.num_received.length →
      offset + n + k ≤ (sst.num_received.getD Vc.my_rank []).length →
      Vc.my_rank < sst.global_min.length →
      offset + n + k ≤ (sst.global_min.getD Vc.my_rank []).length →
      ∃ sst2, compute_global_min Vc offset members n k sst = .ok sst2 ∧
        sst2.global_min.length = sst.global_min.length ∧
        (sst2.global_min.getD Vc.my_rank []).length
          = (sst.global_min.getD Vc.my_rank []).length := by
  intro k
  induction k with
  | zero =>
    intro n sst _ _ _ _ _
    exact ⟨sst, rfl, rfl, rfl⟩
  | succ k ih =>
    intro n sst hm h1 h2 h3 h4
    obtain ⟨v, hv⟩ := min_received_total Vc sst (offset + n) members
      ((sst.num_received.getD Vc.my_rank []).getD (offset + n) 0)
      (fun m hmem => by
        obtain ⟨a, b, c, d⟩ := hm m hmem
        exact ⟨a, b, c, by omega⟩)
    simp only [compute_global_min, sst_get_of_lt sst.num_received _ _ 0 h1
      (show offset + n < (sst.num_received.getD Vc.my_rank []).length by omega), ok_bind, hv,
      sst_set_of_lt sst.global_min _ _ v h3
      (show offset + n < (sst.global_min.getD Vc.my_rank []).length by omega)]
    have hrow : ((sst.global_min.set Vc.my_rank
        ((sst.global_min.getD Vc.my_rank []).set (offset + n) v)).getD Vc.my_rank []).length
        = (sst.global_min.getD Vc.my_rank []).length := by
      rw [getD_set_self _ _ _ h3, List.length_set]
    obtain ⟨sst2, h5, h6, h7⟩ := ih (n + 1)
      { sst with global_min := (sst.global_min.set Vc.my_rank
          ((sst.global_min.getD Vc.my_rank []).set (offset + n) v)) }
      (fun m hmem => by
        obtain ⟨a, b, c, d⟩ := hm m hmem
        exact ⟨a, b, c, by dsimp only; omega⟩)
      h1 (by dsimp only; omega) (by simpa using h3) (by rw [hrow]; omega)
    exact ⟨sst2, h5, by simpa using h6, by rw [h7, hrow]⟩

theorem read_max_received_total (sst : DerechoSST) (rank offset : Nat)
    (hrank : rank < sst.global_min.length) :
    ∀ (k n : Nat) (v : List Int), n + k ≤ v.length →
      offset + n + k ≤ (sst.global_min.getD rank []).length →
      ∃ v2, read_max_received sst rank offset n k v = .ok v2 := by
  intro k
  induction k with
  | zero =>
    intro n v _ _
    exact ⟨v, rfl⟩
  | succ k ih =>
    intro n v h1 h2
    simp only [read_max_received, sst_get_of_lt sst.global_min rank _ 0 hrank
      (show offset + n < (sst.global_min.getD rank []).length by omega), ok_bind,
      vec_set_of_lt v n _ (show n < v.length by omega)]
    exact ih _ _ (by rw [List.length_set]; omega) (by omega)

theorem deliver_in_order_total (Vc : View) (sst : DerechoSST) (rank : Nat) (sg : subgroup_id_t)
    (offset count : Nat) (hrank : rank < sst.global_min.length)
    (hrow : offset + count ≤ (sst.global_min.getD rank []).length)
    (hl0 : 0 ≤ Vc.rank_of_leader) (hl1 : Vc.rank_of_leader.toNat < Vc.members.length) :
    ∃ effects, deliver_in_order Vc sst rank sg offset count = .ok effects := by
  obtain ⟨v, hv⟩ := read_max_received_total sst rank offset hrank count 0
    (List.replicate count 0) (by simp) (by omega)
  have hto : to_index Vc.rank_of_leader = .ok Vc.rank_of_leader.toNat := by
    rw [to_index_eq_ok]
    omega
  simp only [deliver_in_order, hv, ok_bind, hto, vec_get_of_lt Vc.members _ 0 hl1]
  exact ⟨_, rfl⟩

theorem copy_ready_total_not_found (Vc : View) (sg : subgroup_id_t) (offset count : Nat)
    (sst : DerechoSST) :
    ∀ (rest : List node_id_t),
      (∀ m ∈ rest, m ∈ Vc.members ∧ Vc.members.indexOf m < sst.global_min_ready.length ∧
        sg < (sst.global_min_ready.getD (Vc.members.indexOf m) []).length) →
      (∀ m ∈ rest, ∀ r : Nat, Vc.rank_of m = (r : Int) →
        sst_get sst.global_min_ready r sg ≠ .ok true) →
      copy_ready_global_min Vc sg offset count rest sst = .ok (false, sst) := by
  intro rest
  induction rest with
  | nil =>
    intro _ _
    rfl
  | cons node rest ih =>
    intro h hnot
    obtain ⟨h1, h2, h3⟩ := h node (List.mem_cons_self _ _)
    have hread := sst_get_of_lt sst.global_min_ready _ _ false h2 h3
    have hfalse : (sst.global_min_ready.getD (Vc.members.indexOf node) []).getD sg false
        = false := by
      cases hb : (sst.global_min_ready.getD (Vc.members.indexOf node) []).getD sg false with
      | false => rfl
      | true =>
        rw [hb] at hread
        exact absurd hread (hnot node (List.mem_cons_self _ _) _ (rank_of_mem Vc node h1))
    rw [hfalse] at hread
    simp only [copy_ready_global_min, to_index_rank_of_mem Vc node h1, ok_bind, hread,
      Bool.false_eq_true, if_false]
    exact ih (fun m hm => h m (List.mem_cons_of_mem _ hm))
      (fun m hm => hnot m (List.mem_cons_of_mem _ hm))

theorem slice_write_at {α : Type} (l xs : List α) (offset : Nat)
    (h : offset + xs.length ≤ l.length) :
    ((write_at l offset xs).drop offset).take xs.length = xs := by
  have h1 : (List.take offset l).length = offset := by
    simp [List.length_take]
    omega
  unfold write_at
  rw [List.append_assoc, List.drop_append_of_le_length (by omega), List.drop_of_length_le
    (by omega), List.nil_append, List.take_left']
  rfl

theorem getD_set_entry {α : Type} (l : List α) (i : Nat) (a d : α) (h : i < l.length) :
    (l.set i a).getD i d = a := by
  simp [List.getD, List.getElem?_set, h]

theorem getD_set_other {α : Type} (field : List (List α)) (row other : Nat) (r : List α)
    (h : other ≠ row) : (field.set row r).getD other [] = field.getD other [] := by
  simp [List.getD, List.getElem?_set, Ne.symm h]

/-- C11: when the accesses are in range, no shard member has `global_min_ready`
set for the subgroup and the local node (the shard leader) is a shard member
that is not failed, `leader_ragged_edge_cleanup` returns; afterwards, for every
sender `n < num_shard_senders`, `global_min[leader][offset + n]` is the minimum
of `num_received[r][offset + n]` over the shard members `r` that are not failed,
and `global_min_ready[leader][subgroup]` is set. -/
theorem leader_cleanup_computes_shard_min (Vc : View) (gmsSST : DerechoSST)
    (subgroup_num : subgroup_id_t) (num_received_offset : Nat) (shard_members : List node_id_t)
    (num_shard_senders : Nat)
    (hin : ragged_inputs_ok Vc gmsSST subgroup_num num_received_offset shard_members
      num_shard_senders)
    (hnot : ∀ m ∈ shard_members,
      (gmsSST.global_min_ready.getD (Vc.members.indexOf m) []).getD subgroup_num false = false)
    (hme : ∃ m ∈ shard_members, Vc.rank_of m = (Vc.my_rank : Int) ∧
      Vc.failed[Vc.my_rank]? = some false) :
    ∃ sst effects,
      leader_ragged_edge_cleanup Vc gmsSST subgroup_num num_received_offset shard_members
        num_shard_senders = .ok (sst, effects) ∧
      (∀ n, n < num_shard_senders →
        ∃ v, sst_get sst.global_min Vc.my_rank (num_received_offset + n) = .ok v ∧
          is_shard_min Vc gmsSST.num_received shard_members (num_received_offset + n) v) ∧
      sst_get sst.global_min_ready Vc.my_rank subgroup_num = .ok true := by
  obtain ⟨hm, h1, h2, h3, h4, h5, h6, hl0, hl1⟩ := hin
  have hcopy := copy_ready_total_not_found Vc subgroup_num num_received_offset num_shard_senders
    gmsSST shard_members
    (fun m hmem => ⟨(hm m hmem).1, (hm m hmem).2.2.2.2.1, (hm m hmem).2.2.2.2.2⟩)
    (fun m hmem r hr => by
      obtain ⟨a, _, _, _, e, f⟩ := hm m hmem
      have hr2 : r = Vc.members.indexOf m := by
        rw [rank_of_mem Vc m a] at hr
        exact_mod_cast hr.symm
      rw [hr2, sst_get_of_lt _ _ _ false e f, hnot m hmem]
      simp)
  obtain ⟨sst2, hc, hlen, hrowlen⟩ := compute_global_min_total Vc num_received_offset
    shard_members num_shard_senders 0 gmsSST
    (fun m hmem => ⟨(hm m hmem).1, (hm m hmem).2.1, (hm m hmem).2.2.1, (hm m hmem).2.2.2.1⟩)
    h1 h2 h3 h4
  obtain ⟨e1, e2, _, e4, _⟩ := compute_global_min_ok Vc num_received_offset shard_members
    num_shard_senders 0 gmsSST sst2 hc
  have hready := sst_set_of_lt sst2.global_min_ready Vc.my_rank subgroup_num true
    (by rw [e2]; exact h5) (by rw [e2]; exact h6)
  obtain ⟨effects, hd⟩ := deliver_in_order_total Vc
    (({ sst2 with global_min_ready := (sst2.global_min_ready.set Vc.my_rank
      ((sst2.global_min_ready.getD Vc.my_rank []).set subgroup_num true)) }).put .global_min
      num_received_offset (.entries num_shard_senders) |>.put .global_min_ready subgroup_num
      (.entries 1)) Vc.my_rank subgroup_num num_received_offset num_shard_senders
    (by show Vc.my_rank < sst2.global_min.length; omega)
    (by show _ ≤ (sst2.global_min.getD Vc.my_rank []).length; omega) hl0 hl1
  refine ⟨(({ sst2 with global_min_ready := (sst2.global_min_ready.set Vc.my_rank
      ((sst2.global_min_ready.getD Vc.my_rank []).set subgroup_num true)) }).put .global_min
      num_received_offset (.entries num_shard_senders) |>.put .global_min_ready subgroup_num
      (.entries 1)), effects, ?_, ?_, ?_⟩
  · simp only [leader_ragged_edge_cleanup, hcopy, ok_bind, Bool.not_false, if_true, hc, hready]
    rw [hd]
    rfl
  · intro n hn
    obtain ⟨v, hv, start, hs1, hs2, hs3, hs4⟩ := e4 n (Nat.zero_le _) (by omega)
    refine ⟨v, hv, hs3, ?_⟩
    rcases hs4 with heq | hex
    · obtain ⟨m, hmem, hr, hf⟩ := hme
      exact ⟨m, hmem, Vc.my_rank, hr, hf, by rw [heq]; exact hs1⟩
    · exact hex
  · show sst_get (sst2.global_min_ready.set Vc.my_rank _) Vc.my_rank subgroup_num = .ok true
    have hrow2 : Vc.my_rank < sst2.global_min_ready.length := by rw [e2]; exact h5
    have hcol2 : subgroup_num < (sst2.global_min_ready.getD Vc.my_rank []).length := by
      rw [e2]; exact h6
    rw [sst_get_of_lt _ _ _ false (by rw [List.length_set]; exact hrow2)
      (by rw [getD_set_self _ _ _ hrow2, List.length_set]; exact hcol2),
      getD_set_self _ _ _ hrow2, getD_set_entry _ _ _ _ hcol2]

/-- C11, witness: scenario E5 at the leader (rank 0). The rows `[7,5,6]`,
`[6,5,6]`, `[7,4,6]` give the decision `[6,4,6]`. -/
theorem leader_cleanup_computes_shard_min_witness :
    (leader_ragged_edge_cleanup (E5_view 0) (E5_sst 0) 0 0 [1, 2, 3] 3).map
      (fun result => (slice result.1.global_min 0 0 3, slice result.1.global_min_ready 0 0 1))
      = .ok ([6, 4, 6], [true]) ∧
    ∃ sst effects,
      leader_ragged_edge_cleanup (E5_view 0) (E5_sst 0) 0 0 [1, 2, 3] 3 = .ok (sst, effects) ∧
      (∀ n, n < 3 →
        ∃ v, sst_get sst.global_min (E5_view 0).my_rank (0 + n) = .ok v ∧
          is_shard_min (E5_view 0) (E5_sst 0).num_received [1, 2, 3] (0 + n) v) ∧
      sst_get sst.global_min_ready (E5_view 0).my_rank 0 = .ok true :=
  ⟨rfl, leader_cleanup_computes_shard_min (E5_view 0) (E5_sst 0) 0 0 [1, 2, 3] 3
    (by decide) (by decide) (by decide)⟩

theorem leader_cleanup_effects (Vc : View) (gmsSST sst : DerechoSST) (sg : subgroup_id_t)
    (offset : Nat) (members : List node_id_t) (count : Nat) (effects : List Effect)
    (h : leader_ragged_edge_cleanup Vc gmsSST sg offset members count = .ok (sst, effects)) :
    max_received_indices_of effects = [slice sst.global_min Vc.my_rank offset count] := by
  have key : ∀ sst2 : DerechoSST,
      (do
        let ready ← sst_set sst2.global_min_ready Vc.my_rank sg true
        let sst3 := (({ sst2 with global_min_ready := ready }).put .global_min offset
          (.entries count)).put .global_min_ready sg (.entries 1)
        let effects ← deliver_in_order Vc sst3 Vc.my_rank sg offset count
        Except.ok (sst3, effects)) = Except.ok (sst, effects) →
      max_received_indices_of effects = [slice sst.global_min Vc.my_rank offset count] := by
    intro sst2 h2
    simp only [bind_eq_ok] at h2
    obtain ⟨ready, _, eff, hd, heq⟩ := h2
    simp only [Except.ok.injEq, Prod.mk.injEq] at heq
    obtain ⟨_, _, hd2, _⟩ := deliver_in_order_ok _ _ _ _ _ _ _ hd
    rw [← heq.2, hd2, ← heq.1]
    rfl
  unfold leader_ragged_edge_cleanup at h
  cases hc : copy_ready_global_min Vc sg offset count members gmsSST with
  | error e =>
    rw [hc] at h
    cases h
  | ok p =>
    obtain ⟨found, sst1⟩ := p
    rw [hc] at h
    cases found with
    | true => exact key sst1 h
    | false =>
      cases hg : compute_global_min Vc offset members 0 count sst1 with
      | error e =>
        simp only [ok_bind, Bool.not_false, if_true, hg] at h
        cases h
      | ok sst2 =>
        simp only [ok_bind, Bool.not_false, if_true, hg] at h
        exact key sst2 h

/-- C12: let the shard leader's `leader_ragged_edge_cleanup` have returned, and
let a follower whose accesses are in range see, in its copy of the leader's row,
the `global_min` slice that the leader wrote. Then
`follower_ragged_edge_cleanup` returns, the vector it hands to
`deliver_messages_upto` is the vector the leader handed over (the leader's
slice), and the follower's own `global_min` slice afterwards equals the
leader's. -/
theorem follower_delivers_leader_decision (leader_view follower_view : View)
    (leader_sst follower_sst leader_result : DerechoSST) (subgroup_num : subgroup_id_t)
    (num_received_offset : Nat) (shard_members : List node_id_t) (num_shard_senders : Nat)
    (leader_effects : List Effect) (shard_leader_rank : Nat)
    (hleader : leader_ragged_edge_cleanup leader_view leader_sst subgroup_num num_received_offset
      shard_members num_shard_senders = .ok (leader_result, leader_effects))
    (hin : follower_inputs_ok follower_view follower_sst subgroup_num shard_leader_rank
      num_received_offset num_shard_senders)
    (hsees : slice follower_sst.global_min shard_leader_rank num_received_offset
        num_shard_senders
      = slice leader_result.global_min leader_view.my_rank num_received_offset
        num_shard_senders) :
    ∃ sst effects,
      follower_ragged_edge_cleanup follower_view follower_sst subgroup_num shard_leader_rank
        num_received_offset num_shard_senders = .ok (sst, effects) ∧
      max_received_indices_of leader_effects
        = [slice leader_result.global_min leader_view.my_rank num_received_offset
            num_shard_senders] ∧
      max_received_indices_of effects = max_received_indices_of leader_effects ∧
      slice sst.global_min follower_view.my_rank num_received_offset num_shard_senders
        = slice leader_result.global_min leader_view.my_rank num_received_offset
            num_shard_senders := by
  obtain ⟨h1, h2, h3, h4, h5, h6, hl0, hl1⟩ := hin
  have hL := leader_cleanup_effects _ _ _ _ _ _ _ _ hleader
  have hslen : (slice follower_sst.global_min shard_leader_rank num_received_offset
      num_shard_senders).length = num_shard_senders := by
    simp only [slice, List.length_take, List.length_drop]
    omega
  have hcopy : copy_slice (follower_sst.global_min.getD follower_view.my_rank [])
      (follower_sst.global_min.getD shard_leader_rank []) num_received_offset num_shard_senders
      = .ok (write_at (follower_sst.global_min.getD follower_view.my_rank [])
          num_received_offset
          (slice follower_sst.global_min shard_leader_rank num_received_offset
            num_shard_senders)) := by
    simp only [copy_slice, h2, h4, and_self, if_true]
    rfl
  have hown : slice (follower_sst.global_min.set follower_view.my_rank
      (write_at (follower_sst.global_min.getD follower_view.my_rank []) num_received_offset
        (slice follower_sst.global_min shard_leader_rank num_received_offset
          num_shard_senders))) follower_view.my_rank num_received_offset num_shard_senders
      = slice follower_sst.global_min shard_leader_rank num_received_offset
          num_shard_senders := by
    have := slice_write_at (follower_sst.global_min.getD follower_view.my_rank [])
      (slice follower_sst.global_min shard_leader_rank num_received_offset num_shard_senders)
      num_received_offset (by rw [hslen]; exact h4)
    rw [hslen] at this
    unfold slice at this ⊢
    rw [getD_set_self _ _ _ h3]
    exact this
  have hlead : slice (follower_sst.global_min.set follower_view.my_rank
      (write_at (follower_sst.global_min.getD follower_view.my_rank []) num_received_offset
        (slice follower_sst.global_min shard_leader_rank num_received_offset
          num_shard_senders))) shard_leader_rank num_received_offset num_shard_senders
      = slice follower_sst.global_min shard_leader_rank num_received_offset
          num_shard_senders := by
    by_cases hsame : shard_leader_rank = follower_view.my_rank
    · rw [hsame] at hown ⊢
      exact hown
    · unfold slice
      rw [getD_set_other _ _ _ _ hsame]
  have hready := sst_set_of_lt follower_sst.global_min_ready follower_view.my_rank subgroup_num
    true h5 h6
  have hrowlen : ((follower_sst.global_min.set follower_view.my_rank
      (write_at (follower_sst.global_min.getD follower_view.my_rank []) num_received_offset
        (slice follower_sst.global_min shard_leader_rank num_received_offset
          num_shard_senders))).getD shard_leader_rank []).length
      = (follower_sst.global_min.getD shard_leader_rank []).length := by
    by_cases hsame : shard_leader_rank = follower_view.my_rank
    · rw [hsame, getD_set_self _ _ _ h3, length_write_at]
      rw [hsame] at hslen
      rw [hslen]
      exact h4
    · rw [getD_set_other _ _ _ _ hsame]
  obtain ⟨effects, hd⟩ := deliver_in_order_total follower_view
    (({ follower_sst with
        global_min := (follower_sst.global_min.set follower_view.my_rank
          (write_at (follower_sst.global_min.getD follower_view.my_rank []) num_received_offset
            (slice follower_sst.global_min shard_leader_rank num_received_offset
              num_shard_senders))),
        global_min_ready := (follower_sst.global_min_ready.set follower_view.my_rank
          ((follower_sst.global_min_ready.getD follower_view.my_rank []).set subgroup_num
            true)) }).put .global_min num_received_offset (.entries num_shard_senders)
      |>.put .global_min_ready subgroup_num (.entries 1))
    shard_leader_rank subgroup_num num_received_offset num_shard_senders
    (by show shard_leader_rank < (follower_sst.global_min.set _ _).length
        rw [List.length_set]; exact h1)
    (by show _ ≤ ((follower_sst.global_min.set _ _).getD shard_leader_rank []).length
        rw [hrowlen]; exact h2) hl0 hl1
  obtain ⟨_, _, hd2, _⟩ := deliver_in_order_ok _ _ _ _ _ _ _ hd
  refine ⟨(({ follower_sst with
        global_min := (follower_sst.global_min.set follower_view.my_rank
          (write_at (follower_sst.global_min.getD follower_view.my_rank []) num_received_offset
            (slice follower_sst.global_min shard_leader_rank num_received_offset
              num_shard_senders))),
        global_min_ready := (follower_sst.global_min_ready.set follower_view.my_rank
          ((follower_sst.global_min_ready.getD follower_view.my_rank []).set subgroup_num
            true)) }).put .global_min num_received_offset (.entries num_shard_senders)
      |>.put .global_min_ready subgroup_num (.entries 1)), effects, ?_, hL, ?_, ?_⟩
  · simp only [follower_ragged_edge_cleanup, vec_get_of_lt _ _ [] h1, vec_get_of_lt _ _ [] h3,
      ok_bind, hcopy, vec_set_of_lt _ _ _ h3, hready]
    rw [hd]
    rfl
  · rw [hL, hd2, ← hsees]
    exact congrArg (fun x => [x]) hlead
  · rw [← hsees]
    exact hown

/-- C12, witness: scenario E5. The leader (rank 0) decides `[6,4,6]`; the
follower at rank 1, which sees `[6,4,6]` in the leader's row, delivers up to
`[6,4,6]` and holds `[6,4,6]` in its own row. -/
theorem follower_delivers_leader_decision_witness :
    ∃ leader_result leader_effects,
      leader_ragged_edge_cleanup (E5_view 0) (E5_sst 0) 0 0 [1, 2, 3] 3
        = .ok (leader_result, leader_effects) ∧
      ∃ sst effects,
        follower_ragged_edge_cleanup (E5_view 1)
          { E5_sst 1 with global_min := [[6, 4, 6], [0, 0, 0], [0, 0, 0]] } 0 0 0 3
          = .ok (sst, effects) ∧
        max_received_indices_of leader_effects = [[6, 4, 6]] ∧
        max_received_indices_of effects = [[6, 4, 6]] ∧
        slice sst.global_min 1 0 3 = [6, 4, 6] := by
  have hval : (leader_ragged_edge_cleanup (E5_view 0) (E5_sst 0) 0 0 [1, 2, 3] 3).map
      (fun result => slice result.1.global_min 0 0 3) = .ok [6, 4, 6] := rfl
  cases hleader : leader_ragged_edge_cleanup (E5_view 0) (E5_sst 0) 0 0 [1, 2, 3] 3 with
  | error e =>
    rw [hleader] at hval
    cases hval
  | ok result =>
    rw [hleader] at hval
    have hs : slice result.1.global_min 0 0 3 = [6, 4, 6] := by
      simpa [Except.map] using hval
    have hs2 : slice result.1.global_min (E5_view 0).my_rank 0 3 = [6, 4, 6] := hs
    obtain ⟨sst, effects, h1, h2, h3, h4⟩ := follower_delivers_leader_decision (E5_view 0)
      (E5_view 1) (E5_sst 0) { E5_sst 1 with global_min := [[6, 4, 6], [0, 0, 0], [0, 0, 0]] }
      result.1 0 0 [1, 2, 3] 3 result.2 0 hleader (by decide) (by rw [hs2]; rfl)
    exact ⟨result.1, result.2, rfl, sst, effects, h1, by rw [h2, hs2], by rw [h3, h2, hs2],
      h4.trans hs2⟩

/-! ## Persistent logs -/

/-- C13: the logged ragged trim of subgroup 0 in view 5 with three senders from
none of which a message was received (`max_received_by_sender = [-1, -1, -1]`).
The sequence numbers `max_received_by_sender[s] * 3 + s` are −3, −2, −1 with
maximum −1, but `truncate_persistent_logs` starts its maximum at 0 and
truncates at `combine(5, 0)`, which is not `combine(5, -1)`. -/
theorem truncate_all_minus_one_uses_zero :
    truncate_persistent_logs [0] [(0, RaggedTrim.mk 0 5 1 [-1, -1, -1])]
      = .ok [.truncate 0 (combine_int32s 5 0)] ∧
    spec_max_seq_num (RaggedTrim.mk 0 5 1 [-1, -1, -1]) = some (-1) ∧
    combine_int32s 5 0 ≠ combine_int32s 5 (-1) ∧
    truncate_persistent_logs [0] [(0, RaggedTrim.mk 0 5 1 [6, 4, 6])]
      = .ok [.truncate 0 (combine_int32s 5 20)] ∧
    spec_max_seq_num (RaggedTrim.mk 0 5 1 [6, 4, 6]) = some 20 := by
  refine ⟨rfl, rfl, by decide, rfl, rfl⟩

theorem shard_persisted_ok (Vc : View) (sst : DerechoSST) (sg : subgroup_id_t) (last : Int) :
    ∀ (rest : List node_id_t),
      (∀ m ∈ rest, m ∈ Vc.members ∧ Vc.members.indexOf m < Vc.failed.length ∧
        Vc.members.indexOf m < sst.persisted_num.length ∧
        sg < (sst.persisted_num.getD (Vc.members.indexOf m) []).length) →
      ∃ b, shard_persisted Vc sst sg last rest = .ok b ∧
        (b = true ↔ ∀ m ∈ rest, Vc.failed.getD (Vc.members.indexOf m) true = false →
          last ≤ (unpack_version ((sst.persisted_num.getD (Vc.members.indexOf m) []).getD sg
            0)).2) := by
  intro rest
  induction rest with
  | nil =>
    intro _
    exact ⟨true, rfl, by simp⟩
  | cons node rest ih =>
    intro h
    obtain ⟨h1, h2, h3, h4⟩ := h node (List.mem_cons_self _ _)
    obtain ⟨b, hb, hiff⟩ := ih (fun m hm => h m (List.mem_cons_of_mem _ hm))
    simp only [shard_persisted, to_index_rank_of_mem Vc node h1, ok_bind,
      vec_get_of_lt Vc.failed _ true h2, sst_get_of_lt sst.persisted_num _ _ 0 h3 h4]
    cases hf : Vc.failed.getD (Vc.members.indexOf node) true with
    | true =>
      simp only [Bool.not_true, Bool.false_eq_true, if_false]
      refine ⟨b, hb, ?_⟩
      rw [hiff]
      simp only [List.mem_cons, forall_eq_or_imp, hf]
      constructor
      · intro hr
        exact ⟨fun hc => absurd hc (by decide), hr⟩
      · intro hr
        exact hr.2
    | false =>
      simp only [Bool.not_false, if_true]
      by_cases hlt : (unpack_version ((sst.persisted_num.getD (Vc.members.indexOf node)
          []).getD sg 0)).2 < last
      · rw [if_pos hlt]
        refine ⟨false, rfl, ?_⟩
        simp only [Bool.false_eq_true, false_iff, not_forall]
        exact ⟨node, List.mem_cons_self _ _, hf, by omega⟩
      · rw [if_neg hlt]
        refine ⟨b, hb, ?_⟩
        rw [hiff]
        simp only [List.mem_cons, forall_eq_or_imp, hf, true_implies]
        constructor
        · intro hr
          exact ⟨by omega, hr⟩
        · intro hr
          exact hr.2

theorem mode_cases (mode : Mode) : mode = Mode.UNORDERED ∨ mode = Mode.ORDERED := by
  cases mode
  · exact Or.inr rfl
  · exact Or.inl rfl

theorem persistence_finished_loop_ok (Vc : View) (sst : DerechoSST) :
    ∀ (rest : List (subgroup_id_t × Nat)),
      (∀ p ∈ rest, (shard_view_of Vc p.1 p.2).isSome ∧
        ∀ sv ∈ shard_view_of Vc p.1 p.2, sv.mode = Mode.ORDERED →
          Vc.my_rank < sst.delivered_num.length ∧
          p.1 < (sst.delivered_num.getD Vc.my_rank []).length ∧
          ∀ m ∈ sv.members, m ∈ Vc.members ∧ Vc.members.indexOf m < Vc.failed.length ∧
            Vc.members.indexOf m < sst.persisted_num.length ∧
            p.1 < (sst.persisted_num.getD (Vc.members.indexOf m) []).length) →
      ∃ b, persistence_finished_loop Vc sst rest = .ok b ∧
        (b = true ↔ ∀ p ∈ rest, ∀ sv ∈ shard_view_of Vc p.1 p.2, sv.mode = Mode.ORDERED →
          ∀ m ∈ sv.members, Vc.failed.getD (Vc.members.indexOf m) true = false →
            (sst.delivered_num.getD Vc.my_rank []).getD p.1 0
              ≤ (unpack_version
                  ((sst.persisted_num.getD (Vc.members.indexOf m) []).getD p.1 0)).2) := by
  intro rest
  induction rest with
  | nil =>
    intro _
    exact ⟨true, rfl, by simp⟩
  | cons p rest ih =>
    intro h
    obtain ⟨sg, shard⟩ := p
    obtain ⟨hsome, hord⟩ := h (sg, shard) (List.mem_cons_self _ _)
    obtain ⟨b, hb, hiff⟩ := ih (fun q hq => h q (List.mem_cons_of_mem _ hq))
    obtain ⟨sv, hsv⟩ := Option.isSome_iff_exists.mp hsome
    have hsv2 : (Vc.subgroup_shard_views.getD sg [])[shard]? = some sv := hsv
    have hrow : vec_get Vc.subgroup_shard_views sg = .ok (Vc.subgroup_shard_views.getD sg []) := by
      apply vec_get_of_lt
      by_contra hge
      have : Vc.subgroup_shard_views.getD sg [] = [] := by
        rw [List.getD_eq_getElem?_getD, List.getElem?_eq_none (Nat.le_of_not_lt hge)]
        rfl
      rw [this] at hsv2
      simp at hsv2
    have hshard : vec_get (Vc.subgroup_shard_views.getD sg []) shard = .ok sv := by
      unfold vec_get
      rw [hsv2]
    simp only [persistence_finished_loop, hrow, ok_bind, hshard]
    have hhead : ∀ P : SubView → Prop,
        (∀ sv2 ∈ shard_view_of Vc sg shard, P sv2) ↔ P sv := by
      intro P
      rw [hsv]
      simp
    rcases mode_cases sv.mode with hmode | hmode
    · rw [if_pos hmode]
      refine ⟨b, hb, ?_⟩
      rw [hiff]
      simp only [List.mem_cons, forall_eq_or_imp, hhead, hmode]
      simp
    · rw [if_neg (by rw [hmode]; decide)]
      obtain ⟨d1, d2, hmem⟩ := hord sv hsv hmode
      obtain ⟨ok, hok, hokiff⟩ := shard_persisted_ok Vc sst sg
        ((sst.delivered_num.getD Vc.my_rank []).getD sg 0) sv.members hmem
      simp only [sst_get_of_lt sst.delivered_num _ _ 0 d1 d2, ok_bind, hok]
      cases ok with
      | true =>
        simp only [if_true]
        refine ⟨b, hb, ?_⟩
        rw [hiff]
        simp only [List.mem_cons, forall_eq_or_imp, hhead, hmode, true_implies]
        constructor
        · intro hr
          exact ⟨hokiff.mp rfl, hr⟩
        · intro hr
          exact hr.2
      | false =>
        simp only [Bool.false_eq_true, if_false]
        refine ⟨false, rfl, ?_⟩
        simp only [Bool.false_eq_true, false_iff, List.mem_cons, forall_eq_or_imp, hhead, hmode,
          true_implies, not_and]
        intro hall
        exact absurd (hokiff.mpr hall) (by simp)

/-- C14: when its accesses are in range, `persistence_finished_pred` returns,
and it returns `true` exactly when for every (subgroup, shard) of
`my_subgroups` whose mode is Ordered and every member `m` of that shard that is
not failed, the sequence part of `persisted_num[m][subgroup]` is at least
`delivered_num[me][subgroup]`. Unordered shards and failed members impose no
condition. -/
theorem persistence_finished_iff_barrier (Vc : View) (gmsSST : DerechoSST)
    (hin : persistence_inputs_ok Vc gmsSST) :
    ∃ finished, persistence_finished_pred Vc gmsSST = .ok finished ∧
      (finished = true ↔ persistence_barrier Vc gmsSST) :=
  persistence_finished_loop_ok Vc gmsSST Vc.my_subgroups hin

/-- C14, witness: node 3 is failed and has persisted less than the local node
has delivered, and subgroup 1 is Unordered with nothing persisted. The predicate
holds when node 2 has persisted up to 6 and fails when it has persisted up to
3, since 4 was delivered. -/
theorem persistence_finished_iff_barrier_witness :
    persistence_finished_pred persistence_view (persistence_sst 6) = .ok true ∧
    persistence_finished_pred persistence_view (persistence_sst 3) = .ok false ∧
    persistence_inputs_ok persistence_view (persistence_sst 6) ∧
    ∃ finished, persistence_finished_pred persistence_view (persistence_sst 6) = .ok finished ∧
      (finished = true ↔ persistence_barrier persistence_view (persistence_sst 6)) :=
  ⟨rfl, rfl, by decide,
    persistence_finished_iff_barrier persistence_view (persistence_sst 6) (by decide)⟩

/-! ## Total restart -/

theorem set_emplace_append (s : List Nat) (x : Nat) (h : ∀ a ∈ s, a < x) :
    set_emplace s x = s ++ [x] := by
  induction s with
  | nil => rfl
  | cons y ys ih =>
    have hy := h y (List.mem_cons_self _ _)
    unfold set_emplace
    rw [if_neg (by omega), if_neg (by omega), ih (fun a ha => h a (List.mem_cons_of_mem _ ha))]
    rfl

theorem failed_ranks_eq (failed : List Bool) :
    ∀ (k rank : Nat) (acc : List Nat), rank + k ≤ failed.length → (∀ a ∈ acc, a < rank) →
      failed_ranks failed rank k acc
        = .ok (acc ++ (List.range' rank k).filter (fun r => failed.getD r false)) := by
  intro k
  induction k with
  | zero =>
    intro rank acc _ _
    simp [failed_ranks]
  | succ k ih =>
    intro rank acc h hacc
    simp only [failed_ranks, vec_get_of_lt failed rank false (by omega), ok_bind]
    cases hf : failed.getD rank false with
    | false =>
      simp only [Bool.false_eq_true, if_false]
      rw [ih (rank + 1) acc (by omega) (fun a ha => Nat.lt_succ_of_lt (hacc a ha)),
        List.range'_succ, List.filter_cons_of_neg (by show ¬ failed.getD rank false = true; rw [hf]; decide)]
    | true =>
      simp only [if_true]
      rw [set_emplace_append acc rank hacc, ih (rank + 1) (acc ++ [rank]) (by omega)
        (fun a ha => by
          rcases List.mem_append.mp ha with h1 | h1
          · exact Nat.lt_succ_of_lt (hacc a h1)
          · simp only [List.mem_singleton] at h1
            omega),
        List.range'_succ, List.filter_cons_of_pos (by show failed.getD rank false = true; exact hf)]
      simp

theorem add_restart_joiners_eq (v : View) (joiner_ids : List node_id_t)
    (joiner_ips : List ip_addr) (lc : Nat) (hlc : lc ≤ v.num_members) :
    ∀ (k i : Nat) (m : List node_id_t) (ips : List ip_addr),
      i + k ≤ joiner_ids.length → i + k ≤ joiner_ips.length →
      v.num_members - lc + i + k ≤ m.length → v.num_members - lc + i + k ≤ ips.length →
      add_restart_joiners v joiner_ids joiner_ips lc i k (m, ips)
        = .ok (write_at m (v.num_members - lc + i) ((joiner_ids.drop i).take k),
               write_at ips (v.num_members - lc + i) ((joiner_ips.drop i).take k)) := by
  intro k
  induction k with
  | zero =>
    intro i m ips _ _ _ _
    simp [add_restart_joiners, write_at_nil]
  | succ k ih =>
    intro i m ips h1 h2 h3 h4
    have hto : to_index ((v.num_members : Int) - lc + i) = .ok (v.num_members - lc + i) := by
      rw [to_index_eq_ok]
      omega
    have hi1 : i < joiner_ids.length := by omega
    have hi2 : i < joiner_ips.length := by omega
    simp only [add_restart_joiners, hto, ok_bind, vec_get_of_lt joiner_ids i 0 hi1,
      vec_get_of_lt joiner_ips i "" hi2,
      vec_set_of_lt m (v.num_members - lc + i) _ (by omega),
      vec_set_of_lt ips (v.num_members - lc + i) _ (by omega)]
    rw [ih (i + 1) _ _ (by omega) (by omega) (by rw [List.length_set]; omega)
      (by rw [List.length_set]; omega)]
    rw [set_eq_write_at _ _ _ (by omega), set_eq_write_at _ _ _ (by omega),
      ← Nat.add_assoc, write_at_cons_step _ _ _ _ (by omega),
      write_at_cons_step _ _ _ _ (by omega),
      List.drop_eq_getElem_cons hi1, List.drop_eq_getElem_cons hi2, List.take_succ_cons,
      List.take_succ_cons, List.getD_eq_getElem _ _ hi1, List.getD_eq_getElem _ _ hi2]

theorem length_restart_leave_ranks (v : View) :
    (restart_leave_ranks v).length = v.failed.count true := by
  unfold restart_leave_ranks
  have h := filter_index_map v.failed (fun b => b) false
  have h2 := congrArg List.length h
  rw [List.length_map] at h2
  rw [h2, List.count, List.countP_eq_length_filter]
  congr 1
  apply List.filter_congr
  intro b _
  cases b <;> rfl

theorem length_restart_stay_ranks (v : View) (hf : v.failed.length = v.members.length) :
    (restart_stay_ranks v).length + (restart_leave_ranks v).length = v.members.length := by
  unfold restart_stay_ranks restart_leave_ranks
  rw [hf, ← List.countP_eq_length_filter, ← List.countP_eq_length_filter]
  have := List.length_eq_countP_add_countP (fun r : Nat => v.failed.getD r false)
    (List.range v.members.length)
  simp only [List.length_range] at this
  have h2 : List.countP (fun r : Nat => !v.failed.getD r false) (List.range v.members.length)
      = List.countP (fun a : Nat => decide ¬(v.failed.getD a false = true))
          (List.range v.members.length) := by
    apply List.countP_congr
    intro r _
    simp
  omega

theorem mem_restart_leave_ranks (v : View) (r : Nat) :
    r ∈ restart_leave_ranks v ↔ r < v.failed.length ∧ v.failed.getD r false = true := by
  unfold restart_leave_ranks
  rw [List.mem_filter, List.mem_range]

theorem filter_not_mem_restart_leave (v : View) (hf : v.failed.length = v.members.length) :
    (List.range' 0 v.members.length).filter (fun r => decide (r ∉ restart_leave_ranks v))
      = restart_stay_ranks v := by
  unfold restart_stay_ranks
  rw [List.range_eq_range']
  apply List.filter_congr
  intro r hr
  have hr2 : r < v.members.length := by
    have := List.mem_range'.mp hr
    omega
  rw [Bool.eq_iff_iff]
  simp only [decide_eq_true_eq, mem_restart_leave_ranks, not_and, Bool.not_eq_true,
    Bool.not_eq_eq_eq_not, Bool.not_true]
  constructor
  · intro h
    exact h (by omega)
  · intro h _
    exact h

theorem my_rank_restart_stays (v : View) (hmy : v.my_rank < v.members.length)
    (hlive : v.failed.getD v.my_rank true = false) (hf : v.failed.length = v.members.length) :
    v.my_rank ∈ restart_stay_ranks v := by
  unfold restart_stay_ranks
  rw [List.mem_filter, List.mem_range]
  refine ⟨hmy, ?_⟩
  rw [List.getD_eq_getElem _ _ (by omega)] at hlive
  rw [List.getD_eq_getElem _ _ (by omega), hlive]
  rfl

theorem restart_stay_not_failed (v : View) :
    (restart_stay_ranks v).map (fun r => v.failed.getD r false)
      = List.replicate (restart_stay_ranks v).length false := by
  rw [List.eq_replicate_iff]
  refine ⟨by simp, ?_⟩
  intro b hb
  obtain ⟨r, hr, rfl⟩ := List.mem_map.mp hb
  unfold restart_stay_ranks at hr
  have := (List.mem_filter.mp hr).2
  cases hc : v.failed.getD r false with
  | false => rfl
  | true =>
    rw [hc] at this
    exact absurd this (by decide)

/-- C17: for a view whose vectors have one entry per member, with
`num_failed = popcount(failed)`, in which the local node is not failed (and
under the bounds that keep the accesses and the view id in range), the restart
variant of `make_next_view` returns a view whose members are the members that
are not failed, in unchanged rank order, followed by `joiner_ids`; its `failed`
vector is all false, `departed` lists the failed members, `joined` is
`joiner_ids` and the view id is the old one plus one. -/
theorem make_next_view_restart_drops_failed (curr_view : View) (joiner_ids : List node_id_t)
    (joiner_ips : List ip_addr) (hok : restart_inputs_ok curr_view joiner_ids joiner_ips) :
    ∃ next_view, make_next_view_restart curr_view joiner_ids joiner_ips = .ok next_view ∧
      next_view.members
        = (restart_stay_ranks curr_view).map (fun r => curr_view.members.getD r 0)
          ++ joiner_ids ∧
      next_view.member_ips
        = (restart_stay_ranks curr_view).map (fun r => curr_view.member_ips.getD r "")
          ++ joiner_ips.take joiner_ids.length ∧
      next_view.failed = List.replicate next_view.members.length false ∧
      next_view.departed
        = (restart_leave_ranks curr_view).map (fun r => curr_view.members.getD r 0) ∧
      next_view.joined = joiner_ids ∧
      next_view.vid = curr_view.vid + 1 ∧
      next_view.num_members = next_view.members.length ∧
      next_view.num_failed = 0 ∧
      next_view.members[next_view.my_rank]? = curr_view.members[curr_view.my_rank]? := by
  obtain ⟨hn, hips, hfl, hnf, hmy, hlive, hjl, hvid⟩ := hok
  have hL : failed_ranks curr_view.failed 0 curr_view.failed.length []
      = .ok (restart_leave_ranks curr_view) := by
    rw [failed_ranks_eq curr_view.failed _ 0 [] (by omega) (by simp), List.nil_append,
      ← List.range_eq_range']
    rfl
  have hLlen := length_restart_leave_ranks curr_view
  have hsum := length_restart_stay_ranks curr_view hfl
  have hcount : curr_view.failed.count true ≤ curr_view.members.length := by omega
  have hN : to_index ((curr_view.num_members : Int) - curr_view.num_failed + joiner_ids.length)
      = .ok ((restart_stay_ranks curr_view).length + joiner_ids.length) := by
    rw [to_index_eq_ok, hnf, hn]
    omega
  have hlc : (restart_leave_ranks curr_view).length ≤ curr_view.num_members := by omega
  have hbase : curr_view.num_members - (restart_leave_ranks curr_view).length + 0
      = (restart_stay_ranks curr_view).length := by omega
  have hj := add_restart_joiners_eq curr_view joiner_ids joiner_ips
    (restart_leave_ranks curr_view).length hlc joiner_ids.length 0
    (List.replicate ((restart_stay_ranks curr_view).length + joiner_ids.length) 0)
    (List.replicate ((restart_stay_ranks curr_view).length + joiner_ids.length) "")
    (by omega) (by omega) (by rw [List.length_replicate]; omega)
    (by rw [List.length_replicate]; omega)
  rw [hbase, List.drop_zero, List.drop_zero, List.take_length] at hj
  have hm1 : write_at (List.replicate ((restart_stay_ranks curr_view).length
      + joiner_ids.length) (0 : node_id_t)) (restart_stay_ranks curr_view).length joiner_ids
      = List.replicate (restart_stay_ranks curr_view).length 0 ++ joiner_ids :=
    write_at_replicate 0 _ joiner_ids
  have hips1 : write_at (List.replicate ((restart_stay_ranks curr_view).length
      + joiner_ids.length) ("" : ip_addr)) (restart_stay_ranks curr_view).length
        (joiner_ips.take joiner_ids.length)
      = List.replicate (restart_stay_ranks curr_view).length ""
        ++ joiner_ips.take joiner_ids.length := by
    have := write_at_replicate ("" : ip_addr) (restart_stay_ranks curr_view).length
      (joiner_ips.take joiner_ids.length)
    rw [List.length_take, Nat.min_eq_left hjl] at this
    exact this
  rw [hm1, hips1] at hj
  obtain ⟨⟨dep, nur⟩, hdep⟩ := add_departed_total curr_view (restart_leave_ranks curr_view)
    ([], curr_view.next_unassigned_rank)
    (fun r hr => by
      have := ((mem_restart_leave_ranks curr_view r).mp hr).1
      omega)
  have hdep2 := add_departed_ok curr_view _ _ _ _ _ hdep
  rw [List.nil_append] at hdep2
  have hstay := filter_not_mem_restart_leave curr_view hfl
  obtain ⟨⟨nr, m, ips, f⟩, hcopy⟩ := copy_members_total curr_view (restart_leave_ranks curr_view)
    curr_view.num_members 0 0
    (List.replicate (restart_stay_ranks curr_view).length 0 ++ joiner_ids)
    (List.replicate (restart_stay_ranks curr_view).length ""
      ++ joiner_ips.take joiner_ids.length)
    (List.replicate ((restart_stay_ranks curr_view).length + joiner_ids.length) false)
    (by omega) (by omega) (by omega)
    (by rw [hn, hstay]; simp)
    (by rw [hn, hstay]; simp)
    (by rw [hn, hstay]; simp)
  obtain ⟨_, hm, hips2, hf⟩ := copy_members_ok curr_view _ _ _ _ _ _ _ _ _ _ _ hcopy
  rw [hn, hstay] at hm hips2 hf
  have hm2 : m = (restart_stay_ranks curr_view).map (fun r => curr_view.members.getD r 0)
      ++ joiner_ids := by
    rw [hm]
    exact write_at_zero_append _ _ _ (by simp)
  have hips3 : ips = (restart_stay_ranks curr_view).map (fun r => curr_view.member_ips.getD r "")
      ++ joiner_ips.take joiner_ids.length := by
    rw [hips2]
    exact write_at_zero_append _ _ _ (by simp)
  have hf2 : f = List.replicate ((restart_stay_ranks curr_view).length + joiner_ids.length)
      false := by
    rw [hf, List.replicate_add, write_at_zero_append _ _ _ (by simp),
      restart_stay_not_failed]
  have hmlen : m.length = (restart_stay_ranks curr_view).length + joiner_ids.length := by
    rw [hm2]
    simp
  have hmyget := vec_get_of_lt curr_view.members curr_view.my_rank 0 hmy
  obtain ⟨r, hfind⟩ := find_my_new_rank_total m (curr_view.members.getD curr_view.my_rank 0)
    ((restart_stay_ranks curr_view).length + joiner_ids.length) 0 (by omega)
  have hvid2 : next_vid curr_view.vid = .ok (curr_view.vid + 1) := by
    simp [next_vid, hvid]
  have hrun : make_next_view_restart curr_view joiner_ids joiner_ips =
      if r = -1 then .error (.thrown .recovery_leader_excluded)
      else .ok { View.make (curr_view.vid + 1) m ips f joiner_ids dep r.toNat nur with
                 i_know_i_am_leader := curr_view.i_know_i_am_leader } := by
    simp only [make_next_view_restart, hN, ok_bind, hL, hj, hdep, hcopy, hmyget, hfind, hvid2]
  have hmem : curr_view.members.getD curr_view.my_rank 0 ∈ m := by
    rw [hm2]
    exact List.mem_append_left _ (List.mem_map.mpr
      ⟨curr_view.my_rank, my_rank_restart_stays curr_view hmy hlive hfl, rfl⟩)
  rcases find_my_new_rank_ok m _ _ 0 r hfind with ⟨_, h2⟩ | ⟨j, h1, _, _, h4⟩
  · exfalso
    rw [List.mem_iff_getElem?] at hmem
    obtain ⟨j, hj2⟩ := hmem
    have hjlt := (List.getElem?_eq_some.mp hj2).1
    exact h2 j (Nat.zero_le _) (by omega) hj2
  · rw [hrun, if_neg (by omega)]
    refine ⟨_, rfl, hm2, hips3, ?_, hdep2, rfl, rfl, rfl, ?_, ?_⟩
    · show f = List.replicate m.length false
      rw [hf2, hmlen]
    · show ((f.count true : Nat) : Int) = 0
      rw [hf2, List.count_replicate]
      rfl
    · show m[r.toNat]? = curr_view.members[curr_view.my_rank]?
      rw [h1, Int.toNat_ofNat, h4, List.getD_eq_getElem _ _ hmy,
        List.getElem?_eq_getElem hmy]

/-- C17, witness: scenario E6. Members `[1,2,3,4,5]` with 4 and 5 failed and no
joiners give members `[1,2,3]`, failed `[f,f,f]`, departed `[4,5]` and view
id 5. -/
theorem make_next_view_restart_drops_failed_witness :
    make_next_view_restart E6_view [] []
      = .ok (View.make 5 [1, 2, 3] ["10.0.0.1", "10.0.0.2", "10.0.0.3"] [false, false, false]
              [] [4, 5] 0 0) ∧
    ∃ next_view, make_next_view_restart E6_view [] [] = .ok next_view ∧
      next_view.members = [1, 2, 3] ∧ next_view.failed = [false, false, false] ∧
      next_view.departed = [4, 5] ∧ next_view.joined = [] ∧ next_view.vid = 5 := by
  obtain ⟨next_view, h1, h2, _, h4, h5, h6, h7, _, _, _⟩ :=
    make_next_view_restart_drops_failed E6_view [] [] (by decide)
  refine ⟨rfl, next_view, h1, h2, ?_, h5, h6, h7⟩
  rw [h4, h2]
  rfl

/-- C16: the restart leader, node 1, is marked failed in the last known view of
the nodes 1 to 4, and the nodes 2 and 3 rejoin. The leader is in
`rejoined_node_ids` but has no entry in `waiting_join_sockets`, so the first
loop does not un-fail it: after the two loops `failed` is
`[true, false, false, true]`, rank 0 is failed although its member 1 has
rejoined, and `make_next_view` then throws because the leader is not in the
next view. -/
theorem restart_leader_stays_failed :
    update_curr_view failed_leader_view
        [(2, rejoined_socket "10.0.0.2"), (3, rejoined_socket "10.0.0.3")] [1, 2, 3]
      = .ok ({ failed_leader_view with failed := [true, false, false, true], num_failed := 2 },
             [], []) ∧
    failed_leader_view.members[0]? = some 1 ∧ 1 ∈ [1, 2, 3] ∧
    update_curr_and_next_restart_view failed_leader_view
        [(2, rejoined_socket "10.0.0.2"), (3, rejoined_socket "10.0.0.3")] [1, 2, 3]
      = .error (.thrown .recovery_leader_excluded) := by
  refine ⟨rfl, rfl, by decide, rfl⟩

theorem count_set_true (l : List Bool) :
    ∀ (q : Nat), l[q]? = some false → (l.set q true).count true = l.count true + 1 := by
  induction l with
  | nil =>
    intro q h
    simp at h
  | cons b bs ih =>
    intro q h
    cases q with
    | zero =>
      simp only [List.getElem?_cons_zero, Option.some.injEq] at h
      subst h
      simp
    | succ q =>
      simp only [List.getElem?_cons_succ] at h
      simp only [List.set_cons_succ, List.count_cons, ih q h]
      omega

theorem count_set_false (l : List Bool) :
    ∀ (q : Nat), l[q]? = some true → (l.set q false).count true + 1 = l.count true := by
  induction l with
  | nil =>
    intro q h
    simp at h
  | cons b bs ih =>
    intro q h
    cases q with
    | zero =>
      simp only [List.getElem?_cons_zero, Option.some.injEq] at h
      subst h
      simp
    | succ q =>
      simp only [List.getElem?_cons_succ] at h
      have := ih q h
      simp only [List.set_cons_succ, List.count_cons]
      omega

theorem new_suspicion_member_count (vm vm2 : ViewManager) (q : Nat)
    (hinv : failed_count_ok vm.curr_view) (h : new_suspicion_member vm q = .ok vm2) :
    failed_count_ok vm2.curr_view := by
  simp only [new_suspicion_member, bind_eq_ok] at h
  obtain ⟨s, _, h⟩ := h
  split at h
  · simp only [Except.ok.injEq] at h
    rw [← h]
    exact hinv
  · simp only [bind_eq_ok] at h
    obtain ⟨fq, hfq, h⟩ := h
    split at h
    · simp only [Except.ok.injEq] at h
      rw [← h]
      exact hinv
    · rename_i hnot
      simp only [bind_eq_ok] at h
      obtain ⟨ls, _, h⟩ := h
      split at h
      · exact absurd h (by simp)
      · simp only [bind_eq_ok] at h
        obtain ⟨w, _, f2, hf2, h⟩ := h
        split at h
        · exact absurd h (by simp)
        · rw [propose_failed_member_view _ _ _ h]
          rw [vec_set_eq_ok] at hf2
          rw [vec_get_eq_ok] at hfq
          have hfalse : fq = false := by
            cases fq with
            | false => rfl
            | true => exact absurd rfl hnot
          rw [hfalse] at hfq
          show vm.curr_view.num_failed + 1 = ((f2.count true : Nat) : Int)
          rw [hf2.2, count_set_true _ _ hfq, hinv]
          push_cast
          rfl

theorem new_suspicion_loop_count :
    ∀ (k q : Nat) (vm vm2 : ViewManager), failed_count_ok vm.curr_view →
      new_suspicion_loop q k vm = .ok vm2 → failed_count_ok vm2.curr_view := by
  intro k
  induction k with
  | zero =>
    intro q vm vm2 hinv h
    simp only [new_suspicion_loop, Except.ok.injEq] at h
    rw [← h]
    exact hinv
  | succ k ih =>
    intro q vm vm2 hinv h
    simp only [new_suspicion_loop, bind_eq_ok] at h
    obtain ⟨vm1, h1, h⟩ := h
    exact ih _ _ _ (new_suspicion_member_count _ _ _ hinv h1) h

theorem unfail_rejoined_count :
    ∀ (rest : List (node_id_t × Socket)) (v : View) (nodes : List node_id_t)
      (ips : List ip_addr) (r : View × List node_id_t × List ip_addr),
      failed_count_ok v → unfail_rejoined rest v nodes ips = .ok r →
      failed_count_ok r.1 := by
  intro rest
  induction rest with
  | nil =>
    intro v nodes ips r hinv h
    simp only [unfail_rejoined, Except.ok.injEq] at h
    rw [← h]
    exact hinv
  | cons p rest ih =>
    intro v nodes ips r hinv h
    obtain ⟨joiner_id, socket⟩ := p
    simp only [unfail_rejoined] at h
    split at h
    · exact ih _ _ _ _ hinv h
    · simp only [bind_eq_ok] at h
      obtain ⟨rank, _, f, hf, h⟩ := h
      split at h
      · rename_i htrue
        simp only [bind_eq_ok] at h
        obtain ⟨f2, hf2, h⟩ := h
        rw [vec_set_eq_ok] at hf2
        rw [vec_get_eq_ok, htrue] at hf
        have hc := count_set_false _ _ hf
        exact ih _ _ _ _ (by
          show v.num_failed - 1 = ((f2.count true : Nat) : Int)
          rw [hf2.2, hinv, ← hc]
          push_cast
          omega) h
      · exact ih _ _ _ _ hinv h

theorem mark_not_rejoined_count (rejoined : List node_id_t) :
    ∀ (k rank : Nat) (v v2 : View), failed_count_ok v →
      mark_not_rejoined rejoined rank k v = .ok v2 → failed_count_ok v2 := by
  intro k
  induction k with
  | zero =>
    intro rank v v2 hinv h
    simp only [mark_not_rejoined, Except.ok.injEq] at h
    rw [← h]
    exact hinv
  | succ k ih =>
    intro rank v v2 hinv h
    simp only [mark_not_rejoined, bind_eq_ok] at h
    obtain ⟨member, _, h⟩ := h
    split at h
    · simp only [bind_eq_ok] at h
      obtain ⟨f, hf, h⟩ := h
      split at h
      · rename_i hnot
        simp only [bind_eq_ok] at h
        obtain ⟨f2, hf2, h⟩ := h
        rw [vec_set_eq_ok] at hf2
        rw [vec_get_eq_ok] at hf
        have hfalse : f = false := by
          cases f with
          | false => rfl
          | true => exact absurd hnot (by decide)
        rw [hfalse] at hf
        exact ih _ _ _ (by
          show v.num_failed + 1 = ((f2.count true : Nat) : Int)
          rw [hf2.2, count_set_true _ _ hf, hinv]
          push_cast
          rfl) h
      · exact ih _ _ _ hinv h
    · exact ih _ _ _ hinv h

/-- C18: `num_failed = popcount(failed)` is kept by the operations that change
the `failed` vector of the current view. If it holds before `new_suspicion`, it
holds in the view manager that `new_suspicion` returns; if it holds before
`update_curr_and_next_restart_view`, it holds in the current view after the two
loops of that function, and in the updated current view and the next view that
the function returns. -/
theorem num_failed_stays_popcount (vm vm2 : ViewManager) (curr_view : View)
    (waiting_join_sockets : List (node_id_t × Socket)) (rejoined_node_ids : List node_id_t)
    (hvm : failed_count_ok vm.curr_view) (hview : failed_count_ok curr_view) :
    (new_suspicion vm = .ok vm2 → failed_count_ok vm2.curr_view) ∧
    (∀ updated, update_curr_view curr_view waiting_join_sockets rejoined_node_ids = .ok updated →
      failed_count_ok updated.1) ∧
    (∀ views, update_curr_and_next_restart_view curr_view waiting_join_sockets
        rejoined_node_ids = .ok views →
      failed_count_ok views.1 ∧ failed_count_ok views.2) := by
  have hupdate : ∀ updated,
      update_curr_view curr_view waiting_join_sockets rejoined_node_ids = .ok updated →
      failed_count_ok updated.1 := by
    intro updated h
    simp only [update_curr_view, bind_eq_ok] at h
    obtain ⟨⟨view1, nodes, ips⟩, h1, view2, h2, h⟩ := h
    simp only [Except.ok.injEq] at h
    rw [← h]
    exact mark_not_rejoined_count _ _ _ _ _ (unfail_rejoined_count _ _ _ _ _ hview h1) h2
  refine ⟨?_, hupdate, ?_⟩
  · intro h
    simp only [new_suspicion, bind_eq_ok] at h
    obtain ⟨suspected, _, h⟩ := h
    exact new_suspicion_loop_count _ _ _ _ (by exact hvm) h
  · intro views h
    simp only [update_curr_and_next_restart_view, bind_eq_ok] at h
    obtain ⟨⟨view2, nodes, ips⟩, h1, next_view, h2, h⟩ := h
    simp only [Except.ok.injEq] at h
    rw [← h]
    refine ⟨hupdate _ h1, ?_⟩
    simp only [make_next_view_restart, bind_eq_ok] at h2
    obtain ⟨N, _, L, _, ⟨m1, ips1⟩, _, ⟨dep, nur⟩, _, ⟨nr, m, ips2, f⟩, _, myID, _, r, _, h2⟩ := h2
    simp only at h2
    split at h2
    · exact absurd h2 (by simp)
    · simp only [bind_eq_ok] at h2
      obtain ⟨vid, _, h2⟩ := h2
      simp only [Except.ok.injEq] at h2
      rw [← h2]
      rfl

/-- C18, witness: in scenario E3 `new_suspicion` marks node 3 failed and counts
it; after the restart of scenario E6, node 4 (which was marked failed) has
rejoined and is un-failed and un-counted, node 5 stays failed and is not counted
again. -/
theorem num_failed_stays_popcount_witness :
    (new_suspicion E3_suspicion_vm).map
        (fun vm => (vm.curr_view.failed, vm.curr_view.num_failed))
      = .ok ([false, false, true], 1) ∧
    (update_curr_view E6_view
        [(2, rejoined_socket "10.0.0.2"), (3, rejoined_socket "10.0.0.3"),
         (4, rejoined_socket "10.0.0.4")] [1, 2, 3, 4]).map
        (fun updated => (updated.1.failed, updated.1.num_failed))
      = .ok ([false, false, false, false, true], 1) ∧
    failed_count_ok E3_suspicion_vm.curr_view ∧ failed_count_ok E6_view ∧
    ∃ vm2 updated, new_suspicion E3_suspicion_vm = .ok vm2 ∧ failed_count_ok vm2.curr_view ∧
      update_curr_view E6_view
        [(2, rejoined_socket "10.0.0.2"), (3, rejoined_socket "10.0.0.3"),
         (4, rejoined_socket "10.0.0.4")] [1, 2, 3, 4] = .ok updated ∧
      failed_count_ok updated.1 := by
  have hval1 : (new_suspicion E3_suspicion_vm).map
        (fun vm => (vm.curr_view.failed, vm.curr_view.num_failed))
      = .ok ([false, false, true], 1) := rfl
  have hval2 : (update_curr_view E6_view
        [(2, rejoined_socket "10.0.0.2"), (3, rejoined_socket "10.0.0.3"),
         (4, rejoined_socket "10.0.0.4")] [1, 2, 3, 4]).map
        (fun updated => (updated.1.failed, updated.1.num_failed))
      = .ok ([false, false, false, false, true], 1) := rfl
  refine ⟨hval1, hval2, by decide, by decide, ?_⟩
  cases h1 : new_suspicion E3_suspicion_vm with
  | error e =>
    rw [h1] at hval1
    cases hval1
  | ok vm2 =>
    cases h2 : update_curr_view E6_view
        [(2, rejoined_socket "10.0.0.2"), (3, rejoined_socket "10.0.0.3"),
         (4, rejoined_socket "10.0.0.4")] [1, 2, 3, 4] with
    | error e =>
      rw [h2] at hval2
      cases hval2
    | ok updated =>
      obtain ⟨h3, h4, _⟩ := num_failed_stays_popcount E3_suspicion_vm vm2 E6_view
        [(2, rejoined_socket "10.0.0.2"), (3, rejoined_socket "10.0.0.3"),
         (4, rejoined_socket "10.0.0.4")] [1, 2, 3, 4] (by decide) (by decide)
      exact ⟨vm2, updated, rfl, h3 h1, rfl, h4 updated h2⟩

/-! ## `ViewManager::report_failure` -/

theorem count_suspected_eq (sst : DerechoSST) (my_rank : Nat)
    (hrow : my_rank < sst.suspected.length) :
    ∀ (k r : Nat) (cnt : Int), r + k ≤ (sst.suspected.getD my_rank []).length →
      count_suspected sst my_rank r k cnt
        = .ok (r + k,
            cnt + ((((sst.suspected.getD my_rank []).drop r).take k).count true : Nat)) := by
  intro k
  induction k with
  | zero =>
    intro r cnt _
    simp [count_suspected]
  | succ k ih =>
    intro r cnt h
    have hr : r < (sst.suspected.getD my_rank []).length := by omega
    simp only [count_suspected, sst_get_of_lt sst.suspected my_rank r false hrow hr, ok_bind]
    rw [ih (r + 1) _ (by omega), List.drop_eq_getElem_cons hr, List.take_succ_cons,
      List.getD_eq_getElem _ _ hr]
    cases hb : (sst.suspected.getD my_rank [])[r] with
    | false =>
      simp only [Bool.false_eq_true, if_false, List.count_cons]
      congr 2
      · omega
    | true =>
      simp only [if_true, List.count_cons]
      congr 2
      · omega
      · simp
        omega

/-- C19: in the view of five nodes, with nobody suspected before, the report of
node 3 (rank 2) returns and sets `suspected[0][2]`, but its `put` starts at
column 5 of `suspected`, the value of `r` after the counting loop and one past
the last column of the row, not at column 2: the entry that was set is not the
one published. -/
theorem report_failure_puts_column_past_row :
    five_node_vm.curr_view.rank_of 3 = 2 ∧
    (five_node_vm.gmsSST.suspected.getD five_node_vm.curr_view.my_rank []).length = 5 ∧
    (report_failure five_node_vm 3).map
        (fun vm => (vm.gmsSST.suspected.getD vm.curr_view.my_rank [], vm.gmsSST.puts))
      = .ok ([false, false, true, false, false],
          [{ field := .suspected, column := 5, size := .entries 1 }]) := by
  refine ⟨rfl, rfl, rfl⟩

/-- What `report_failure(who)` does for every member `who` of the current view
with rank `r` (the local row of `suspected` exists and has column `r`); `row` is
the local row with entry `r` set. If `row` has at least `(num_members + 1) / 2`
set entries, the call throws the partitioning exception. Otherwise it returns:
the local row of `suspected` is `row`, so entry `r` is true and no other entry
has changed, the other rows and the view are unchanged, and one `put` has been
made, of the length of one entry of `suspected`, starting at column
`suspected.size()`, which is above `r`. -/
theorem report_failure_sets_bit_or_throws (vm : ViewManager) (who : node_id_t)
    (hwho : who ∈ vm.curr_view.members)
    (hrow : vm.curr_view.my_rank < vm.gmsSST.suspected.length)
    (hcol : vm.curr_view.members.indexOf who
      < (vm.gmsSST.suspected.getD vm.curr_view.my_rank []).length) :
    ((vm.curr_view.num_members + 1) / 2
        ≤ (((vm.gmsSST.suspected.getD vm.curr_view.my_rank []).set
            (vm.curr_view.members.indexOf who) true).count true) →
      report_failure vm who = .error (.thrown .potential_partition)) ∧
    ((((vm.gmsSST.suspected.getD vm.curr_view.my_rank []).set
          (vm.curr_view.members.indexOf who) true).count true)
        < (vm.curr_view.num_members + 1) / 2 →
      ∃ vm2, report_failure vm who = .ok vm2 ∧
        vm2.gmsSST.suspected = vm.gmsSST.suspected.set vm.curr_view.my_rank
          ((vm.gmsSST.suspected.getD vm.curr_view.my_rank []).set
            (vm.curr_view.members.indexOf who) true) ∧
        vm2.gmsSST.puts = vm.gmsSST.puts
          ++ [{ field := .suspected,
                column := (vm.gmsSST.suspected.getD vm.curr_view.my_rank []).length,
                size := .entries 1 }] ∧
        vm.curr_view.members.indexOf who
          < (vm.gmsSST.suspected.getD vm.curr_view.my_rank []).length ∧
        vm2.curr_view = vm.curr_view) := by
  have hset := sst_set_of_lt vm.gmsSST.suspected vm.curr_view.my_rank
    (vm.curr_view.members.indexOf who) true hrow hcol
  have hcount := count_suspected_eq
    { vm.gmsSST with suspected := (vm.gmsSST.suspected.set vm.curr_view.my_rank
        ((vm.gmsSST.suspected.getD vm.curr_view.my_rank []).set
          (vm.curr_view.members.indexOf who) true)) }
    vm.curr_view.my_rank (by show _ < (vm.gmsSST.suspected.set _ _).length
                             rw [List.length_set]; exact hrow)
    ((vm.gmsSST.suspected.getD vm.curr_view.my_rank []).set
      (vm.curr_view.members.indexOf who) true).length 0 0
    (by show _ ≤ ((vm.gmsSST.suspected.set _ _).getD _ []).length
        rw [getD_set_self _ _ _ hrow]; omega)
  have hrow2 : ((vm.gmsSST.suspected.set vm.curr_view.my_rank
      ((vm.gmsSST.suspected.getD vm.curr_view.my_rank []).set
        (vm.curr_view.members.indexOf who) true)).getD vm.curr_view.my_rank [])
      = (vm.gmsSST.suspected.getD vm.curr_view.my_rank []).set
        (vm.curr_view.members.indexOf who) true := getD_set_self _ _ _ hrow
  simp only [hrow2, List.drop_zero, List.take_length, Nat.zero_add, Int.zero_add] at hcount
  have hrun : report_failure vm who =
      if ((((vm.gmsSST.suspected.getD vm.curr_view.my_rank []).set
          (vm.curr_view.members.indexOf who) true).count true : Nat) : Int)
          ≥ (((vm.curr_view.num_members + 1) / 2 : Nat) : Int) then
        .error (.thrown .potential_partition)
      else
        .ok { vm with gmsSST := (({ vm.gmsSST with
                suspected := (vm.gmsSST.suspected.set vm.curr_view.my_rank
                  ((vm.gmsSST.suspected.getD vm.curr_view.my_rank []).set
                    (vm.curr_view.members.indexOf who) true)) }).put .suspected
                ((vm.gmsSST.suspected.getD vm.curr_view.my_rank []).set
                  (vm.curr_view.members.indexOf who) true).length (.entries 1)) } := by
    simp only [report_failure, to_index_rank_of_mem _ _ hwho, ok_bind, hset, hrow2, hcount]
  constructor
  · intro h
    rw [hrun, if_pos (by exact_mod_cast h)]
  · intro h
    rw [hrun, if_neg (by
      intro hge
      have : (vm.curr_view.num_members + 1) / 2
          ≤ ((vm.gmsSST.suspected.getD vm.curr_view.my_rank []).set
              (vm.curr_view.members.indexOf who) true).count true := by exact_mod_cast hge
      omega)]
    refine ⟨_, rfl, rfl, ?_, hcol, rfl⟩
    show vm.gmsSST.puts ++ [_] = _
    rw [List.length_set]

/-- In the view of five nodes the report of node 3 returns with the local row
`[f, f, t, f, f]` and one `put` at column 5; in the view of two nodes the report
of node 2 makes the local node suspect half of the members and throws. -/
theorem report_failure_sets_bit_or_throws_witness :
    (∃ vm2, report_failure five_node_vm 3 = .ok vm2 ∧
      vm2.gmsSST.suspected
        = [[false, false, true, false, false], [false, false, false, false, false],
           [false, false, false, false, false], [false, false, false, false, false],
           [false, false, false, false, false]] ∧
      vm2.gmsSST.puts = [{ field := .suspected, column := 5, size := .entries 1 }] ∧
      vm2.curr_view = five_node_vm.curr_view) ∧
    report_failure two_node_vm 2 = .error (.thrown .potential_partition) := by
  obtain ⟨vm2, h1, h2, h3, _, h5⟩ :=
    (report_failure_sets_bit_or_throws five_node_vm 3 (by decide) (by decide) (by decide)).2
      (by decide)
  exact ⟨⟨vm2, h1, by rw [h2]; rfl, by rw [h3]; rfl, h5⟩,
    (report_failure_sets_bit_or_throws two_node_vm 2 (by decide) (by decide) (by decide)).1
      (by decide)⟩

/-! ## The delta buffer of the cascade store -/

theorem smear_step (x y : Nat) (j : Nat)
    (h : ∀ i, y.testBit i = true ↔ ∃ d, d < 2 ^ j ∧ x.testBit (i + d) = true) :
    ∀ i, (y ||| y >>> 2 ^ j).testBit i = true
      ↔ ∃ d, d < 2 ^ (j + 1) ∧ x.testBit (i + d) = true := by
  intro i
  rw [Nat.testBit_or, Nat.testBit_shiftRight, Bool.or_eq_true, h, h]
  constructor
  · rintro (⟨d, hd, hx⟩ | ⟨d, hd, hx⟩)
    · exact ⟨d, by rw [Nat.pow_succ]; omega, hx⟩
    · refine ⟨2 ^ j + d, by rw [Nat.pow_succ]; omega, ?_⟩
      rw [← hx]
      congr 1
      omega
  · rintro ⟨d, hd, hx⟩
    rw [Nat.pow_succ] at hd
    by_cases hlt : d < 2 ^ j
    · exact Or.inl ⟨d, hlt, hx⟩
    · refine Or.inr ⟨d - 2 ^ j, by omega, ?_⟩
      rw [← hx]
      congr 1
      omega

theorem calibrate_loop_smears (x : Nat) :
    ∃ y, calibrate_loop 64 64 1 x = some y ∧
      ∀ i, y.testBit i = true ↔ ∃ d, d < 64 ∧ x.testBit (i + d) = true := by
  have h0 : ∀ i, x.testBit i = true ↔ ∃ d, d < 2 ^ 0 ∧ x.testBit (i + d) = true := by
    intro i
    constructor
    · intro h
      exact ⟨0, by decide, h⟩
    · rintro ⟨d, hd, hx⟩
      have : d = 0 := by
        simp only [Nat.pow_zero] at hd
        omega
      subst this
      exact hx
  have h1 := smear_step x _ 0 h0
  have h2 := smear_step x _ 1 h1
  have h3 := smear_step x _ 2 h2
  have h4 := smear_step x _ 3 h3
  have h5 := smear_step x _ 4 h4
  have h6 := smear_step x _ 5 h5
  exact ⟨_, rfl, h6⟩

theorem smear_eq_two_pow (x y t : Nat) (ht : x.testBit t = true)
    (hlast : ∀ j, t < j → x.testBit j = false) (ht64 : t < 64)
    (h : ∀ i, y.testBit i = true ↔ ∃ d, d < 64 ∧ x.testBit (i + d) = true) :
    y = 2 ^ (t + 1) - 1 := by
  apply Nat.eq_of_testBit_eq
  intro i
  rw [Nat.testBit_two_pow_sub_one]
  by_cases hi : i < t + 1
  · rw [decide_eq_true hi]
    exact (h i).mpr ⟨t - i, by omega, by rw [show i + (t - i) = t by omega]; exact ht⟩
  · rw [decide_eq_false hi]
    cases hy : y.testBit i with
    | false => rfl
    | true =>
      obtain ⟨d, _, hx⟩ := (h i).mp hy
      rw [hlast (i + d) (by omega)] at hx
      exact absurd hx (by decide)

/-- C20: let `dlen + 4` be below `2^63`. When the capacity is at least
`dlen + 4`, `calibrate(dlen)` returns and changes nothing. Otherwise there is a
power of two that is the smallest one that is at least `dlen + 4`: `calibrate`
asks `realloc` for that size, on success it returns with that capacity (and the
new address), on failure it throws. In both cases a returned buffer has a
capacity of at least `dlen + 4`, so that the following `set_data_len(dlen)`
passes its assertion and sets the length to `dlen + 4`. -/
theorem calibrate_rounds_up_to_power_of_two (realloc : Option Nat → Nat → Option Nat)
    (delta : _Delta) (dlen : Nat) (hdlen : dlen + 4 < 2 ^ 63) :
    (dlen + 4 ≤ delta.capacity → delta.calibrate realloc dlen = .ok delta) ∧
    (delta.capacity < dlen + 4 →
      ∃ k, dlen + 4 ≤ 2 ^ k ∧ (∀ j, dlen + 4 ≤ 2 ^ j → 2 ^ k ≤ 2 ^ j) ∧
        (∀ address, realloc delta.buffer (2 ^ k) = some address →
          delta.calibrate realloc dlen
            = .ok { delta with buffer := some address, capacity := 2 ^ k }) ∧
        (realloc delta.buffer (2 ^ k) = none →
          delta.calibrate realloc dlen = .error (.thrown .delta_allocation_failed))) ∧
    (∀ calibrated, delta.calibrate realloc dlen = .ok calibrated →
      dlen + 4 ≤ calibrated.capacity ∧
      calibrated.set_data_len dlen = .ok { calibrated with len := dlen + 4 }) := by
  have hmod : (dlen + 4) % 18446744073709551616 = dlen + 4 := by
    apply Nat.mod_eq_of_lt
    have : (2 : Nat) ^ 63 = 9223372036854775808 := by norm_num
    omega
  have h63 : (2 : Nat) ^ 63 = 9223372036854775808 := by norm_num
  have hdec : (dlen + 4 + 18446744073709551615) % 18446744073709551616 = dlen + 3 := by
    omega
  have hlarge : delta.capacity < dlen + 4 →
      ∃ k, dlen + 4 ≤ 2 ^ k ∧ (∀ j, dlen + 4 ≤ 2 ^ j → 2 ^ k ≤ 2 ^ j) ∧
        delta.calibrate realloc dlen =
          match realloc delta.buffer (2 ^ k) with
          | none => .error (.thrown .delta_allocation_failed)
          | some buffer => .ok { delta with buffer := some buffer, capacity := 2 ^ k } := by
    intro hcap
    obtain ⟨y, hy, hbits⟩ := calibrate_loop_smears (dlen + 3)
    obtain ⟨t, ht, hlast⟩ := Nat.exists_most_significant_bit (show dlen + 3 ≠ 0 by omega)
    have hge := Nat.testBit_implies_ge ht
    have hlt : dlen + 3 < 2 ^ (t + 1) :=
      Nat.lt_pow_two_of_testBit _ (fun i hi => hlast i (by omega))
    have ht63 : t < 63 := by
      by_contra hnot
      have := Nat.pow_le_pow_right (show 2 > 0 by decide) (Nat.le_of_not_lt hnot)
      omega
    have hy2 := smear_eq_two_pow _ _ _ ht hlast (by omega) hbits
    have hpos : 0 < 2 ^ (t + 1) := Nat.two_pow_pos _
    have hle : 2 ^ (t + 1) ≤ 2 ^ 63 := Nat.pow_le_pow_right (by decide) (by omega)
    have hinc : (y + 1) % 18446744073709551616 = 2 ^ (t + 1) := by
      rw [hy2, Nat.sub_add_cancel hpos]
      apply Nat.mod_eq_of_lt
      omega
    refine ⟨t + 1, by omega, ?_, ?_⟩
    · intro j hj
      apply Nat.pow_le_pow_right (by decide)
      by_contra hnot
      have := Nat.pow_le_pow_right (show 2 > 0 by decide) (show j ≤ t by omega)
      omega
    · simp only [_Delta.calibrate, hmod, hdec, hy, hinc]
      rw [if_neg (by omega)]
  refine ⟨?_, ?_, ?_⟩
  · intro hcap
    simp only [_Delta.calibrate, hmod]
    rw [if_pos hcap]
  · intro hcap
    obtain ⟨k, h1, h2, hrun⟩ := hlarge hcap
    refine ⟨k, h1, h2, ?_, ?_⟩
    · intro address hre
      rw [hrun, hre]
    · intro hre
      rw [hrun, hre]
  · intro calibrated hok
    have hcapacity : dlen + 4 ≤ calibrated.capacity := by
      by_cases hcap : dlen + 4 ≤ delta.capacity
      · simp only [_Delta.calibrate, hmod] at hok
        rw [if_pos hcap] at hok
        simp only [Except.ok.injEq] at hok
        rw [← hok]
        exact hcap
      · obtain ⟨k, h1, _, hrun⟩ := hlarge (by omega)
        rw [hrun] at hok
        cases hre : realloc delta.buffer (2 ^ k) with
        | none =>
          rw [hre] at hok
          exact absurd hok (by simp)
        | some address =>
          rw [hre] at hok
          simp only [Except.ok.injEq] at hok
          rw [← hok]
          exact h1
    refine ⟨hcapacity, ?_⟩
    simp only [_Delta.set_data_len, hmod]
    rw [if_pos hcapacity]

/-- C20, witness: an empty buffer calibrated for 13 data bytes gets the capacity
32, the smallest power of two that is at least 17; a buffer of capacity 32 is
left alone; `set_data_len(13)` then sets the length to 17. -/
theorem calibrate_rounds_up_to_power_of_two_witness :
    _Delta.calibrate scenario_realloc { buffer := none, capacity := 0, len := 0 } 13
      = .ok { buffer := some 4096, capacity := 32, len := 0 } ∧
    _Delta.calibrate scenario_realloc { buffer := some 4096, capacity := 32, len := 0 } 13
      = .ok { buffer := some 4096, capacity := 32, len := 0 } ∧
    13 + 4 ≤ 32 ∧
    _Delta.set_data_len { buffer := some 4096, capacity := 32, len := 0 } 13
      = .ok { buffer := some 4096, capacity := 32, len := 13 + 4 } :=
  ⟨rfl, rfl, by decide,
    ((calibrate_rounds_up_to_power_of_two scenario_realloc
      { buffer := none, capacity := 0, len := 0 } 13 (by norm_num)).2.2
      { buffer := some 4096, capacity := 32, len := 0 } rfl).2⟩

/-! ## Ragged-edge cleanup: order of the calls and bound of the decision -/

/-- C25: every run of `deliver_in_order` that returns has made exactly two
calls, in this order: `saveObject` of the ragged trim
`{subgroup_num, Vc.vid, id of the leader of the view, max_received_indices}`
under the name `RaggedTrim_<subgroup_num>`, then `deliver_messages_upto` with
the same vector `max_received_indices`, which is the leader's `global_min`
slice. With its accesses in range the function does return. -/
theorem deliver_in_order_saves_before_delivering (Vc : View) (gmsSST : DerechoSST)
    (shard_leader_rank : Nat) (subgroup_num : subgroup_id_t) (num_received_offset : Nat)
    (num_shard_senders : Nat) :
    (∀ effects,
      deliver_in_order Vc gmsSST shard_leader_rank subgroup_num num_received_offset
        num_shard_senders = .ok effects →
      ∃ leader_id max_received_indices,
        Vc.members[Vc.rank_of_leader.toNat]? = some leader_id ∧ 0 ≤ Vc.rank_of_leader ∧
        max_received_indices
          = slice gmsSST.global_min shard_leader_rank num_received_offset num_shard_senders ∧
        effects =
          [.save_object
             (RaggedTrim.mk subgroup_num Vc.vid leader_id max_received_indices)
             ("RaggedTrim_" ++ toString subgroup_num),
           .deliver_messages_upto max_received_indices subgroup_num num_shard_senders]) ∧
    (shard_leader_rank < gmsSST.global_min.length →
      num_received_offset + num_shard_senders
        ≤ (gmsSST.global_min.getD shard_leader_rank []).length →
      0 ≤ Vc.rank_of_leader → Vc.rank_of_leader.toNat < Vc.members.length →
      ∃ effects,
        deliver_in_order Vc gmsSST shard_leader_rank subgroup_num num_received_offset
          num_shard_senders = .ok effects) := by
  constructor
  · intro effects h
    simp only [deliver_in_order, bind_eq_ok] at h
    obtain ⟨v, hv, leader, hleader, leader_id, hid, h⟩ := h
    obtain ⟨h1, h2, _⟩ := read_max_received_ok gmsSST shard_leader_rank num_received_offset
      _ _ _ _ hv
    simp only [Nat.add_zero] at h1 h2
    have hv2 : v = slice gmsSST.global_min shard_leader_rank num_received_offset
        num_shard_senders := by
      rw [h1]
      have := write_at_replicate (0 : Int) 0
        (slice gmsSST.global_min shard_leader_rank num_received_offset num_shard_senders)
      rw [Nat.zero_add, h2] at this
      rw [this]
      rfl
    rw [to_index_eq_ok] at hleader
    rw [vec_get_eq_ok] at hid
    simp only [Except.ok.injEq] at h
    refine ⟨leader_id, v, ?_, by omega, hv2, h.symm⟩
    rw [hleader, Int.toNat_ofNat]
    exact hid
  · intro h1 h2 h3 h4
    exact deliver_in_order_total Vc gmsSST shard_leader_rank subgroup_num num_received_offset
      num_shard_senders h1 h2 h3 h4

/-- C25, witness: scenario E5 at the leader after the decision `[6,4,6]`. The
trim `{0, 5, 1, [6,4,6]}` is saved as `RaggedTrim_0`, then delivery up to
`[6,4,6]` is requested. -/
theorem deliver_in_order_saves_before_delivering_witness :
    deliver_in_order (E5_view 0)
        { E5_sst 0 with global_min := [[6, 4, 6], [0, 0, 0], [0, 0, 0]] } 0 0 0 3
      = .ok [.save_object (RaggedTrim.mk 0 5 1 [6, 4, 6]) "RaggedTrim_0",
             .deliver_messages_upto [6, 4, 6] 0 3] ∧
    ∃ effects,
      deliver_in_order (E5_view 0)
        { E5_sst 0 with global_min := [[6, 4, 6], [0, 0, 0], [0, 0, 0]] } 0 0 0 3
        = .ok effects :=
  ⟨rfl, (deliver_in_order_saves_before_delivering (E5_view 0)
    { E5_sst 0 with global_min := [[6, 4, 6], [0, 0, 0], [0, 0, 0]] } 0 0 0 3).2
    (by decide) (by decide) (by decide) (by decide)⟩

/-- C30: in the computed branch of `leader_ragged_edge_cleanup` (accesses in
range, no shard member has `global_min_ready` set) the function returns, and for
every sender `n` the decided `global_min[leader][offset + n]` is at most the
leader's own `num_received[leader][offset + n]` and at most
`num_received[r][offset + n]` of every shard member `r` that is not failed. The
vector handed to `deliver_messages_upto` is this decision. -/
theorem leader_decides_at_most_received (Vc : View) (gmsSST : DerechoSST)
    (subgroup_num : subgroup_id_t) (num_received_offset : Nat) (shard_members : List node_id_t)
    (num_shard_senders : Nat)
    (hin : ragged_inputs_ok Vc gmsSST subgroup_num num_received_offset shard_members
      num_shard_senders)
    (hnot : ∀ m ∈ shard_members,
      (gmsSST.global_min_ready.getD (Vc.members.indexOf m) []).getD subgroup_num false = false) :
    ∃ sst effects,
      leader_ragged_edge_cleanup Vc gmsSST subgroup_num num_received_offset shard_members
        num_shard_senders = .ok (sst, effects) ∧
      max_received_indices_of effects
        = [slice sst.global_min Vc.my_rank num_received_offset num_shard_senders] ∧
      ∀ n, n < num_shard_senders →
        ∃ v, sst_get sst.global_min Vc.my_rank (num_received_offset + n) = .ok v ∧
          (∃ own, sst_get gmsSST.num_received Vc.my_rank (num_received_offset + n) = .ok own ∧
            v ≤ own) ∧
          ∀ m ∈ shard_members, ∀ r : Nat, Vc.rank_of m = (r : Int) →
            Vc.failed[r]? = some false →
            ∃ x, sst_get gmsSST.num_received r (num_received_offset + n) = .ok x ∧ v ≤ x := by
  obtain ⟨hm, h1, h2, h3, h4, h5, h6, hl0, hl1⟩ := hin
  have hcopy := copy_ready_total_not_found Vc subgroup_num num_received_offset num_shard_senders
    gmsSST shard_members
    (fun m hmem => ⟨(hm m hmem).1, (hm m hmem).2.2.2.2.1, (hm m hmem).2.2.2.2.2⟩)
    (fun m hmem r hr => by
      obtain ⟨a, _, _, _, e, f⟩ := hm m hmem
      have hr2 : r = Vc.members.indexOf m := by
        rw [rank_of_mem Vc m a] at hr
        exact_mod_cast hr.symm
      rw [hr2, sst_get_of_lt _ _ _ false e f, hnot m hmem]
      simp)
  obtain ⟨sst2, hc, hlen, hrowlen⟩ := compute_global_min_total Vc num_received_offset
    shard_members num_shard_senders 0 gmsSST
    (fun m hmem => ⟨(hm m hmem).1, (hm m hmem).2.1, (hm m hmem).2.2.1, (hm m hmem).2.2.2.1⟩)
    h1 h2 h3 h4
  obtain ⟨_, e2, _, e4, _⟩ := compute_global_min_ok Vc num_received_offset shard_members
    num_shard_senders 0 gmsSST sst2 hc
  have hready := sst_set_of_lt sst2.global_min_ready Vc.my_rank subgroup_num true
    (by rw [e2]; exact h5) (by rw [e2]; exact h6)
  obtain ⟨effects, hd⟩ := deliver_in_order_total Vc
    (({ sst2 with global_min_ready := (sst2.global_min_ready.set Vc.my_rank
      ((sst2.global_min_ready.getD Vc.my_rank []).set subgroup_num true)) }).put .global_min
      num_received_offset (.entries num_shard_senders) |>.put .global_min_ready subgroup_num
      (.entries 1)) Vc.my_rank subgroup_num num_received_offset num_shard_senders
    (by show Vc.my_rank < sst2.global_min.length; omega)
    (by show _ ≤ (sst2.global_min.getD Vc.my_rank []).length; omega) hl0 hl1
  have hrun : leader_ragged_edge_cleanup Vc gmsSST subgroup_num num_received_offset
      shard_members num_shard_senders
      = .ok ((({ sst2 with global_min_ready := (sst2.global_min_ready.set Vc.my_rank
          ((sst2.global_min_ready.getD Vc.my_rank []).set subgroup_num true)) }).put
          .global_min num_received_offset (.entries num_shard_senders) |>.put
          .global_min_ready subgroup_num (.entries 1)), effects) := by
    simp only [leader_ragged_edge_cleanup, hcopy, ok_bind, Bool.not_false, if_true, hc, hready]
    rw [hd]
    rfl
  refine ⟨_, effects, hrun, leader_cleanup_effects _ _ _ _ _ _ _ _ hrun, ?_⟩
  intro n hn
  obtain ⟨v, hv, start, hs1, hs2, hs3, _⟩ := e4 n (Nat.zero_le _) (by omega)
  exact ⟨v, hv, ⟨start, hs1, hs2⟩, hs3⟩

/-- C30, witness: scenario E5. The leader decides `[6,4,6]`, which is at most
its own `[7,5,6]` and at most `[6,5,6]` and `[7,4,6]` of the followers. -/
theorem leader_decides_at_most_received_witness :
    (leader_ragged_edge_cleanup (E5_view 0) (E5_sst 0) 0 0 [1, 2, 3] 3).map
      (fun result => max_received_indices_of result.2) = .ok [[6, 4, 6]] ∧
    ∃ sst effects,
      leader_ragged_edge_cleanup (E5_view 0) (E5_sst 0) 0 0 [1, 2, 3] 3 = .ok (sst, effects) ∧
      ∀ n, n < 3 →
        ∃ v, sst_get sst.global_min (E5_view 0).my_rank (0 + n) = .ok v ∧
          (∃ own, sst_get (E5_sst 0).num_received (E5_view 0).my_rank (0 + n) = .ok own ∧
            v ≤ own) ∧
          ∀ m ∈ [1, 2, 3], ∀ r : Nat, (E5_view 0).rank_of m = (r : Int) →
            (E5_view 0).failed[r]? = some false →
            ∃ x, sst_get (E5_sst 0).num_received r (0 + n) = .ok x ∧ v ≤ x := by
  obtain ⟨sst, effects, h1, _, h3⟩ :=
    leader_decides_at_most_received (E5_view 0) (E5_sst 0) 0 0 [1, 2, 3] 3
      (by decide) (by decide)
  exact ⟨rfl, sst, effects, h1, h3⟩

/-! ## The aggregation step of `new_suspicion` -/

theorem getD_set_ne {α : Type} (l : List α) (i j : Nat) (a d : α) (h : i ≠ j) :
    (l.set i a).getD j d = l.getD j d := by
  simp [List.getD, List.getElem?_set, h]

theorem suspected_bit_set (s : List (List Bool)) (my who : Nat) (v : Bool)
    (hmy : my < s.length) (hwho : who < (s.getD my []).length) (r w : Nat) :
    suspected_bit (s.set my ((s.getD my []).set who v)) r w
      = if r = my ∧ w = who then v else suspected_bit s r w := by
  unfold suspected_bit
  by_cases hr : r = my
  · subst hr
    rw [getD_set_self _ _ _ hmy]
    by_cases hw : w = who
    · subst hw
      rw [getD_set_entry _ _ _ _ hwho, if_pos ⟨rfl, rfl⟩]
    · rw [getD_set_ne _ _ _ _ _ (Ne.symm hw), if_neg (fun h => hw h.2)]
  · rw [getD_set_other _ _ _ _ hr, if_neg (fun h => hr h.1)]

theorem length_row_set (s : List (List Bool)) (my who : Nat) (v : Bool) (hmy : my < s.length)
    (r : Nat) :
    ((s.set my ((s.getD my []).set who v)).getD r []).length = (s.getD r []).length := by
  by_cases hr : r = my
  · subst hr
    rw [getD_set_self _ _ _ hmy, List.length_set]
  · rw [getD_set_other _ _ _ _ hr]

theorem sst_get_bit (s : List (List Bool)) (r w : Nat) (hr : r < s.length)
    (hw : w < (s.getD r []).length) : sst_get s r w = .ok (suspected_bit s r w) :=
  sst_get_of_lt s r w false hr hw

theorem aggregate_row_spec (my r : Nat) :
    ∀ (k who : Nat) (s : List (List Bool)), my < s.length → r < s.length →
      who + k ≤ (s.getD my []).length → who + k ≤ (s.getD r []).length →
      ∃ s2, aggregate_row my r who k s = .ok s2 ∧ s2.length = s.length ∧
        (∀ row, (s2.getD row []).length = (s.getD row []).length) ∧
        ∀ row w, suspected_bit s2 row w
          = if row = my ∧ who ≤ w ∧ w < who + k
            then (suspected_bit s my w || suspected_bit s r w)
            else suspected_bit s row w := by
  intro k
  induction k with
  | zero =>
    intro who s _ _ _ _
    refine ⟨s, rfl, rfl, fun _ => rfl, ?_⟩
    intro row w
    rw [if_neg (by omega)]
  | succ k ih =>
    intro who s hmy hr h1 h2
    have hw1 : who < (s.getD my []).length := by omega
    have hw2 : who < (s.getD r []).length := by omega
    obtain ⟨s2, hs2, hlen, hrows, hbits⟩ := ih (who + 1)
      (s.set my ((s.getD my []).set who (suspected_bit s my who || suspected_bit s r who)))
      (by rw [List.length_set]; exact hmy) (by rw [List.length_set]; exact hr)
      (by rw [length_row_set _ _ _ _ hmy]; omega) (by rw [length_row_set _ _ _ _ hmy]; omega)
    refine ⟨s2, ?_, ?_, ?_, ?_⟩
    · simp only [aggregate_row, sst_get_bit s my who hmy hw1, ok_bind]
      cases hb : suspected_bit s my who with
      | true =>
        rw [hb] at hs2
        simp only [if_true, ok_bind, sst_set_of_lt s my who _ hmy hw1]
        exact hs2
      | false =>
        rw [hb] at hs2
        simp only [Bool.false_eq_true, if_false, sst_get_bit s r who hr hw2, ok_bind,
          sst_set_of_lt s my who _ hmy hw1]
        simpa using hs2
    · rw [hlen, List.length_set]
    · intro row
      rw [hrows, length_row_set _ _ _ _ hmy]
    · intro row w
      rw [hbits, suspected_bit_set _ _ _ _ hmy hw1, suspected_bit_set _ _ _ _ hmy hw1,
        suspected_bit_set _ _ _ _ hmy hw1]
      by_cases hrow : row = my
      · subst hrow
        by_cases hlt : w < who
        · rw [if_neg (by omega), if_neg (by omega), if_neg (by omega)]
        · by_cases heq : w = who
          · subst heq
            rw [if_neg (by omega), if_pos ⟨rfl, rfl⟩, if_pos (by omega)]
          · by_cases hin : w < who + 1 + k
            · rw [if_pos (by omega), if_neg (by omega), if_neg (by omega), if_pos (by omega)]
            · rw [if_neg (by omega), if_neg (by omega), if_neg (by omega)]
      · rw [if_neg (fun h => hrow h.1), if_neg (fun h => hrow h.1), if_neg (fun h => hrow h.1)]

theorem aggregate_suspicions_spec (my n : Nat) :
    ∀ (k r : Nat) (s : List (List Bool)), my < s.length → r + k ≤ s.length →
      n ≤ (s.getD my []).length →
      (∀ r2, r ≤ r2 → r2 < r + k → n ≤ (s.getD r2 []).length) →
      ∃ s2, aggregate_suspicions my n r k s = .ok s2 ∧
        (∀ row, row ≠ my → s2.getD row [] = s.getD row []) ∧
        (s2.getD my []).length = (s.getD my []).length ∧ s2.length = s.length ∧
        ∀ w, (suspected_bit s2 my w = true ↔
          suspected_bit s my w = true ∨
            (w < n ∧ ∃ r2, r ≤ r2 ∧ r2 < r + k ∧ suspected_bit s r2 w = true)) := by
  intro k
  induction k with
  | zero =>
    intro r s _ _ _ _
    refine ⟨s, rfl, fun _ _ => rfl, rfl, rfl, ?_⟩
    intro w
    constructor
    · intro h
      exact Or.inl h
    · rintro (h | ⟨_, r2, h1, h2, _⟩)
      · exact h
      · omega
  | succ k ih =>
    intro r s hmy hr hn hrows
    obtain ⟨s1, hs1, hlen1, hrows1, hbits1⟩ := aggregate_row_spec my r n 0 s hmy (by omega)
      (by omega) (by have := hrows r (Nat.le_refl _) (by omega); omega)
    obtain ⟨s2, hs2, hother, hmylen, hlen2, hbits2⟩ := ih (r + 1) s1 (by omega) (by omega)
      (by rw [hrows1]; exact hn)
      (fun r2 h1 h2 => by rw [hrows1]; exact hrows r2 (by omega) (by omega))
    have hs1other : ∀ row, row ≠ my → s1.getD row [] = s.getD row [] := by
      intro row hrow
      apply List.ext_getElem
      · exact hrows1 row
      · intro w h1 h2
        have := hbits1 row w
        rw [if_neg (fun h => hrow h.1)] at this
        unfold suspected_bit at this
        rw [List.getD_eq_getElem _ _ h1, List.getD_eq_getElem _ _ h2] at this
        exact this
    refine ⟨s2, ?_, ?_, ?_, ?_, ?_⟩
    · simp only [aggregate_suspicions, hs1, ok_bind]
      exact hs2
    · intro row hrow
      rw [hother row hrow, hs1other row hrow]
    · rw [hmylen, hrows1]
    · rw [hlen2, hlen1]
    · intro w
      rw [hbits2]
      have hmine : suspected_bit s1 my w
          = if w < n then (suspected_bit s my w || suspected_bit s r w)
            else suspected_bit s my w := by
        rw [hbits1]
        by_cases hw : w < n
        · rw [if_pos ⟨rfl, Nat.zero_le _, by omega⟩, if_pos hw]
        · rw [if_neg (by omega), if_neg hw]
      have hrest : ∀ r2, r2 ≠ my → suspected_bit s1 r2 w = suspected_bit s r2 w := by
        intro r2 hne
        rw [hbits1, if_neg (fun h => hne h.1)]
      constructor
      · rintro (h | ⟨hw, r2, h1, h2, h3⟩)
        · rw [hmine] at h
          by_cases hw : w < n
          · rw [if_pos hw, Bool.or_eq_true] at h
            rcases h with h | h
            · exact Or.inl h
            · exact Or.inr ⟨hw, r, Nat.le_refl _, by omega, h⟩
          · rw [if_neg hw] at h
            exact Or.inl h
        · by_cases hne : r2 = my
          · subst hne
            rw [hmine, if_pos hw, Bool.or_eq_true] at h3
            rcases h3 with h | h
            · exact Or.inl h
            · exact Or.inr ⟨hw, r, Nat.le_refl _, by omega, h⟩
          · rw [hrest r2 hne] at h3
            exact Or.inr ⟨hw, r2, by omega, by omega, h3⟩
      · rintro (h | ⟨hw, r2, h1, h2, h3⟩)
        · left
          rw [hmine]
          by_cases hw : w < n
          · rw [if_pos hw, h]
            rfl
          · rw [if_neg hw, h]
        · by_cases heq : r2 = r
          · subst heq
            left
            rw [hmine, if_pos hw, h3]
            simp
          · by_cases hne : r2 = my
            · subst hne
              left
              rw [hmine, if_pos hw, h3]
              rfl
            · right
              exact ⟨hw, r2, by omega, by omega, by rw [hrest r2 hne]; exact h3⟩

/-- C21: for a table of suspicions that fits the view, the aggregation step of
`new_suspicion` returns a table in which, for every member index `w`,
`suspected[my_rank][w]` is true exactly when `suspected[r][w]` was true for some
row `r` of the view (the local row is one of them) before the step. No bit of
the local row is cleared, the other rows are unchanged, and `new_suspicion`
continues with that table. -/
theorem aggregation_ors_all_rows (vm : ViewManager)
    (hok : suspicion_table_ok vm.curr_view.my_rank vm.curr_view.num_members
      vm.gmsSST.suspected) :
    ∃ suspected,
      aggregate_suspicions vm.curr_view.my_rank vm.curr_view.num_members 0
        vm.curr_view.num_members vm.gmsSST.suspected = .ok suspected ∧
      (∀ w, w < vm.curr_view.num_members →
        (sst_get suspected vm.curr_view.my_rank w = .ok true ↔
          ∃ r, r < vm.curr_view.num_members ∧ sst_get vm.gmsSST.suspected r w = .ok true)) ∧
      (∀ w, sst_get vm.gmsSST.suspected vm.curr_view.my_rank w = .ok true →
        sst_get suspected vm.curr_view.my_rank w = .ok true) ∧
      (∀ row, row ≠ vm.curr_view.my_rank →
        suspected.getD row [] = vm.gmsSST.suspected.getD row []) ∧
      new_suspicion vm = new_suspicion_loop 0 vm.curr_view.num_members
        { vm with gmsSST := { vm.gmsSST with suspected := suspected } } := by
  obtain ⟨hmy, hrowsn, hcols⟩ := hok
  obtain ⟨s2, hs2, hother, hmylen, hlen, hbits⟩ := aggregate_suspicions_spec
    vm.curr_view.my_rank vm.curr_view.num_members vm.curr_view.num_members 0
    vm.gmsSST.suspected (by omega) (by omega) (hcols _ hmy)
    (fun r2 _ h2 => hcols r2 (by omega))
  have hget : ∀ (s : List (List Bool)) (r w : Nat), r < s.length → w < (s.getD r []).length →
      (sst_get s r w = .ok true ↔ suspected_bit s r w = true) := by
    intro s r w h1 h2
    rw [sst_get_bit s r w h1 h2]
    simp
  refine ⟨s2, hs2, ?_, ?_, hother, ?_⟩
  · intro w hw
    have hcolmy := hcols _ hmy
    rw [hget s2 _ w (by omega) (by omega), hbits]
    constructor
    · rintro (h | ⟨_, r2, _, h2, h3⟩)
      · exact ⟨vm.curr_view.my_rank, hmy,
          (hget _ _ _ (by omega) (by omega)).mpr h⟩
      · have := hcols r2 (by omega)
        exact ⟨r2, by omega, (hget _ _ _ (by omega) (by omega)).mpr h3⟩
    · rintro ⟨r, hr, h⟩
      have := hcols r hr
      exact Or.inr ⟨hw, r, Nat.zero_le _, by omega,
        (hget _ _ _ (by omega) (by omega)).mp h⟩
  · intro w h
    obtain ⟨hw, hval⟩ := sst_get_ok_row false h
    rw [hget s2 _ w (by omega) (by omega), hbits]
    left
    exact hval.symm
  · simp only [new_suspicion, hs2, ok_bind]

/-- C21, witness: three nodes, local rank 0. Row 0 suspects nobody, row 1
suspects node 2 (index 1) and row 2 suspects node 3 (index 2); after the step
the local row is `[f, t, t]`. -/
theorem aggregation_ors_all_rows_witness :
    aggregate_suspicions 0 3 0 3
        [[false, false, false], [false, true, false], [false, false, true]]
      = .ok [[false, true, true], [false, true, false], [false, false, true]] ∧
    ∃ suspected,
      aggregate_suspicions 0 3 0 3
        [[false, false, false], [false, true, false], [false, false, true]] = .ok suspected ∧
      (∀ w, w < 3 →
        (sst_get suspected 0 w = .ok true ↔
          ∃ r, r < 3 ∧
            sst_get [[false, false, false], [false, true, false], [false, false, true]] r w
              = .ok true)) := by
  obtain ⟨suspected, h1, h2, _⟩ := aggregation_ors_all_rows
    { E3_suspicion_vm with
      gmsSST := { E3_suspicion_vm.gmsSST with
        suspected := [[false, false, false], [false, true, false], [false, false, true]] } }
    (by decide)
  exact ⟨rfl, suspected, h1, h2⟩

/-! ## "Leader initiated": the proposal of a failed member -/

theorem copy_entries_full {α : Type} (dst src : List α) (size : Nat) (hsrc : src.length = size)
    (hdst : dst.length = size) : copy_entries dst src size = .ok src := by
  unfold copy_entries
  rw [if_pos ⟨by omega, by omega⟩, ← hsrc, List.take_length, List.drop_of_length_le (by omega),
    List.append_nil]

/-- C23: with its accesses in range `acknowledge_proposed_change` returns. On a
follower (the local index is not the leader's rank) the local `num_changes`,
`changes[]`, `joiner_ips[]` and `num_committed` then equal the leader's, which
are unchanged, and `num_acked[me] = num_changes[me] = num_changes[leader]`. On
the leader only `num_acked[me]` is set among these, to its own `num_changes`.
In both cases the predicate `leader_proposed_change` is false on the resulting
state. -/
theorem acknowledge_echoes_leader (vm : ViewManager) (hok : ack_inputs_ok vm) :
    (vm.gmsSST.local_index ≠ vm.curr_view.rank_of_leader.toNat →
      ∃ vm2, acknowledge_proposed_change vm = .ok vm2 ∧
        vm2.gmsSST.num_changes
          = vm.gmsSST.num_changes.set vm.gmsSST.local_index
              (vm.gmsSST.num_changes.getD vm.curr_view.rank_of_leader.toNat 0) ∧
        vm2.gmsSST.changes
          = vm.gmsSST.changes.set vm.gmsSST.local_index
              (vm.gmsSST.changes.getD vm.curr_view.rank_of_leader.toNat []) ∧
        vm2.gmsSST.joiner_ips
          = vm.gmsSST.joiner_ips.set vm.gmsSST.local_index
              (vm.gmsSST.joiner_ips.getD vm.curr_view.rank_of_leader.toNat []) ∧
        vm2.gmsSST.num_committed
          = vm.gmsSST.num_committed.set vm.gmsSST.local_index
              (vm.gmsSST.num_committed.getD vm.curr_view.rank_of_leader.toNat 0) ∧
        vm2.gmsSST.num_acked
          = vm.gmsSST.num_acked.set vm.gmsSST.local_index
              (vm.gmsSST.num_changes.getD vm.curr_view.rank_of_leader.toNat 0) ∧
        vm2.gmsSST.num_changes.getD vm.gmsSST.local_index 0
          = vm2.gmsSST.num_changes.getD vm.curr_view.rank_of_leader.toNat 0 ∧
        vm2.gmsSST.changes.getD vm.gmsSST.local_index []
          = vm2.gmsSST.changes.getD vm.curr_view.rank_of_leader.toNat [] ∧
        vm2.gmsSST.joiner_ips.getD vm.gmsSST.local_index []
          = vm2.gmsSST.joiner_ips.getD vm.curr_view.rank_of_leader.toNat [] ∧
        vm2.gmsSST.num_committed.getD vm.gmsSST.local_index 0
          = vm2.gmsSST.num_committed.getD vm.curr_view.rank_of_leader.toNat 0 ∧
        vm2.gmsSST.num_acked.getD vm.gmsSST.local_index 0
          = vm2.gmsSST.num_changes.getD vm.gmsSST.local_index 0 ∧
        leader_proposed_change vm2 = .ok false) ∧
    (vm.gmsSST.local_index = vm.curr_view.rank_of_leader.toNat →
      ∃ vm2, acknowledge_proposed_change vm = .ok vm2 ∧
        vm2.gmsSST.num_changes = vm.gmsSST.num_changes ∧
        vm2.gmsSST.changes = vm.gmsSST.changes ∧
        vm2.gmsSST.joiner_ips = vm.gmsSST.joiner_ips ∧
        vm2.gmsSST.num_committed = vm.gmsSST.num_committed ∧
        vm2.gmsSST.num_acked
          = vm.gmsSST.num_acked.set vm.gmsSST.local_index
              (vm.gmsSST.num_changes.getD vm.gmsSST.local_index 0) ∧
        leader_proposed_change vm2 = .ok false) := by
  obtain ⟨hl0, hl1, hl2, hl3, hl4, hm1, hm2, hm3, hm4, hm5, hc1, hc2, hj1, hj2, hw⟩ := hok
  have hleader : to_index vm.curr_view.rank_of_leader = .ok vm.curr_view.rank_of_leader.toNat := by
    rw [to_index_eq_ok]
    omega
  constructor
  · intro hne
    have hrun : acknowledge_proposed_change vm = .ok
        { vm with
          multicast_wedged := true,
          gmsSST := ((({ vm.gmsSST with
            num_changes := (vm.gmsSST.num_changes.set vm.gmsSST.local_index
              (vm.gmsSST.num_changes.getD vm.curr_view.rank_of_leader.toNat 0)),
            changes := (vm.gmsSST.changes.set vm.gmsSST.local_index
              (vm.gmsSST.changes.getD vm.curr_view.rank_of_leader.toNat [])),
            joiner_ips := (vm.gmsSST.joiner_ips.set vm.gmsSST.local_index
              (vm.gmsSST.joiner_ips.getD vm.curr_view.rank_of_leader.toNat [])),
            num_committed := (vm.gmsSST.num_committed.set vm.gmsSST.local_index
              (vm.gmsSST.num_committed.getD vm.curr_view.rank_of_leader.toNat 0)),
            num_acked := (vm.gmsSST.num_acked.set vm.gmsSST.local_index
              (vm.gmsSST.num_changes.getD vm.curr_view.rank_of_leader.toNat 0)),
            wedged := (vm.gmsSST.wedged.set vm.curr_view.my_rank true) }).put .changes 0
              (.up_to .num_received)).put .wedged 0 (.entries 1)) } := by
      simp only [acknowledge_proposed_change, hleader, ok_bind, ne_eq, hne, not_false_eq_true,
        if_true, vec_get_of_lt vm.gmsSST.num_changes _ 0 hl1,
        vec_set_of_lt vm.gmsSST.num_changes _ _ hm1,
        vec_get_of_lt vm.gmsSST.changes _ [] hl3, vec_get_of_lt vm.gmsSST.changes _ [] hm4,
        copy_entries_full _ _ _ hc1 hc2, vec_set_of_lt vm.gmsSST.changes _ _ hm4,
        vec_get_of_lt vm.gmsSST.joiner_ips _ [] hl4, vec_get_of_lt vm.gmsSST.joiner_ips _ [] hm5,
        copy_entries_full _ _ _ hj1 hj2, vec_set_of_lt vm.gmsSST.joiner_ips _ _ hm5,
        vec_get_of_lt vm.gmsSST.num_committed _ 0 hl2,
        vec_set_of_lt vm.gmsSST.num_committed _ _ hm2]
      rw [vec_get_of_lt _ _ 0 (by rw [List.length_set]; exact hm1), ok_bind,
        getD_set_entry _ _ _ _ hm1, vec_set_of_lt _ _ _ hm3, ok_bind]
      simp only [ViewManager.wedge, DerechoSST.put]
      rw [vec_set_of_lt _ _ _ hw]
      rfl
    have hother : ∀ (l : List Int) (x : Int) (h : vm.gmsSST.local_index < l.length),
        (l.set vm.gmsSST.local_index x).getD vm.curr_view.rank_of_leader.toNat 0
          = l.getD vm.curr_view.rank_of_leader.toNat 0 :=
      fun l x _ => getD_set_ne l _ _ x 0 hne
    refine ⟨_, hrun, rfl, rfl, rfl, rfl, rfl, ?_, ?_, ?_, ?_, ?_, ?_⟩
    · show (vm.gmsSST.num_changes.set _ _).getD _ 0 = (vm.gmsSST.num_changes.set _ _).getD _ 0
      rw [getD_set_entry _ _ _ _ hm1, hother _ _ hm1]
    · show (vm.gmsSST.changes.set _ _).getD _ [] = (vm.gmsSST.changes.set _ _).getD _ []
      rw [getD_set_self _ _ _ hm4, getD_set_other _ _ _ _ (Ne.symm hne)]
    · show (vm.gmsSST.joiner_ips.set _ _).getD _ [] = (vm.gmsSST.joiner_ips.set _ _).getD _ []
      rw [getD_set_self _ _ _ hm5, getD_set_other _ _ _ _ (Ne.symm hne)]
    · show (vm.gmsSST.num_committed.set _ _).getD _ 0
        = (vm.gmsSST.num_committed.set _ _).getD _ 0
      rw [getD_set_entry _ _ _ _ hm2, hother _ _ hm2]
    · show (vm.gmsSST.num_acked.set _ _).getD _ 0 = (vm.gmsSST.num_changes.set _ _).getD _ 0
      rw [getD_set_entry _ _ _ _ hm3, getD_set_entry _ _ _ _ hm1]
    · show leader_proposed_change _ = .ok false
      simp only [leader_proposed_change, hleader, ok_bind, DerechoSST.put]
      rw [vec_get_of_lt _ _ 0 (by rw [List.length_set]; exact hl1), ok_bind,
        vec_get_of_lt _ _ 0 (by rw [List.length_set]; exact hm3), ok_bind,
        hother _ _ hm1, getD_set_entry _ _ _ _ hm3]
      simp
  · intro heq
    have hrun : acknowledge_proposed_change vm = .ok
        { vm with
          multicast_wedged := true,
          gmsSST := ((({ vm.gmsSST with
            num_acked := (vm.gmsSST.num_acked.set vm.gmsSST.local_index
              (vm.gmsSST.num_changes.getD vm.gmsSST.local_index 0)),
            wedged := (vm.gmsSST.wedged.set vm.curr_view.my_rank true) }).put .changes 0
              (.up_to .num_received)).put .wedged 0 (.entries 1)) } := by
      simp only [acknowledge_proposed_change, hleader, ok_bind, ne_eq, heq, not_true_eq_false,
        if_false]
      rw [← heq, vec_get_of_lt _ _ 0 hm1, ok_bind, vec_set_of_lt _ _ _ hm3, ok_bind]
      simp only [ViewManager.wedge, DerechoSST.put]
      rw [vec_set_of_lt _ _ _ hw]
      rfl
    refine ⟨_, hrun, rfl, rfl, rfl, rfl, rfl, ?_⟩
    show leader_proposed_change _ = .ok false
    simp only [leader_proposed_change, hleader, ok_bind, DerechoSST.put]
    rw [← heq, vec_get_of_lt _ _ 0 hm1, ok_bind,
      vec_get_of_lt _ _ 0 (by rw [List.length_set]; exact hm3), ok_bind,
      getD_set_entry _ _ _ _ hm3]
    simp

/-- C23, witness: the leader (rank 0) has proposed the join of node 4. The
follower of rank 1 echoes the leader's row and acknowledges one change, after
which the predicate is false; the leader acknowledges its own change. -/
theorem acknowledge_echoes_leader_witness :
    leader_proposed_change (proposed_change_vm 1) = .ok true ∧
    (∃ vm2, acknowledge_proposed_change (proposed_change_vm 1) = .ok vm2 ∧
      vm2.gmsSST.num_changes = [1, 1, 0] ∧
      vm2.gmsSST.changes = [[4, 0, 0, 0, 0], [4, 0, 0, 0, 0], [0, 0, 0, 0, 0]] ∧
      vm2.gmsSST.num_acked = [0, 1, 0] ∧
      leader_proposed_change vm2 = .ok false) ∧
    (acknowledge_proposed_change (proposed_change_vm 0)).map (fun vm => vm.gmsSST.num_acked)
      = .ok [1, 0, 0] := by
  obtain ⟨vm2, h1, h2, h3, _, _, h6, _, _, _, _, _, h12⟩ :=
    (acknowledge_echoes_leader (proposed_change_vm 1) (by decide)).1 (by decide)
  exact ⟨rfl, ⟨vm2, h1, by rw [h2]; rfl, by rw [h3]; rfl, by rw [h6]; rfl, h12⟩, rfl⟩

/-! ## A join that is accepted -/

theorem length_leave_ranks_of (v : View) (cs : List node_id_t)
    (hnd : (cs.filter (fun c => decide (c ∈ v.members))).Nodup) :
    (leave_ranks_of v cs).length = (cs.filter (fun c => decide (c ∈ v.members))).length := by
  have hperm : (leave_ranks_of v cs).Perm
      ((cs.filter (fun c => decide (c ∈ v.members))).map (fun c => v.members.indexOf c)) := by
    rw [List.perm_ext_iff_of_nodup]
    · intro r
      unfold leave_ranks_of
      rw [List.mem_filter, List.mem_range, List.mem_map]
      simp only [List.any_eq_true, decide_eq_true_eq, List.mem_filter]
      constructor
      · rintro ⟨_, c, hc, hrank⟩
        rcases rank_of_cases v c with ⟨_, h2⟩ | ⟨h1, h2, _⟩
        · omega
        · exact ⟨c, ⟨hc, h1⟩, by omega⟩
      · rintro ⟨c, ⟨hc, hmem⟩, hidx⟩
        rcases rank_of_cases v c with ⟨h1, _⟩ | ⟨_, h2, h3⟩
        · exact absurd hmem h1
        · exact ⟨by omega, c, hc, by omega⟩
    · unfold leave_ranks_of
      exact List.Nodup.filter _ (List.nodup_range _)
    · apply List.Nodup.map_on _ hnd
      intro a ha b hb hab
      have ha2 := (List.mem_filter.mp ha).2
      have hb2 := (List.mem_filter.mp hb).2
      simp only [decide_eq_true_eq] at ha2 hb2
      exact (List.indexOf_inj ha2 hb2).mp hab
  rw [hperm.length_eq, List.length_map]

theorem length_join_indexes_of (v : View) (cs : List node_id_t) :
    (join_indexes_of v cs).length = (cs.filter (fun c => decide (c ∉ v.members))).length := by
  rw [← join_ids_eq_filter, List.length_map]

theorem length_filter_mem_add (members cs : List node_id_t) :
    (cs.filter (fun c => decide (c ∉ members))).length
      + (cs.filter (fun c => decide (c ∈ members))).length = cs.length := by
  induction cs with
  | nil => rfl
  | cons c cs ih =>
    by_cases h : c ∈ members
    · rw [List.filter_cons_of_neg (by simpa using h), List.filter_cons_of_pos (by simpa using h),
        List.length_cons, List.length_cons]
      omega
    · rw [List.filter_cons_of_pos (by simpa using h), List.filter_cons_of_neg (by simpa using h),
        List.length_cons, List.length_cons]
      omega

/-- C28: let `num_members` be the number of members, let the leader's
`num_committed` be at least its `num_installed`, and let the committed part of
`changes[]` name no current member more than once. Then every view returned by
`make_next_view` has `|joined| + |departed| = num_committed[leader] −
num_installed[leader]`: the count `changes_installed` of
`transition_multicast_group` is the number of committed changes. -/
theorem changes_installed_eq_committed (inet_ntoa : Nat → ip_addr) (curr_view : View)
    (gmsSST : DerechoSST) (next_view : View)
    (hn : curr_view.num_members = curr_view.members.length)
    (hpos : gmsSST.num_installed.getD curr_view.rank_of_leader.toNat 0
      ≤ gmsSST.num_committed.getD curr_view.rank_of_leader.toNat 0)
    (hnodup : ((committed_changes curr_view gmsSST).filter
      (fun c => decide (c ∈ curr_view.members))).Nodup)
    (h : make_next_view inet_ntoa curr_view gmsSST = .ok next_view) :
    changes_installed next_view
      = gmsSST.num_committed.getD curr_view.rank_of_leader.toNat 0
        - gmsSST.num_installed.getD curr_view.rank_of_leader.toNat 0 := by
  obtain ⟨_, _, _, hjoined, hdeparted, _⟩ :=
    make_next_view_shape inet_ntoa curr_view gmsSST next_view hn h
  have hlen : (committed_changes curr_view gmsSST).length = committed_count curr_view gmsSST := by
    simp only [make_next_view, bind_eq_ok] at h
    obtain ⟨leader, hleader, committed, hc, installed, hi, ⟨L, J⟩, hfilter, _⟩ := h
    have hcc := committed_changes_eq curr_view gmsSST leader committed installed hleader hc hi
    obtain ⟨_, _, hl⟩ := filter_changes_spec curr_view gmsSST _ L J hfilter
    rw [← hcc] at hl
    exact hl
  have hsum := length_filter_mem_add curr_view.members (committed_changes curr_view gmsSST)
  unfold changes_installed
  rw [hjoined, hdeparted, List.length_map, List.length_map, length_join_indexes_of,
    length_leave_ranks_of _ _ hnodup]
  have hcount : ((committed_count curr_view gmsSST : Nat) : Int)
      = gmsSST.num_committed.getD curr_view.rank_of_leader.toNat 0
        - gmsSST.num_installed.getD curr_view.rank_of_leader.toNat 0 := by
    unfold committed_count
    omega
  rw [← hcount, ← hlen]
  omega

/-- C28, witness: scenario E1 (one committed join, nothing installed) gives
`changes_installed = 1`, and scenario E3 (one committed removal) gives 1. -/
theorem changes_installed_eq_committed_witness :
    (make_next_view scenario_ntoa E1_view E1_sst).map changes_installed = .ok 1 ∧
    (make_next_view scenario_ntoa E3_view E3_sst).map changes_installed = .ok 1 ∧
    ∀ next_view, make_next_view scenario_ntoa E1_view E1_sst = .ok next_view →
      changes_installed next_view = 1 - 0 :=
  ⟨rfl, rfl, fun next_view h =>
    changes_installed_eq_committed scenario_ntoa E1_view E1_sst next_view (by decide)
      (by decide) (by decide) h⟩

/-! ## Heartbeats with the waiting joiners -/

/-- C26: the restart leader 1 is ready to restart with the joiners 2 and 3
waiting, and the exchange with node 2 fails. The socket of node 2 is removed,
but the id erased from `rejoined_node_ids` is 3, the key of the entry behind
the erased one: node 2 stays in the set and node 3, whose socket is still
waiting, is dropped from it. When the exchange with the last waiting joiner
fails, the key is read at the end of the map. -/
theorem failed_heartbeat_erases_next_id :
    heartbeat_rejoined (scenario_exchange [2]) 1
        { waiting_join_sockets := [(2, scenario_client "10.0.0.2" 2),
                                   (3, scenario_client "10.0.0.3" 3)],
          rejoined_node_ids := [1, 2, 3], ready_to_restart := true, last_checked_joiner := 0 }
      = .ok { waiting_join_sockets := [(3, scenario_client "10.0.0.3" 3)],
              rejoined_node_ids := [1, 2], ready_to_restart := false,
              last_checked_joiner := 2 } ∧
    heartbeat_rejoined (scenario_exchange [3]) 1
        { waiting_join_sockets := [(2, scenario_client "10.0.0.2" 2),
                                   (3, scenario_client "10.0.0.3" 3)],
          rejoined_node_ids := [1, 2, 3], ready_to_restart := true, last_checked_joiner := 0 }
      = .error .out_of_range ∧
    heartbeat_rejoined (scenario_exchange []) 1
        { waiting_join_sockets := [(2, scenario_client "10.0.0.2" 2),
                                   (3, scenario_client "10.0.0.3" 3)],
          rejoined_node_ids := [1, 2, 3], ready_to_restart := true, last_checked_joiner := 0 }
      = .ok { waiting_join_sockets := [(2, scenario_client "10.0.0.2" 2),
                                       (3, scenario_client "10.0.0.3" 3)],
              rejoined_node_ids := [1, 2, 3], ready_to_restart := true,
              last_checked_joiner := 3 } := by
  refine ⟨rfl, rfl, rfl⟩

/-- C27: the nodes 2 and 3 have connected from the same address `10.0.0.2`, and
the exchange with node 3 fails (its id has arrived). The rebuilt view has view
id 0, members `[1, 2]` and joined `[2]`, but `member_ips` is
`["10.0.0.1", ""]`: both entries with the address of node 3 were removed, and
the address of node 2 is lost. With distinct addresses the three vectors are
the previous ones without the entry of node 3. When the exchange fails before
an id has arrived, `joiner_id` is 0, no member is removed and the copy of three
members runs over the end of a vector of two. -/
theorem rebuilt_view_loses_shared_address :
    (check_first_joiners (scenario_exchange [3]) first_view_subgroup_maps 1 []
        [scenario_client "10.0.0.2" 2, scenario_client "10.0.0.2" 3]
        (candidate_view "10.0.0.2" "10.0.0.2") 0).map
        (fun state => (state.curr_view.vid, state.curr_view.members,
          state.curr_view.member_ips, state.curr_view.joined))
      = .ok (0, [1, 2], ["10.0.0.1", ""], [2]) ∧
    (check_first_joiners (scenario_exchange [3]) first_view_subgroup_maps 1 []
        [scenario_client "10.0.0.2" 2, scenario_client "10.0.0.3" 3]
        (candidate_view "10.0.0.2" "10.0.0.3") 0).map
        (fun state => (state.curr_view.vid, state.curr_view.members,
          state.curr_view.member_ips, state.curr_view.joined))
      = .ok (0, [1, 2], ["10.0.0.1", "10.0.0.2"], [2]) ∧
    check_first_joiners silent_exchange first_view_subgroup_maps 1 []
        [scenario_client "10.0.0.2" 2, scenario_client "10.0.0.3" 3]
        (candidate_view "10.0.0.2" "10.0.0.3") 0
      = .error .out_of_range := by
  refine ⟨rfl, rfl, rfl⟩

/-! ## The subgroup layout -/

theorem mem_map_assign {β : Type} (m : List (Nat × β)) (key : Nat) (value : β) (p : Nat × β)
    (h : p ∈ map_assign m key value) : p ∈ m ∨ p = (key, value) := by
  induction m with
  | nil =>
    simp only [map_assign, List.mem_singleton] at h
    exact Or.inr h
  | cons kv rest ih =>
    obtain ⟨k, v⟩ := kv
    unfold map_assign at h
    split at h
    · rcases List.mem_cons.mp h with h1 | h1
      · exact Or.inr h1
      · exact Or.inl h1
    · split at h
      · rename_i hkey
        rcases List.mem_cons.mp h with h1 | h1
        · exact Or.inr (by rw [h1, hkey])
        · exact Or.inl (List.mem_cons_of_mem _ h1)
      · rcases List.mem_cons.mp h with h1 | h1
        · exact Or.inl (h1 ▸ List.mem_cons_self _ _)
        · rcases ih h1 with h2 | h2
          · exact Or.inl (List.mem_cons_of_mem _ h2)
          · exact Or.inr h2

theorem update_max_shard_senders_congr (m : Nat) (a b : SubView)
    (hm : a.members = b.members) (hs : a.is_sender = b.is_sender) :
    update_max_shard_senders m a = update_max_shard_senders m b := by
  unfold update_max_shard_senders SubView.num_senders
  rw [hm, hs]

theorem update_max_shard_senders_ge (m : Nat) (shard : SubView)
    (h1 : shard.num_senders ≤ shard.members.length) (h2 : shard.members.length < 4294967296) :
    m ≤ update_max_shard_senders m shard ∧
    shard.num_senders ≤ update_max_shard_senders m shard := by
  unfold update_max_shard_senders
  split
  · rw [Nat.mod_eq_of_lt h2]
    omega
  · omega

theorem foldl_update_max_ge :
    ∀ (shards : List SubView) (m : Nat),
      (∀ shard ∈ shards,
        shard.num_senders ≤ shard.members.length ∧ shard.members.length < 4294967296) →
      m ≤ shards.foldl update_max_shard_senders m ∧
      ∀ shard ∈ shards, shard.num_senders ≤ shards.foldl update_max_shard_senders m := by
  intro shards
  induction shards with
  | nil =>
    intro m _
    exact ⟨Nat.le_refl _, fun _ h => absurd h (List.not_mem_nil _)⟩
  | cons x xs ih =>
    intro m h
    obtain ⟨hx1, hx2⟩ := h x (List.mem_cons_self _ _)
    obtain ⟨g1, g2⟩ := update_max_shard_senders_ge m x hx1 hx2
    obtain ⟨i1, i2⟩ := ih (update_max_shard_senders m x)
      (fun s hs => h s (List.mem_cons_of_mem _ hs))
    rw [List.foldl_cons]
    refine ⟨by omega, ?_⟩
    intro shard hshard
    rcases List.mem_cons.mp hshard with rfl | hmem
    · omega
    · exact i2 shard hmem

theorem offset_of_append_le (layout : List (List SubView)) (shards : List SubView) (g : Nat)
    (h : g ≤ layout.length) : offset_of (layout ++ [shards]) g = offset_of layout g := by
  unfold offset_of
  rw [List.take_append_of_le_length h]

theorem offset_of_append_succ (layout : List (List SubView)) (shards : List SubView) :
    offset_of (layout ++ [shards]) (layout.length + 1)
      = (offset_of layout layout.length + subgroup_width shards) % 4294967296 := by
  unfold offset_of
  rw [List.take_length, show layout.length + 1 = (layout ++ [shards]).length by simp,
    List.take_length, List.foldl_append]
  rfl

theorem getD_append_lt {α : Type} (l : List (List α)) (x : List α) (g : Nat)
    (h : g < l.length) : (l ++ [x]).getD g [] = l.getD g [] := by
  rw [List.getD_eq_getElem?_getD, List.getD_eq_getElem?_getD, List.getElem?_append_left h]

theorem getD_append_length {α : Type} (l : List (List α)) (x : List α) :
    (l ++ [x]).getD l.length [] = x := by
  rw [List.getD_eq_getElem?_getD, List.getElem?_append_right (Nat.le_refl _)]
  simp

theorem foldl_offset_eq_sum :
    ∀ (layout : List (List SubView)) (start : Nat),
      start + (layout.map subgroup_width).sum < 4294967296 →
      layout.foldl (fun num_received_offset shards =>
          (num_received_offset + subgroup_width shards) % 4294967296) start
        = start + (layout.map subgroup_width).sum := by
  intro layout
  induction layout with
  | nil =>
    intro start _
    rfl
  | cons x xs ih =>
    intro start h
    rw [List.map_cons, List.sum_cons] at h
    rw [List.foldl_cons, Nat.mod_eq_of_lt (by omega), ih _ (by omega), List.map_cons,
      List.sum_cons]
    omega

theorem sum_take_add_drop (layout : List (List SubView)) (g : Nat) :
    ((layout.take g).map subgroup_width).sum + ((layout.drop g).map subgroup_width).sum
      = (layout.map subgroup_width).sum := by
  rw [← List.sum_append, ← List.map_append, List.take_append_drop]

theorem offset_of_eq_sum (layout : List (List SubView))
    (h : (layout.map subgroup_width).sum < 4294967296) (g : Nat) :
    offset_of layout g = ((layout.take g).map subgroup_width).sum := by
  unfold offset_of
  have := sum_take_add_drop layout g
  rw [foldl_offset_eq_sum _ 0 (by omega), Nat.zero_add]

theorem sum_take_succ (layout : List (List SubView)) (g : Nat) (h : g < layout.length) :
    ((layout.take (g + 1)).map subgroup_width).sum
      = ((layout.take g).map subgroup_width).sum + subgroup_width (layout.getD g []) := by
  rw [List.take_succ, List.getElem?_eq_getElem h, List.map_append, List.sum_append,
    List.getD_eq_getElem _ _ h]
  simp

theorem sum_take_mono (layout : List (List SubView)) (g1 g2 : Nat) (h : g1 ≤ g2) :
    ((layout.take g1).map subgroup_width).sum ≤ ((layout.take g2).map subgroup_width).sum := by
  have h1 := sum_take_add_drop (layout.take g2) g1
  rw [List.take_take, Nat.min_eq_left h] at h1
  omega

theorem sum_take_le (layout : List (List SubView)) (g : Nat) :
    ((layout.take g).map subgroup_width).sum ≤ (layout.map subgroup_width).sum := by
  have := sum_take_add_drop layout g
  omega

theorem shard_entry_ok_append (shards : List SubView) (x : SubView) (s : SubgroupSettings)
    (h : shard_entry_ok shards s) : shard_entry_ok (shards ++ [x]) s := by
  unfold shard_entry_ok at h ⊢
  cases hget : shards[s.shard_num]? with
  | none =>
    rw [hget] at h
    exact absurd h (by simp)
  | some shard =>
    have hlt : s.shard_num < shards.length := by
      by_contra hc
      rw [List.getElem?_eq_none (by omega)] at hget
      exact absurd hget (by simp)
    rw [List.getElem?_append_left hlt]
    exact h

theorem settings_entry_ok_append (layout : List (List SubView)) (shards : List SubView)
    (p : subgroup_id_t × SubgroupSettings) (h : settings_entry_ok layout p) :
    settings_entry_ok (layout ++ [shards]) p := by
  obtain ⟨h1, h2, h3⟩ := h
  refine ⟨by simp only [List.length_append, List.length_singleton]; exact Nat.lt_succ_of_lt h1,
    ?_, ?_⟩
  · rw [offset_of_append_le _ _ _ (Nat.le_of_lt h1)]
    exact h2
  · rw [getD_append_lt _ _ _ h1]
    exact h3

theorem layout_shards_ok (prev_view : Option View) (curr_view : View)
    (subgroup_type : subgroup_type_id) (subgroup_index : Nat) (curr_subgroup_num : subgroup_id_t)
    (num_received_offset : Nat) (good : subgroup_id_t × SubgroupSettings → Prop) :
    ∀ (rest : List SubView) (shard_num : Nat) (acc r : ShardLoop),
      layout_shards prev_view curr_view subgroup_type subgroup_index curr_subgroup_num
        num_received_offset shard_num rest acc = .ok r →
      acc.shards.length = shard_num →
      acc.max_shard_senders = subgroup_width acc.shards →
      (∀ p ∈ acc.subgroup_settings, good p ∨
        (p.1 = curr_subgroup_num ∧ p.2.num_received_offset = num_received_offset ∧
          shard_entry_ok acc.shards p.2)) →
      r.max_shard_senders = subgroup_width r.shards ∧
      (∀ p ∈ r.subgroup_settings, good p ∨
        (p.1 = curr_subgroup_num ∧ p.2.num_received_offset = num_received_offset ∧
          shard_entry_ok r.shards p.2)) := by
  intro rest
  induction rest with
  | nil =>
    intro shard_num acc r h _ hmax hset
    simp only [layout_shards, Except.ok.injEq] at h
    subst h
    exact ⟨hmax, hset⟩
  | cons shard_view rest ih =>
    intro shard_num acc r h hlen hmax hset
    simp only [layout_shards, bind_eq_ok] at h
    obtain ⟨my_id, _, shard2, hshard2, h⟩ := h
    have hsame : shard2.members = shard_view.members ∧ shard2.is_sender = shard_view.is_sender := by
      cases prev_view with
      | none =>
        simp only [init_joined_departed, Except.ok.injEq] at hshard2
        subst hshard2
        exact ⟨rfl, rfl⟩
      | some prev =>
        simp only [init_joined_departed, bind_eq_ok, Except.ok.injEq] at hshard2
        obtain ⟨_, _, _, _, _, _, _, _, hshard2⟩ := hshard2
        subst hshard2
        exact ⟨rfl, rfl⟩
    refine ih _ _ _ h ?_ ?_ ?_
    · simp only [List.length_append, List.length_singleton]
      omega
    · dsimp only
      rw [hmax]
      unfold subgroup_width
      rw [List.foldl_append, List.foldl_cons, List.foldl_nil]
      exact update_max_shard_senders_congr _ _ _ hsame.1.symm hsame.2.symm
    · intro p hp
      dsimp only at hp ⊢
      have hold : p ∈ acc.subgroup_settings →
          good p ∨ (p.1 = curr_subgroup_num ∧ p.2.num_received_offset = num_received_offset ∧
            shard_entry_ok (acc.shards ++ [shard2]) p.2) := by
        intro hmem
        rcases hset p hmem with hg | ⟨h1, h2, h3⟩
        · exact Or.inl hg
        · exact Or.inr ⟨h1, h2, shard_entry_ok_append _ _ _ h3⟩
      split at hp
      · rcases mem_map_assign _ _ _ _ hp with hmem | hnew
        · exact hold hmem
        · right
          subst hnew
          refine ⟨rfl, rfl, ?_⟩
          unfold shard_entry_ok
          dsimp only
          rw [← hlen, List.getElem?_append_right (Nat.le_refl _)]
          simp [hsame.1, hsame.2]
      · exact hold hp

theorem layout_subgroups_ok (prev_view : Option View) (subgroup_type : subgroup_type_id)
    (good : subgroup_id_t × SubgroupSettings → Prop) :
    ∀ (rest : List (List SubView)) (subgroup_index : Nat) (state r : LayoutState),
      layout_subgroups prev_view subgroup_type subgroup_index rest state = .ok r →
      layout_state_ok good state.curr_view.subgroup_shard_views state.subgroup_settings
        state.num_received_offset →
      layout_state_ok good r.curr_view.subgroup_shard_views r.subgroup_settings
        r.num_received_offset := by
  intro rest
  induction rest with
  | nil =>
    intro subgroup_index state r h hok
    simp only [layout_subgroups, Except.ok.injEq] at h
    subst h
    exact hok
  | cons shards rest ih =>
    intro subgroup_index state r h hok
    simp only [layout_subgroups, bind_eq_ok] at h
    obtain ⟨ids, _, ids2, _, done, hdone, h⟩ := h
    obtain ⟨hoff, hset⟩ := hok
    obtain ⟨hmax, hdset⟩ := layout_shards_ok prev_view _ subgroup_type subgroup_index
      state.curr_view.subgroup_shard_views.length state.num_received_offset
      (fun p => good p ∨ settings_entry_ok state.curr_view.subgroup_shard_views p)
      shards 0 _ done hdone rfl rfl
      (fun p hp => Or.inl (hset p hp))
    refine ih _ _ _ h ⟨?_, ?_⟩
    · dsimp only
      rw [show (state.curr_view.subgroup_shard_views ++ [done.shards]).length
          = state.curr_view.subgroup_shard_views.length + 1 by simp,
        offset_of_append_succ, hmax, hoff]
    · intro p hp
      dsimp only at hp ⊢
      rcases hdset p hp with (hg | hold) | ⟨h1, h2, h3⟩
      · exact Or.inl hg
      · exact Or.inr (settings_entry_ok_append _ _ _ hold)
      · right
        refine ⟨?_, ?_, ?_⟩
        · rw [h1]
          simp
        · rw [h1, offset_of_append_le _ _ _ (Nat.le_refl _), h2, hoff]
        · rw [h1, getD_append_length]
          exact h3

theorem layout_types_ok (subgroup_info : SubgroupInfo) (prev_view : Option View)
    (initial_next_unassigned_rank : Int) (good : subgroup_id_t × SubgroupSettings → Prop) :
    ∀ (order : List subgroup_type_id) (state : LayoutState)
      (r : View × List (subgroup_id_t × SubgroupSettings) × Nat),
      layout_types subgroup_info prev_view initial_next_unassigned_rank order state = .ok r →
      layout_state_ok good state.curr_view.subgroup_shard_views state.subgroup_settings
        state.num_received_offset →
      layout_state_ok good r.1.subgroup_shard_views r.2.1 r.2.2 := by
  intro order
  induction order with
  | nil =>
    intro state r h hok
    simp only [layout_types, Except.ok.injEq] at h
    subst h
    exact hok
  | cons subgroup_type rest ih =>
    intro state r h hok
    simp only [layout_types, bind_eq_ok] at h
    obtain ⟨membership_function, _, h⟩ := h
    cases hgen : membership_function state.curr_view state.curr_view.next_unassigned_rank with
    | none =>
      rw [hgen] at h
      simp only [Except.ok.injEq] at h
      subst h
      exact ⟨rfl, fun p hp => absurd hp (List.not_mem_nil _)⟩
    | some result =>
      obtain ⟨subgroup_shard_views, next_unassigned_rank⟩ := result
      rw [hgen] at h
      simp only [bind_eq_ok] at h
      obtain ⟨state2, hstate2, h⟩ := h
      exact ih _ _ h (layout_subgroups_ok prev_view subgroup_type good _ _ _ _ hstate2 hok)

theorem compute_num_received_size_eq (view : View) :
    compute_num_received_size view
      = offset_of view.subgroup_shard_views view.subgroup_shard_views.length := by
  unfold compute_num_received_size offset_of
  rw [List.take_length]
  rfl

theorem mem_getD_layout (layout : List (List SubView)) (g : Nat) (h : g < layout.length) :
    layout.getD g [] ∈ layout := by
  rw [List.getD_eq_getElem _ _ h]
  exact List.getElem_mem h

theorem ranges_laid_out_of_sizes (view : View)
    (hsizes : layout_sizes_ok view.subgroup_shard_views) : ranges_laid_out view := by
  obtain ⟨hshards, hsum⟩ := hsizes
  have hwidth : ∀ shards ∈ view.subgroup_shard_views, ∀ shard ∈ shards,
      shard.num_senders ≤ subgroup_width shards := by
    intro shards hmem shard hshard
    exact (foldl_update_max_ge shards 0 (hshards shards hmem)).2 shard hshard
  refine ⟨?_, hwidth, ?_⟩
  · intro g hg
    rw [offset_of_eq_sum _ hsum, offset_of_eq_sum _ hsum, sum_take_succ _ _ hg]
  · intro g1 g2 shard1 shard2 h12 h2 hm1 hm2
    have h1 : g1 < view.subgroup_shard_views.length := Nat.lt_trans h12 h2
    have w1 := hwidth _ (mem_getD_layout _ _ h1) shard1 hm1
    have w2 := hwidth _ (mem_getD_layout _ _ h2) shard2 hm2
    have s1 := sum_take_succ view.subgroup_shard_views g1 h1
    have s2 := sum_take_succ view.subgroup_shard_views g2 h2
    have m1 := sum_take_mono view.subgroup_shard_views (g1 + 1) g2 h12
    have m2 := sum_take_mono view.subgroup_shard_views (g2 + 1)
      view.subgroup_shard_views.length h2
    rw [compute_num_received_size_eq, offset_of_eq_sum _ hsum, offset_of_eq_sum _ hsum,
      offset_of_eq_sum _ hsum]
    omega

/-! ## C29: the ranges of `num_received` columns of two subgroups do not overlap -/

/-- C29: when `make_subgroup_maps` returns, the size it returns is the one
`compute_num_received_size` computes for the view it built, and every entry it wrote to
`subgroup_settings` carries as `num_received_offset` the start of its subgroup's range and names
one of that subgroup's shards. For every view whose shards have no more senders than members
(and whose sizes stay below 2^32, so that the 32-bit sums do not wrap), each subgroup's range is
as wide as the `max_shard_senders` the loop adds, which is at least the number of senders of
every shard of the subgroup; so for two subgroups the columns
`[num_received_offset, num_received_offset + num_senders)` of their shards do not overlap and
all lie below the total size. -/
theorem num_received_ranges_do_not_overlap (subgroup_info : SubgroupInfo)
    (prev_view : Option View) (curr_view : View)
    (settings0 settings : List (subgroup_id_t × SubgroupSettings)) (view : View) (total : Nat)
    (h : make_subgroup_maps subgroup_info prev_view curr_view settings0
      = .ok (view, settings, total)) :
    total = compute_num_received_size view ∧
    (∀ p ∈ settings, p ∈ settings0 ∨ settings_entry_ok view.subgroup_shard_views p) ∧
    ∀ v : View, layout_sizes_ok v.subgroup_shard_views → ranges_laid_out v := by
  have hok := layout_types_ok subgroup_info prev_view curr_view.next_unassigned_rank
    (fun p => p ∈ settings0) subgroup_info.membership_function_order _ _ h
    ⟨rfl, fun p hp => Or.inl hp⟩
  refine ⟨?_, hok.2, fun v hv => ranges_laid_out_of_sizes v hv⟩
  rw [compute_num_received_size_eq]
  exact hok.1

/-- C29 on a five-member view laid out in two subgroups (shards `{1,2}` with two senders and
`{3,4,5}` with two senders, then `{1,3,5}` with one sender): the ranges start at columns 0 and
2 and the total is 5. -/
theorem num_received_ranges_do_not_overlap_witness :
    ∃ (view : View) (settings : List (subgroup_id_t × SubgroupSettings)) (total : Nat),
      make_subgroup_maps scenario_subgroup_info none restart_leader_state.curr_view []
        = .ok (view, settings, total) ∧
      total = 5 ∧
      settings.map (fun p => (p.1, p.2.shard_num, p.2.num_received_offset)) = [(0, 0, 0), (1, 0, 2)] ∧
      layout_sizes_ok view.subgroup_shard_views ∧
      total = compute_num_received_size view ∧
      (∀ p ∈ settings, p ∈ [] ∨ settings_entry_ok view.subgroup_shard_views p) ∧
      ranges_laid_out view := by
  have hval : (make_subgroup_maps scenario_subgroup_info none restart_leader_state.curr_view
      []).map (fun r => (r.1.subgroup_shard_views,
        r.2.1.map (fun p => (p.1, p.2.shard_num, p.2.num_received_offset)), r.2.2))
      = .ok ([[{ scenario_shard [1, 2] [true, true] with my_rank := 0 },
               scenario_shard [3, 4, 5] [true, true, false]],
              [{ scenario_shard [1, 3, 5] [true, false, false] with my_rank := 0 }]],
             [(0, 0, 0), (1, 0, 2)], 5) := by
    rfl
  cases hq : make_subgroup_maps scenario_subgroup_info none restart_leader_state.curr_view
      [] with
  | error e =>
    rw [hq] at hval
    cases hval
  | ok r =>
    obtain ⟨view, settings, total⟩ := r
    rw [hq] at hval
    simp only [Except.map, Except.ok.injEq, Prod.mk.injEq] at hval
    obtain ⟨hlayout, hsettings, htotal⟩ := hval
    have hsizes : layout_sizes_ok view.subgroup_shard_views := by
      rw [hlayout]
      decide
    obtain ⟨c1, c2, c3⟩ := num_received_ranges_do_not_overlap scenario_subgroup_info none
      restart_leader_state.curr_view [] settings view total hq
    exact ⟨view, settings, total, rfl, htotal, hsettings, hsizes, c1, c2, c3 view hsizes⟩

end Derecho
